import Mathlib

/-! ## ServerDownloadThread: the file download engine of the backup server

A shallow embedding of `urbackupserver/ServerDownloadThread.cpp`.

* The member variables of `ServerDownloadThread` form the record `State`; every
  method is a function on `State`.
* Everything outside the class (the two file transports, the temp-file factory,
  the filesystem, the client control channel, the random number generator) is an
  oracle: the record `Oracle` holds the answer of every external call made while
  one operation runs, named after the call site.
* The engine thread is split at the point where it releases the mutex: `dequeue`
  is the locked block at the top of the loop of `operator()`, `process` is the rest
  of the loop body.  Producers and the look-ahead callbacks of the chunked
  transport are further operations; `apply` runs one operation and `run` a
  sequence of them from a state.
* `size_t` values are natural numbers.  A subtraction from `queue_size` wraps
  modulo `2^64` when it would underflow (`subSizeT`); additions are exact, the
  deque cannot hold `2^62` entries.
-/

namespace ServerDownloadThread

/-! ## Constants (anonymous namespace at the top of the file) -/

def max_queue_size : Nat := 500

def queue_items_full : Nat := 1

def queue_items_chunked : Nat := 4

/-- The value `std::string::npos`, used as the id of snapshot-control items. -/
def npos : Nat := 2 ^ 64 - 1

/-- Unsigned 64-bit subtraction `a -= b` on a value `a < 2^64`. -/
def subSizeT (a b : Nat) : Nat :=
  if b ≤ a then a - b else a + 2 ^ 64 - b

/-! ## Data model -/

/-- Modelled from the spec: enum `EFileClient` of `ServerDownloadThread.h`, which is
not part of the sources; the spec gives `mode` the two values Full and Chunked. -/
inductive EFileClient where
  | EFileClient_Full
  | EFileClient_Chunked
deriving DecidableEq, Repr

/-- Modelled from the spec: enum `EQueueAction` of `ServerDownloadThread.h`; the
five constants are the ones the source file uses. -/
inductive EQueueAction where
  | EQueueAction_Fileclient
  | EQueueAction_Quit
  | EQueueAction_Skip
  | EQueueAction_StartShadowcopy
  | EQueueAction_StopShadowcopy
deriving DecidableEq, Repr

/-- Modelled from the spec: the transport result codes (`_u32` constants of the file
client headers) that the source file names; every other value is `ERR_OTHER`. -/
inductive ErrCode where
  | ERR_SUCCESS
  | ERR_HASH
  | ERR_TIMEOUT
  | ERR_ERROR
  | ERR_BASE_DIR_LOST
  | ERR_CONN_LOST
  | ERR_SOCKET_ERROR
  | ERR_INT_ERROR
  | ERR_ERRORCODES
  | ERR_OTHER (code : Nat)
deriving DecidableEq, Repr

/-- An open file (`IFile*` that is not `NULL`): its file name and its size.  A
pointer that may be `NULL` is an `Option IFile`. -/
structure IFile where
  name : String
  size : Nat
deriving DecidableEq, Repr

/-- Modelled from the spec: struct `SPatchDownloadFiles` of `ServerDownloadThread.h`
(the spec's `PatchFiles`), with the fields the source file reads and writes. -/
structure SPatchDownloadFiles where
  prepared : Bool
  prepare_error : Bool
  orig_file : Option IFile
  patchfile : Option IFile
  chunkhashes : Option IFile
  delete_chunkhashes : Bool
  hashoutput : Option IFile
  hashpath : String
  filepath_old : String
deriving DecidableEq, Repr

/-- Modelled from the spec: struct `SQueueItem` of `ServerDownloadThread.h` (the
spec's `QueueItem`), with the fields the source file reads and writes.  The
metadata blob is a string. -/
structure SQueueItem where
  id : Nat
  fn : String
  short_fn : String
  curr_path : String
  os_path : String
  predicted_filesize : Int
  fileclient : EFileClient
  queued : Bool
  action : EQueueAction
  patch_dl_files : SPatchDownloadFiles
  metadata : String
  is_script : Bool
  metadata_only : Bool
deriving DecidableEq, Repr

/-- The value-initialised record of `SPatchDownloadFiles dlfiles = {}`. -/
def SPatchDownloadFiles.zero : SPatchDownloadFiles :=
  { prepared := false, prepare_error := false, orig_file := none, patchfile := none,
    chunkhashes := none, delete_chunkhashes := false, hashoutput := none,
    hashpath := "", filepath_old := "" }

/-- Modelled from the spec: the default constructor of `SQueueItem`
(`ServerDownloadThread.h`), which `SQueueItem ni;` runs before the enqueue
functions fill in fields.  The spec gives control items the sentinel id and says
`queued` is set only by look-ahead; the mode of a fresh item is Full. -/
def SQueueItem.fresh : SQueueItem :=
  { id := npos, fn := "", short_fn := "", curr_path := "", os_path := "",
    predicted_filesize := 0, fileclient := EFileClient.EFileClient_Full, queued := false,
    action := EQueueAction.EQueueAction_Fileclient,
    patch_dl_files := SPatchDownloadFiles.zero, metadata := "", is_script := false,
    metadata_only := false }

/-- The message `hashFile` writes to the hash pipeline, field by field. -/
structure HashRecord where
  temp_fn : String
  backupid : Int
  incremental : Int
  dstpath : String
  hashpath : String
  hashoutput_fn : String
  old_file : String
  t_filesize : Int
  metadata : String
deriving DecidableEq, Repr

/-- External calls whose order the claims speak about. -/
inductive Ev where
  | GetFile (cfn : String) (fd : Option IFile)
  | GetFilePatch (cfn : String) (patchfile : IFile) (hashoutput : IFile)
  | Seek (f : IFile)
  | ClientMessage (msg : String)
  | InformMetadataStreamEnd
deriving DecidableEq, Repr

/-- The constructor arguments the embedded methods read, the value
`client_main->getProtocolVersions().file_meta`, and the pure helper functions of
other translation units (path conversion, the return-code parser
`atoi(getuntil(" ", s))`), taken as parameters. -/
structure Config where
  backuppath : String
  backuppath_hashes : String
  last_backuppath : String
  last_backuppath_complete : String
  hashed_transfer : Bool
  save_incomplete_file : Bool
  server_token : String
  use_reflink : Bool
  backupid : Int
  r_incremental : Bool
  incremental_num : Int
  file_meta : Int
  os_file_sep : String
  convertToOSPathFromFileClient : String → String
  escape_metadata_fn : String → String
  script_retval : String → Int

/-- Modelled from the spec: the id sets `download_nok_ids` and
`download_partial_ids` (class declared in `ServerDownloadThread.h`): append-only,
`add` appends, `hasId` is membership. -/
def IdSet.add (ids : List Nat) (id : Nat) : List Nat := ids ++ [id]

/-- The member variables of `ServerDownloadThread` together with the state of the
collaborators the claims speak about.

* `hashpipe`: the messages written to `hashpipe_prepare`, oldest first.
* `tmpfiles`: names of the temp files that exist on disk.
* `trace`: external calls, oldest first.
* `curr`: the item the engine thread has taken off the queue and not yet processed.
* `finished`: the engine thread has left its loop.
* `sleeping`: producers that are inside `sleepQueue`. -/
structure State where
  dl_queue : List SQueueItem
  queue_size : Nat
  is_offline : Bool
  skipping : Bool
  all_downloads_ok : Bool
  max_ok_id : Nat
  download_nok_ids : List Nat
  download_partial_ids : List Nat
  hashpipe : List HashRecord
  tmpfiles : List String
  trace : List Ev
  curr : Option SQueueItem
  finished : Bool
  sleeping : List Nat
deriving Repr

/-- The state the constructor sets up. -/
def State.init : State :=
  { dl_queue := [], queue_size := 0, is_offline := false, skipping := false,
    all_downloads_ok := true, max_ok_id := 0, download_nok_ids := [],
    download_partial_ids := [], hashpipe := [], tmpfiles := [], trace := [],
    curr := none, finished := false, sleeping := [] }

/-- The answers of the outside world to the external calls of one operation on one
item.

* `random`: `Server->getRandomNumber()`.
* `tmp_fd`: `getTemporaryFileRetry` in `load_file`.
* `getFile k`: result code of the `k`-th `GetFile` call and the size of `fd` after it.
* `script_output`: reply to `SCRIPT STDERR`.
* `open_old`, `open_old_complete`: `openFile` of the prior file under
  `last_backuppath` and under `last_backuppath_complete`.
* `tmp_pfd`, `tmp_hash_tmp`, `tmp_hashfile_old`: the three `getTemporaryFileRetry`
  calls of `preparePatchDownloadFiles`.
* `open_hashfile_old`, `hashfile_old_metadata_only`: `openFile` of the old chunk
  hashes and `is_metadata_only` on it; `built_hashes_size`: size of the temp file
  after `build_chunk_hashs`.
* `getFilePatch k`: result code of the `k`-th `GetFilePatch` call, the size of the
  patch file after it and the value it leaves in `download_filesize`.
* `retry_pfd k`, `retry_hash_tmp k`: the `getTemporaryFileRetry` calls of the
  `k`-th hash retry of `load_file_patch`.
* `hardlink_file`, `hardlink_hashes`: the two `os_create_hardlink` calls.
* `seek_ok`, `write_ok`, `copy_ok`, `reopen_hashoutput`: `Seek`, `Write`,
  `copy_file` and the final `openFile` of `link_or_copy_file`. -/
structure Oracle where
  random : Nat
  tmp_fd : Option IFile
  getFile : Nat → ErrCode × Nat
  script_output : String
  open_old : Option IFile
  open_old_complete : Option IFile
  tmp_pfd : Option IFile
  tmp_hash_tmp : Option IFile
  tmp_hashfile_old : Option IFile
  open_hashfile_old : Option IFile
  hashfile_old_metadata_only : Bool
  built_hashes_size : Nat
  getFilePatch : Nat → ErrCode × Nat × Int
  retry_pfd : Nat → Option IFile
  retry_hash_tmp : Nat → Option IFile
  hardlink_file : Bool
  hardlink_hashes : Bool
  seek_ok : Bool
  write_ok : Bool
  copy_ok : Bool
  reopen_hashoutput : Option IFile

/-! ## Small helpers -/

/-- The two lines `if(cfn[0]=='/') cfn.erase(0,1);`. -/
def stripSlash (cfn : String) : String :=
  match cfn.data with
  | '/' :: rest => String.mk rest
  | _ => cfn

/-- `ScopedDeleteFile` running its destructor on a file it still guards, and
`destroyTemporaryFile`: the file is removed from disk. -/
def deleteTmp (tmpfiles : List String) (f : Option IFile) : List String :=
  match f with
  | none => tmpfiles
  | some g => tmpfiles.filter (fun n => n != g.name)

/-- A successful `getTemporaryFileRetry`: the new file exists on disk. -/
def createTmp (tmpfiles : List String) (f : Option IFile) : List String :=
  match f with
  | none => tmpfiles
  | some g => g.name :: tmpfiles

/-- The transport wrote to the file: its size is now `n`. -/
def setSize (f : Option IFile) (n : Nat) : Option IFile :=
  f.map (fun g => { g with size := n })

/-- `ServerDownloadThread::getDLPath`; `rnd` is the random number drawn for a script. -/
def getDLPath (cfg : Config) (rnd : Nat) (todl : SQueueItem) : String :=
  let cfn := stripSlash (todl.curr_path ++ "/" ++ todl.fn)
  if todl.is_script then
    "SCRIPT|" ++ cfn ++ "|" ++ toString cfg.incremental_num ++ "|" ++ toString rnd
  else if cfg.server_token ≠ "" then
    cfg.server_token ++ "|" ++ cfn
  else cfn

/-! ## The work queue -/

/-- The item `ni` that `addToQueueFull` builds. -/
def addToQueueFull.ni (id : Nat) (fn short_fn curr_path os_path : String)
    (predicted_filesize : Int) (metadata : String) (is_script metadata_only : Bool) :
    SQueueItem :=
  { SQueueItem.fresh with
    id := id, fn := fn, short_fn := short_fn, curr_path := curr_path, os_path := os_path,
    fileclient := EFileClient.EFileClient_Full,
    patch_dl_files :=
      { SQueueItem.fresh.patch_dl_files with prepared := false, prepare_error := false },
    action := EQueueAction.EQueueAction_Fileclient,
    predicted_filesize := predicted_filesize, metadata := metadata, is_script := is_script,
    metadata_only := metadata_only }

/-- The body of `addToQueueFull` up to `queue_size+=queue_items_full`; the call of
`sleepQueue` that follows for a tail insertion is `sleepQueue_enter`. -/
def addToQueueFull (s : State) (id : Nat) (fn short_fn curr_path os_path : String)
    (predicted_filesize : Int) (metadata : String) (is_script metadata_only at_front : Bool) :
    State :=
  let ni := addToQueueFull.ni id fn short_fn curr_path os_path predicted_filesize metadata
    is_script metadata_only
  { s with
    dl_queue := if at_front then ni :: s.dl_queue else s.dl_queue ++ [ni],
    queue_size := s.queue_size + queue_items_full }

/-- The item `ni` that `addToQueueChunked` builds. -/
def addToQueueChunked.ni (id : Nat) (fn short_fn curr_path os_path : String)
    (predicted_filesize : Int) (metadata : String) (is_script : Bool) : SQueueItem :=
  { SQueueItem.fresh with
    id := id, fn := fn, short_fn := short_fn, curr_path := curr_path, os_path := os_path,
    fileclient := EFileClient.EFileClient_Chunked,
    patch_dl_files :=
      { SQueueItem.fresh.patch_dl_files with prepared := false, prepare_error := false },
    action := EQueueAction.EQueueAction_Fileclient,
    predicted_filesize := predicted_filesize, metadata := metadata, is_script := is_script,
    metadata_only := false }

/-- The body of `addToQueueChunked` up to `queue_size+=queue_items_chunked`. -/
def addToQueueChunked (s : State) (id : Nat) (fn short_fn curr_path os_path : String)
    (predicted_filesize : Int) (metadata : String) (is_script : Bool) : State :=
  let ni := addToQueueChunked.ni id fn short_fn curr_path os_path predicted_filesize metadata
    is_script
  { s with dl_queue := s.dl_queue ++ [ni], queue_size := s.queue_size + queue_items_chunked }

/-- The item `ni` that `addToQueueStartShadowcopy` builds. -/
def addToQueueStartShadowcopy.ni (fn : String) : SQueueItem :=
  { SQueueItem.fresh with
    action := EQueueAction.EQueueAction_StartShadowcopy, fn := fn, id := npos,
    patch_dl_files :=
      { SQueueItem.fresh.patch_dl_files with prepared := false, prepare_error := false } }

/-- The body of `addToQueueStartShadowcopy` up to the call of `sleepQueue`. -/
def addToQueueStartShadowcopy (s : State) (fn : String) : State :=
  { s with dl_queue := s.dl_queue ++ [addToQueueStartShadowcopy.ni fn] }

/-- The item `ni` that `addToQueueStopShadowcopy` builds. -/
def addToQueueStopShadowcopy.ni (fn : String) : SQueueItem :=
  { SQueueItem.fresh with
    action := EQueueAction.EQueueAction_StopShadowcopy, fn := fn, id := npos,
    patch_dl_files :=
      { SQueueItem.fresh.patch_dl_files with prepared := false, prepare_error := false } }

/-- The body of `addToQueueStopShadowcopy` up to the call of `sleepQueue`. -/
def addToQueueStopShadowcopy (s : State) (fn : String) : State :=
  { s with dl_queue := s.dl_queue ++ [addToQueueStopShadowcopy.ni fn] }

/-- The item `ni` that `queueStop` builds. -/
def queueStop.ni : SQueueItem :=
  { SQueueItem.fresh with action := EQueueAction.EQueueAction_Quit }

/-- `ServerDownloadThread::queueStop`. -/
def queueStop (s : State) (immediately : Bool) : State :=
  { s with
    dl_queue := if immediately then queueStop.ni :: s.dl_queue else s.dl_queue ++ [queueStop.ni] }

/-- The item `ni` that `queueSkip` builds. -/
def queueSkip.ni : SQueueItem :=
  { SQueueItem.fresh with action := EQueueAction.EQueueAction_Skip }

/-- `ServerDownloadThread::queueSkip`. -/
def queueSkip (s : State) : State :=
  { s with dl_queue := queueSkip.ni :: s.dl_queue }

/-- Producer `p` enters `sleepQueue`. -/
def sleepQueue_enter (s : State) (p : Nat) : State :=
  { s with sleeping := p :: s.sleeping }

/-- `ServerDownloadThread::sleepQueue` returns for producer `p`: the loop condition
`queue_size>max_queue_size` is false when the producer holds the mutex.  While the
condition is true the producer only releases the mutex, waits and takes it again. -/
def sleepQueue_return (s : State) (p : Nat) : Option State :=
  if p ∈ s.sleeping ∧ ¬ (s.queue_size > max_queue_size) then
    some { s with sleeping := s.sleeping.erase p }
  else none

/-- The locked block at the top of the loop of `operator()`: take the head of the
queue and subtract its weight. -/
def dequeue (s : State) : Option State :=
  match s.dl_queue with
  | [] => none
  | curr :: rest =>
    let queue_size :=
      if curr.action = EQueueAction.EQueueAction_Fileclient then
        if curr.fileclient = EFileClient.EFileClient_Full then
          subSizeT s.queue_size queue_items_full
        else if curr.fileclient = EFileClient.EFileClient_Chunked then
          subSizeT s.queue_size queue_items_chunked
        else s.queue_size
      else s.queue_size
    some { s with dl_queue := rest, queue_size := queue_size, curr := some curr }

/-! ## Hash dispatch and script output -/

/-- `ServerDownloadThread::hashFile`: one message to the hash pipeline.  Closing the
two handles and truncating `hashoutput` leave the message and the engine state
unchanged (the flag `is_script` only selects whether `hashoutput` is truncated). -/
def hashFile (cfg : Config) (s : State) (dstpath hashpath : String) (fd : IFile)
    (hashoutput : Option IFile) (old_file : String) (t_filesize : Int) (metadata : String) :
    State :=
  let data : HashRecord :=
    { temp_fn := fd.name, backupid := cfg.backupid,
      incremental := if cfg.r_incremental then 1 else 0,
      dstpath := dstpath, hashpath := hashpath,
      hashoutput_fn := match hashoutput with
        | some h => h.name
        | none => "",
      old_file := old_file, t_filesize := t_filesize, metadata := metadata }
  { s with hashpipe := s.hashpipe ++ [data] }

/-- `ServerDownloadThread::logScriptOutput`: the reply is `err`, empty, or a return
code followed by the output lines. -/
def logScriptOutput (cfg : Config) (o : Oracle) (s : State) (cfn : String) : Bool × State :=
  let s1 := { s with trace := s.trace ++ [Ev.ClientMessage ("SCRIPT STDERR " ++ cfn)] }
  if o.script_output = "err" then (false, s1)
  else if o.script_output ≠ "" then
    if cfg.script_retval o.script_output ≠ 0 then (false, s1) else (true, s1)
  else (false, s1)

/-! ## Full transfer -/

/-- What the hash-retry loop of `load_file` leaves behind: the last result code, the
temp file and the external calls made. -/
structure GetFileResult where
  rc : ErrCode
  fd : Option IFile
  calls : List Ev
deriving DecidableEq, Repr

/-- The loop `while(rc==ERR_HASH && hash_retries>0)` of `load_file`; `k` is the
number of `GetFile` calls made so far.  The result is `none` when `fd->Seek(0)`
runs on a null `fd`. -/
def getFileRetry (gf : Nat → ErrCode × Nat) (cfn : String) :
    (hash_retries : Nat) → (k : Nat) → GetFileResult → Option GetFileResult
  | 0, _, r => some r
  | n + 1, k, r =>
    if r.rc = ErrCode.ERR_HASH then
      match r.fd with
      | none => none
      | some f =>
        getFileRetry gf cfn n (k + 1)
          { rc := (gf k).1, fd := some { f with size := (gf k).2 },
            calls := r.calls ++ [Ev.Seek f, Ev.GetFile cfn (some f)] }
    else some r

/-- The first `GetFile` call of `load_file` followed by the retry loop. -/
def load_file_transfer (o : Oracle) (cfn : String) (fd : Option IFile) : Option GetFileResult :=
  getFileRetry o.getFile cfn 5 1
    { rc := (o.getFile 0).1, fd := setSize fd (o.getFile 0).2, calls := [Ev.GetFile cfn fd] }

/-- The lookup of the old sibling in `load_file` (used as reflink source hint). -/
def load_file_filepath_old (cfg : Config) (o : Oracle) (todl : SQueueItem) : String :=
  if cfg.use_reflink ∧ (cfg.last_backuppath ≠ "" ∨ cfg.last_backuppath_complete ≠ "") then
    let cfn_short := stripSlash (todl.os_path ++ "/" ++ todl.short_fn)
    match o.open_old with
    | some _ =>
      cfg.last_backuppath ++ cfg.os_file_sep ++ cfg.convertToOSPathFromFileClient cfn_short
    | none =>
      if cfg.last_backuppath_complete ≠ "" then
        match o.open_old_complete with
        | some _ =>
          cfg.last_backuppath_complete ++ cfg.os_file_sep
            ++ cfg.convertToOSPathFromFileClient cfn_short
        | none => ""
      else ""
  else ""

/-- The local variables `ret`, `hash_file` and `script_ok` of `load_file`. -/
structure LoadFileLocals where
  ret : Bool
  hash_file : Bool
  script_ok : Bool
deriving DecidableEq, Repr

/-- The statement `if(rc!=ERR_SUCCESS) ... else ...` of `load_file`, which follows
the retry loop: the values it leaves in the local variables, and the new state. -/
def load_file_classify (cfg : Config) (o : Oracle) (s : State) (todl : SQueueItem)
    (cfn : String) (rc : ErrCode) (fd : Option IFile) : LoadFileLocals × State :=
  if rc ≠ ErrCode.ERR_SUCCESS then
    let s1 := { s with all_downloads_ok := false }
    let ret : Bool :=
      if rc = ErrCode.ERR_TIMEOUT ∨ rc = ErrCode.ERR_ERROR ∨ rc = ErrCode.ERR_BASE_DIR_LOST
      then false else true
    let fd_not_empty : Bool :=
      match fd with
      | some f => decide (f.size > 0)
      | none => false
    if (rc = ErrCode.ERR_TIMEOUT ∨ rc = ErrCode.ERR_ERROR) ∧ cfg.save_incomplete_file = true
        ∧ fd_not_empty = true ∧ todl.metadata_only = false then
      ({ ret := ret, hash_file := true, script_ok := true },
        { s1 with max_ok_id := max s1.max_ok_id todl.id,
                  download_partial_ids := IdSet.add s1.download_partial_ids todl.id })
    else if todl.metadata_only = false then
      ({ ret := ret, hash_file := false, script_ok := true },
        { s1 with download_nok_ids := IdSet.add s1.download_nok_ids todl.id,
                  tmpfiles := deleteTmp s1.tmpfiles fd })
    else ({ ret := ret, hash_file := false, script_ok := true }, s1)
  else
    let l : Bool × State := if todl.is_script then logScriptOutput cfg o s cfn else (true, s)
    ({ ret := true, hash_file := true, script_ok := l.1 },
      { l.2 with max_ok_id := max l.2.max_ok_id todl.id })

/-- The part of `load_file` after the retry loop: classification by the last result
code `rc`, hash dispatch and the return value.  The result is `none` when
`fd->Size()` runs on a null `fd`. -/
def load_file_finish (cfg : Config) (o : Oracle) (s : State) (todl : SQueueItem)
    (cfn : String) (rc : ErrCode) (fd : Option IFile) : Option (Bool × State) :=
  let c := load_file_classify cfg o s todl cfn rc fd
  let result : Bool :=
    if todl.is_script ∧ (rc ≠ ErrCode.ERR_SUCCESS ∨ c.1.script_ok = false) then false
    else c.1.ret
  if c.1.hash_file = true ∧ todl.metadata_only = false then
    match fd with
    | none => none
    | some f =>
      let os_curr_path := cfg.convertToOSPathFromFileClient (todl.os_path ++ "/" ++ todl.short_fn)
      let os_curr_hash_path :=
        cfg.convertToOSPathFromFileClient (todl.os_path ++ "/" ++ cfg.escape_metadata_fn todl.short_fn)
      let dstpath := cfg.backuppath ++ os_curr_path
      let hashpath := cfg.backuppath_hashes ++ os_curr_hash_path
      some (result,
        hashFile cfg c.2 dstpath hashpath f none (load_file_filepath_old cfg o todl) f.size
          todl.metadata)
  else some (result, c.2)

/-- The temp-file allocation at the top of `load_file`: `none` when
`getTemporaryFileRetry` fails, otherwise the handle `fd` that goes to the transport,
which is null for a metadata-only item. -/
def load_file_fd (o : Oracle) (todl : SQueueItem) : Option (Option IFile) :=
  if todl.metadata_only then some none
  else
    match o.tmp_fd with
    | none => none
    | some f => some (some f)

/-- `ServerDownloadThread::load_file`.  The result is `none` when the code
dereferences a null pointer, otherwise the return value and the new state. -/
def load_file (cfg : Config) (o : Oracle) (s : State) (todl : SQueueItem) :
    Option (Bool × State) :=
  match load_file_fd o todl with
  | none => some (false, s)
  | some fd =>
    let s1 := { s with tmpfiles := createTmp s.tmpfiles fd }
    let cfn := getDLPath cfg o.random todl
    match load_file_transfer o cfn fd with
    | none => none
    | some r => load_file_finish cfg o { s1 with trace := s1.trace ++ r.calls } todl cfn r.rc r.fd

/-! ## Patch preparation -/

/-- `ServerDownloadThread::preparePatchDownloadFiles`: the returned record, the value
left in `full_dl`, and the new state.  Three scope guards are live at the later
exits: `pfd_delete` holds `pfd`, and `hash_tmp_delete` is constructed from `pfd` as
well. -/
def preparePatchDownloadFiles (cfg : Config) (o : Oracle) (s : State) (todl : SQueueItem) :
    SPatchDownloadFiles × Bool × State :=
  let dlfiles : SPatchDownloadFiles := { SPatchDownloadFiles.zero with prepare_error := true }
  let cfn_short := stripSlash (todl.os_path ++ "/" ++ todl.short_fn)
  let hashpath :=
    cfg.backuppath_hashes ++ cfg.os_file_sep ++ cfg.convertToOSPathFromFileClient cfn_short
  let file_old : Option IFile :=
    match o.open_old with
    | some f => some f
    | none => if cfg.last_backuppath_complete ≠ "" then o.open_old_complete else none
  let filepath_old : String :=
    match o.open_old with
    | some _ =>
      cfg.last_backuppath ++ cfg.os_file_sep ++ cfg.convertToOSPathFromFileClient cfn_short
    | none =>
      if cfg.last_backuppath_complete ≠ "" then
        cfg.last_backuppath_complete ++ cfg.os_file_sep
          ++ cfg.convertToOSPathFromFileClient cfn_short
      else
        cfg.last_backuppath ++ cfg.os_file_sep ++ cfg.convertToOSPathFromFileClient cfn_short
  match file_old with
  | none => (dlfiles, true, s)
  | some orig =>
    match o.tmp_pfd with
    | none => (dlfiles, false, s)
    | some pfd =>
      let s1 := { s with tmpfiles := createTmp s.tmpfiles (some pfd) }
      match o.tmp_hash_tmp with
      | none => (dlfiles, false, { s1 with tmpfiles := deleteTmp s1.tmpfiles (some pfd) })
      | some hash_tmp =>
        let s2 := { s1 with tmpfiles := createTmp s1.tmpfiles (some hash_tmp) }
        let no_hashes : Bool :=
          match o.open_hashfile_old with
          | none => true
          | some h => decide (h.size = 0) || o.hashfile_old_metadata_only
        if no_hashes then
          match o.tmp_hashfile_old with
          | none =>
            (dlfiles, false,
              { s2 with tmpfiles := deleteTmp (deleteTmp s2.tmpfiles (some pfd)) (some pfd) })
          | some h =>
            ({ dlfiles with
                delete_chunkhashes := true, orig_file := some orig, patchfile := some pfd,
                chunkhashes := some { h with size := o.built_hashes_size },
                hashoutput := some hash_tmp, hashpath := hashpath,
                filepath_old := filepath_old, prepared := true, prepare_error := false },
              false, { s2 with tmpfiles := createTmp s2.tmpfiles (some h) })
        else
          ({ dlfiles with
              delete_chunkhashes := false, orig_file := some orig, patchfile := some pfd,
              chunkhashes := o.open_hashfile_old, hashoutput := some hash_tmp,
              hashpath := hashpath, filepath_old := filepath_old, prepared := true,
              prepare_error := false },
            false, s2)

/-! ## Link-or-copy salvage -/

/-- The temp files the scope guards of `link_or_copy_file` and `load_file_patch`
remove when none of them has been released: `patchfile`, `hashoutput`, and
`chunkhashes` when `delete_chunkhashes` is set. -/
def deleteGuarded (tmpfiles : List String) (patchfile hashoutput chunkhashes : Option IFile)
    (delete_chunkhashes : Bool) : List String :=
  deleteTmp (deleteTmp (deleteTmp tmpfiles patchfile) hashoutput)
    (if delete_chunkhashes then chunkhashes else none)

/-- `ServerDownloadThread::link_or_copy_file`.  The result is `none` when the code
dereferences a null handle or uses a handle it has deleted. -/
def link_or_copy_file (cfg : Config) (o : Oracle) (s : State) (todl : SQueueItem) :
    Option (Bool × State) :=
  let dlfiles := todl.patch_dl_files
  let os_curr_path := cfg.convertToOSPathFromFileClient (todl.os_path ++ "/" ++ todl.short_fn)
  let dstpath := cfg.backuppath ++ os_curr_path
  match dlfiles.orig_file with
  | none => none
  | some orig =>
    let linked : Option Bool :=
      if o.hardlink_file then
        match dlfiles.chunkhashes with
        | none => none
        | some _ => some o.hardlink_hashes
      else some false
    match linked with
    | none => none
    | some true =>
      some (true,
        { s with tmpfiles := deleteGuarded s.tmpfiles dlfiles.patchfile dlfiles.hashoutput
                    dlfiles.chunkhashes dlfiles.delete_chunkhashes })
    | some false =>
      match dlfiles.patchfile, dlfiles.chunkhashes, dlfiles.hashoutput with
      | some patchfile, some _, some _ =>
        let s1 := { s with trace := s.trace ++ [Ev.Seek patchfile] }
        let ok : Bool := o.seek_ok && o.write_ok
        if ok && o.copy_ok && o.reopen_hashoutput.isSome then
          let s2 := hashFile cfg s1 dstpath dlfiles.hashpath patchfile o.reopen_hashoutput
            dlfiles.filepath_old orig.size todl.metadata
          some (true,
            { s2 with tmpfiles := deleteGuarded s2.tmpfiles none none dlfiles.chunkhashes
                        dlfiles.delete_chunkhashes })
        else if ok && o.copy_ok then
          -- `openFile` was reached and returned null:
          -- `hash_tmp_destroy.reset(dlfiles.hashoutput)` gives the guard a null handle
          some (false,
            { s1 with tmpfiles := deleteGuarded s1.tmpfiles (some patchfile) none
                        dlfiles.chunkhashes dlfiles.delete_chunkhashes })
        else
          -- `Seek`, `Write` or `copy_file` failed: `dlfiles.hashoutput` still is the
          -- handle that `delete dlfiles.hashoutput` destroyed, and
          -- `hash_tmp_destroy.reset(dlfiles.hashoutput)` hands it to the guard,
          -- which uses it when the function returns
          none
      | _, _, _ => none

/-! ## Patch transfer -/

/-- How the hash-retry loop of `load_file_patch` ends: `aborted` is the `return false`
after a failed temp-file allocation, `done` carries the last result code, the
current patch and hash-output files and `download_filesize`.  Both carry the temp
files on disk and the external calls made. -/
inductive PatchLoop where
  | aborted (tmpfiles : List String) (calls : List Ev)
  | done (rc : ErrCode) (patchfile hashoutput : IFile) (download_filesize : Int)
      (tmpfiles : List String) (calls : List Ev)
deriving DecidableEq, Repr

/-- The loop `while(rc==ERR_HASH && hash_retries>0)` of `load_file_patch`; `k` is the
number of `GetFilePatch` calls made so far, `chunkdel` is `chunkhashes` when
`delete_chunkhashes` is set.  Each call leaves its own value in `download_filesize`. -/
def getFilePatchRetry (o : Oracle) (cfn : String) (orig chunkhashes : IFile)
    (chunkdel : Option IFile) :
    (hash_retries : Nat) → (k : Nat) → (rc : ErrCode) → (patchfile hashoutput : IFile) →
    (download_filesize : Int) → (tmpfiles : List String) → (calls : List Ev) → PatchLoop
  | 0, _, rc, patchfile, hashoutput, download_filesize, tmpfiles, calls =>
    PatchLoop.done rc patchfile hashoutput download_filesize tmpfiles calls
  | n + 1, k, rc, patchfile, hashoutput, download_filesize, tmpfiles, calls =>
    if rc = ErrCode.ERR_HASH then
      match o.retry_pfd k with
      | none =>
        PatchLoop.aborted
          (deleteTmp (deleteTmp (deleteTmp tmpfiles (some patchfile)) (some hashoutput)) chunkdel)
          (calls ++ [Ev.Seek orig])
      | some pfd =>
        let tmp1 := deleteTmp (createTmp tmpfiles (some pfd)) (some patchfile)
        match o.retry_hash_tmp k with
        | none =>
          PatchLoop.aborted
            (deleteTmp (deleteTmp (deleteTmp tmp1 (some pfd)) (some hashoutput)) chunkdel)
            (calls ++ [Ev.Seek orig])
        | some hash_tmp =>
          let tmp2 := deleteTmp (createTmp tmp1 (some hash_tmp)) (some hashoutput)
          getFilePatchRetry o cfn orig chunkhashes chunkdel n (k + 1)
            (o.getFilePatch k).1 { pfd with size := (o.getFilePatch k).2.1 } hash_tmp
            (o.getFilePatch k).2.2 tmp2
            (calls ++ [Ev.Seek orig, Ev.Seek chunkhashes, Ev.GetFilePatch cfn pfd hash_tmp])
    else PatchLoop.done rc patchfile hashoutput download_filesize tmpfiles calls

/-- The part of `load_file_patch` after the retry loop: classification by the last
result code `rc`, hash dispatch and the return value.  `todl.patch_dl_files` holds
the current `patchfile` and `hashoutput`. -/
def load_file_patch_finish (cfg : Config) (o : Oracle) (s : State) (todl : SQueueItem)
    (cfn : String) (rc : ErrCode) (patchfile hashoutput : IFile) (download_filesize : Int) :
    Option (Bool × State) :=
  let dlfiles := todl.patch_dl_files
  let result (script_ok : Bool) : Bool :=
    if todl.is_script ∧ (rc ≠ ErrCode.ERR_SUCCESS ∨ !script_ok) then false
    else if rc = ErrCode.ERR_TIMEOUT ∨ rc = ErrCode.ERR_ERROR ∨ rc = ErrCode.ERR_SOCKET_ERROR
        ∨ rc = ErrCode.ERR_INT_ERROR ∨ rc = ErrCode.ERR_BASE_DIR_LOST
        ∨ rc = ErrCode.ERR_CONN_LOST then false
    else true
  let dstpath :=
    cfg.backuppath ++ cfg.convertToOSPathFromFileClient (todl.os_path ++ "/" ++ todl.short_fn)
  -- `hashFile` after the guards of `patchfile` and `hashoutput` are released; the guard
  -- of a temporary `chunkhashes` runs at the end of the function
  let hashed (s : State) : State :=
    let s1 := hashFile cfg s dstpath dlfiles.hashpath patchfile (some hashoutput)
      dlfiles.filepath_old download_filesize todl.metadata
    { s1 with tmpfiles := deleteGuarded s1.tmpfiles none none dlfiles.chunkhashes
                dlfiles.delete_chunkhashes }
  if rc ≠ ErrCode.ERR_SUCCESS then
    let s1 := { s with all_downloads_ok := false }
    if rc = ErrCode.ERR_BASE_DIR_LOST ∧ cfg.save_incomplete_file then
      match link_or_copy_file cfg o s1 todl with
      | none => none
      | some (true, s2) =>
        some (result true,
          { s2 with max_ok_id := max s2.max_ok_id todl.id,
                    download_partial_ids := IdSet.add s2.download_partial_ids todl.id })
      | some (false, s2) =>
        some (result true,
          { s2 with download_nok_ids := IdSet.add s2.download_nok_ids todl.id })
    else if (rc = ErrCode.ERR_TIMEOUT ∨ rc = ErrCode.ERR_CONN_LOST
        ∨ rc = ErrCode.ERR_SOCKET_ERROR) ∧ patchfile.size > 0 ∧ cfg.save_incomplete_file then
      some (result true,
        hashed { s1 with max_ok_id := max s1.max_ok_id todl.id,
                         download_partial_ids := IdSet.add s1.download_partial_ids todl.id })
    else
      some (result true,
        { s1 with download_nok_ids := IdSet.add s1.download_nok_ids todl.id,
                  tmpfiles := deleteGuarded s1.tmpfiles (some patchfile) (some hashoutput)
                    dlfiles.chunkhashes dlfiles.delete_chunkhashes })
  else
    let l : Bool × State := if todl.is_script then logScriptOutput cfg o s cfn else (true, s)
    some (result l.1, hashed { l.2 with max_ok_id := max l.2.max_ok_id todl.id })

/-- The remote name `cfn` as the first statements of `load_file_patch` build it. -/
def load_file_patch_cfn (cfg : Config) (o : Oracle) (todl : SQueueItem) : String :=
  let cfn := stripSlash (todl.curr_path ++ "/" ++ todl.fn)
  if todl.is_script then
    "SCRIPT|" ++ cfn ++ "|" ++ toString cfg.incremental_num ++ "|" ++ toString o.random
  else cfn

/-- The remote name passed to `GetFilePatch`: the session token is put in front for
an item that is not a script. -/
def load_file_patch_remote (cfg : Config) (todl : SQueueItem) (cfn : String) : String :=
  if cfg.server_token ≠ "" ∧ !todl.is_script then cfg.server_token ++ "|" ++ cfn else cfn

/-- The first `GetFilePatch` call of `load_file_patch` followed by the retry loop.
The result is `none` when a null handle is passed on to the transport. -/
def load_file_patch_loop (cfg : Config) (o : Oracle) (s : State) (todl : SQueueItem)
    (cfn : String) : Option PatchLoop :=
  let dlfiles := todl.patch_dl_files
  match dlfiles.orig_file, dlfiles.patchfile, dlfiles.chunkhashes, dlfiles.hashoutput with
  | some orig, some patchfile, some chunkhashes, some hashoutput =>
    let cfn1 := load_file_patch_remote cfg todl cfn
    let first := o.getFilePatch 0
    some (getFilePatchRetry o cfn1 orig chunkhashes
      (if dlfiles.delete_chunkhashes then some chunkhashes else none)
      5 1 first.1 { patchfile with size := first.2.1 } hashoutput first.2.2 s.tmpfiles
      [Ev.GetFilePatch cfn1 patchfile hashoutput])
  | _, _, _, _ => none

/-- The part of `load_file_patch` after patch preparation, starting at
`if(dlfiles.prepare_error)`; `cfn` is the remote name built so far.  The first
`GetFilePatch` call may overwrite `todl.predicted_filesize`, which it gets by
reference. -/
def load_file_patch_transfer (cfg : Config) (o : Oracle) (s : State) (todl : SQueueItem)
    (cfn : String) : Option (Bool × State) :=
  let dlfiles := todl.patch_dl_files
  if dlfiles.prepare_error then some (false, s)
  else
    match load_file_patch_loop cfg o s todl cfn with
    | none => none
    | some (PatchLoop.aborted tmpfiles calls) =>
      some (false, { s with tmpfiles := tmpfiles, trace := s.trace ++ calls })
    | some (PatchLoop.done rc pfd hash_tmp download_filesize tmpfiles calls) =>
      let todl1 := { todl with predicted_filesize := (o.getFilePatch 0).2.2 }
      let download_filesize1 :=
        if download_filesize < 0 then todl1.predicted_filesize else download_filesize
      load_file_patch_finish cfg o { s with tmpfiles := tmpfiles, trace := s.trace ++ calls }
        { todl1 with patch_dl_files :=
            { dlfiles with patchfile := some pfd, hashoutput := some hash_tmp } }
        (load_file_patch_remote cfg todl cfn) rc pfd hash_tmp download_filesize1

/-- The statements `bool full_dl=false;` and
`if(!dlfiles.prepared && !dlfiles.prepare_error) dlfiles = preparePatchDownloadFiles(..)`
of `load_file_patch`: the item with its patch files, the value of `full_dl`, and the
state. -/
def load_file_patch_prepare (cfg : Config) (o : Oracle) (s : State) (todl : SQueueItem) :
    SQueueItem × Bool × State :=
  if !todl.patch_dl_files.prepared && !todl.patch_dl_files.prepare_error then
    let p := preparePatchDownloadFiles cfg o s todl
    ({ todl with patch_dl_files := p.1 }, p.2.1, p.2.2)
  else (todl, false, s)

/-- `ServerDownloadThread::load_file_patch`.  The test
`dlfiles.orig_file==NULL && full_dl` sits inside the preparation block in the source;
outside of it `full_dl` is false. -/
def load_file_patch (cfg : Config) (o : Oracle) (s : State) (todl : SQueueItem) :
    Option (Bool × State) :=
  let cfn := load_file_patch_cfn cfg o todl
  let p := load_file_patch_prepare cfg o s todl
  if p.1.patch_dl_files.orig_file = none ∧ p.2.1 = true then
    some (true,
      addToQueueFull p.2.2 todl.id todl.fn todl.short_fn todl.curr_path todl.os_path
        todl.predicted_filesize todl.metadata todl.is_script todl.metadata_only true)
  else load_file_patch_transfer cfg o p.2.2 p.1 cfn

/-! ## Shadow-copy control -/

/-- `ServerDownloadThread::start_shadowcopy`: one message to the client; the reply is
not looked at. -/
def start_shadowcopy (cfg : Config) (s : State) (path : String) : State :=
  { s with trace := s.trace ++
      [Ev.ClientMessage ("START SC \"" ++ path ++ "\"#token=" ++ cfg.server_token)] }

/-- `ServerDownloadThread::stop_shadowcopy`. -/
def stop_shadowcopy (cfg : Config) (s : State) (path : String) : State :=
  { s with trace := s.trace ++
      [Ev.ClientMessage ("STOP SC \"" ++ path ++ "\"#token=" ++ cfg.server_token)] }

/-! ## The engine loop -/

/-- The statements of the branch `if(is_offline || skipping)` from
`download_nok_ids.add(curr.id)` on: the item is recorded as failed and its prepared
files are released. -/
def process_offline_failed (s : State) (curr : SQueueItem) : State :=
  let s1 :=
    { s with download_nok_ids := IdSet.add s.download_nok_ids curr.id,
             all_downloads_ok := false }
  if curr.patch_dl_files.prepared then
    { s1 with tmpfiles := deleteGuarded s1.tmpfiles curr.patch_dl_files.patchfile
                curr.patch_dl_files.hashoutput curr.patch_dl_files.chunkhashes
                curr.patch_dl_files.delete_chunkhashes }
  else s1

/-- The branch `if(is_offline || skipping)` of the loop body of `operator()`. -/
def process_offline (cfg : Config) (o : Oracle) (s : State) (curr : SQueueItem) :
    Option State :=
  if curr.fileclient = EFileClient.EFileClient_Chunked then
    let p : SPatchDownloadFiles × Bool × State :=
      if !curr.patch_dl_files.prepared then preparePatchDownloadFiles cfg o s curr
      else (curr.patch_dl_files, false, s)
    let curr1 := { curr with patch_dl_files := p.1 }
    if !p.2.1 && p.1.prepared && !p.1.prepare_error && p.1.orig_file.isSome then
      match link_or_copy_file cfg o p.2.2 curr1 with
      | none => none
      | some (true, s2) =>
        some { s2 with download_partial_ids := IdSet.add s2.download_partial_ids curr1.id,
                       max_ok_id := max s2.max_ok_id curr1.id }
      | some (false, s2) =>
        some { s2 with download_nok_ids := IdSet.add s2.download_nok_ids curr1.id,
                       all_downloads_ok := false }
    else some (process_offline_failed p.2.2 curr1)
  else some (process_offline_failed s curr)

/-- The loop body of `operator()` after the locked block, run on the item `dequeue`
took; for a `Quit` item also the statements after the loop.  The result is `none`
when no item has been taken or the code dereferences a null handle. -/
def process (cfg : Config) (o : Oracle) (s0 : State) : Option State :=
  match s0.curr with
  | none => none
  | some curr =>
    let s := { s0 with curr := none }
    if curr.action = EQueueAction.EQueueAction_Quit then
      some { s with
        finished := true,
        trace :=
          if !s.is_offline && !s.skipping && decide (cfg.file_meta > 0) then
            s.trace ++ [Ev.InformMetadataStreamEnd]
          else s.trace }
    else if curr.action = EQueueAction.EQueueAction_Skip then
      some { s with skipping := true }
    else if s.is_offline || s.skipping then process_offline cfg o s curr
    else if curr.action = EQueueAction.EQueueAction_StartShadowcopy then
      some (start_shadowcopy cfg s curr.fn)
    else if curr.action = EQueueAction.EQueueAction_StopShadowcopy then
      some (stop_shadowcopy cfg s curr.fn)
    else
      let r : Option (Bool × State) :=
        if curr.fileclient = EFileClient.EFileClient_Full then load_file cfg o s curr
        else if curr.fileclient = EFileClient.EFileClient_Chunked then load_file_patch cfg o s curr
        else some (true, s)
      match r with
      | none => none
      | some (ret, s1) => some (if !ret then { s1 with is_offline := true } else s1)

/-! ## Look-ahead provider -/

/-- Modelled from the spec: `FileClient::MetadataQueue`, an enum of the full-file
transport; the source file names the constant `MetadataQueue_Data`. -/
inductive MetadataQueue where
  | MetadataQueue_Data
  | MetadataQueue_Metadata
deriving DecidableEq, Repr

/-- The loop of `getQueuedFileFull` over the queue: the returned name together with
the updated queue, or `none` when the loop runs to the end. -/
def getQueuedFileFull.scan (cfg : Config) (rnd : Nat) :
    List SQueueItem → Option (String × List SQueueItem)
  | [] => none
  | it :: rest =>
    if it.action = EQueueAction.EQueueAction_Fileclient ∧ it.queued = false
        ∧ it.fileclient = EFileClient.EFileClient_Full ∧ it.predicted_filesize > 0 then
      some (getDLPath cfg rnd it, { it with queued := true } :: rest)
    else
      match getQueuedFileFull.scan cfg rnd rest with
      | none => none
      | some (name, rest1) => some (name, it :: rest1)

/-- `ServerDownloadThread::getQueuedFileFull`: the returned string, the value written
to the out-parameter `metadata` (if any), and the new state. -/
def getQueuedFileFull (cfg : Config) (rnd : Nat) (s : State) :
    String × Option MetadataQueue × State :=
  match getQueuedFileFull.scan cfg rnd s.dl_queue with
  | some (name, q) => (name, some MetadataQueue.MetadataQueue_Data, { s with dl_queue := q })
  | none => ("", none, s)

/-- `ServerDownloadThread::resetQueueFull`. -/
def resetQueueFull (s : State) : State :=
  { s with dl_queue := s.dl_queue.map (fun it =>
      if it.action = EQueueAction.EQueueAction_Fileclient
          ∧ it.fileclient = EFileClient.EFileClient_Full then { it with queued := false }
      else it) }

/-- `ServerDownloadThread::resetQueueChunked`. -/
def resetQueueChunked (s : State) : State :=
  { s with dl_queue := s.dl_queue.map (fun it =>
      if it.action = EQueueAction.EQueueAction_Fileclient
          ∧ it.fileclient = EFileClient.EFileClient_Chunked then { it with queued := false }
      else it) }

/-- The loop shared by `unqueueFileFull` and `unqueueFileChunked`: clear `queued` on
the first queued transfer of mode `fc` whose download path is `name`; `rnd i` is
the random number `getDLPath` draws at queue position `i`. -/
def unqueueScan (cfg : Config) (rnd : Nat → Nat) (fc : EFileClient) (name : String) :
    Nat → List SQueueItem → List SQueueItem
  | _, [] => []
  | i, it :: rest =>
    if it.action = EQueueAction.EQueueAction_Fileclient ∧ it.queued = true
        ∧ it.fileclient = fc ∧ getDLPath cfg (rnd i) it = name then
      { it with queued := false } :: rest
    else it :: unqueueScan cfg rnd fc name (i + 1) rest

/-- `ServerDownloadThread::unqueueFileFull`. -/
def unqueueFileFull (cfg : Config) (rnd : Nat → Nat) (s : State) (fn : String) : State :=
  { s with dl_queue := unqueueScan cfg rnd EFileClient.EFileClient_Full fn 0 s.dl_queue }

/-- `ServerDownloadThread::unqueueFileChunked`. -/
def unqueueFileChunked (cfg : Config) (rnd : Nat → Nat) (s : State) (remotefn : String) :
    State :=
  { s with dl_queue := unqueueScan cfg rnd EFileClient.EFileClient_Chunked remotefn 0 s.dl_queue }

/-- The out-parameters of a successful `getQueuedFileChunked`. -/
structure QueuedChunked where
  remotefn : String
  orig_file : Option IFile
  patchfile : Option IFile
  chunkhashes : Option IFile
  hashoutput : Option IFile
  predicted_filesize : Int
deriving DecidableEq, Repr

/-- The loop of `getQueuedFileChunked` from queue position `i` on: the out-parameters
when it returns `true`, the updated rest of the queue, and the state (of which it
changes `queue_size` and, through patch preparation, `tmpfiles`).  `o i` answers the
external calls made for the item at position `i`. -/
def getQueuedFileChunked.scan (cfg : Config) (o : Nat → Oracle) :
    Nat → List SQueueItem → State → Option QueuedChunked × List SQueueItem × State
  | _, [], s => (none, [], s)
  | i, it :: rest, s =>
    let skip (it1 : SQueueItem) (s1 : State) : Option QueuedChunked × List SQueueItem × State :=
      let r := getQueuedFileChunked.scan cfg o (i + 1) rest s1
      (r.1, it1 :: r.2.1, r.2.2)
    let found (it1 : SQueueItem) (s1 : State) : Option QueuedChunked × List SQueueItem × State :=
      (some { remotefn := getDLPath cfg (o i).random it, orig_file := it1.patch_dl_files.orig_file,
              patchfile := it1.patch_dl_files.patchfile,
              chunkhashes := it1.patch_dl_files.chunkhashes,
              hashoutput := it1.patch_dl_files.hashoutput,
              predicted_filesize := it1.predicted_filesize },
        { it1 with queued := true } :: rest, s1)
    if it.action = EQueueAction.EQueueAction_Fileclient ∧ it.queued = false
        ∧ it.fileclient = EFileClient.EFileClient_Chunked ∧ it.predicted_filesize > 0 then
      if it.patch_dl_files.prepare_error then skip it s
      else if !it.patch_dl_files.prepared then
        let p := preparePatchDownloadFiles cfg (o i) s it
        let it1 := { it with patch_dl_files := p.1 }
        if p.1.orig_file = none ∧ p.2.1 = true then
          let s1 := p.2.2
          skip { it1 with fileclient := EFileClient.EFileClient_Full }
            { s1 with
              queue_size := subSizeT s1.queue_size (queue_items_chunked - queue_items_full) }
        else if it1.patch_dl_files.prepared then found it1 p.2.2
        else skip it1 p.2.2
      else found it s
    else skip it s

/-- `ServerDownloadThread::getQueuedFileChunked`: the out-parameters when it returns
`true` (`none` when it returns `false`) and the new state. -/
def getQueuedFileChunked (cfg : Config) (o : Nat → Oracle) (s : State) :
    Option QueuedChunked × State :=
  let r := getQueuedFileChunked.scan cfg o 0 s.dl_queue s
  (r.1, { r.2.2 with dl_queue := r.2.1 })

/-! ## Operations and runs -/

/-- One atomic step of one of the threads that share the object.

* producer `p`: the four tail/front enqueue functions, `queueSkip`, `queueStop`, and
  `sleepQueue_return` (the producer's pending `sleepQueue` call returns);
* engine thread: `dequeue`, `process`;
* chunked transport: the look-ahead callbacks. -/
inductive Op where
  | addToQueueFull (p : Nat) (id : Nat) (fn short_fn curr_path os_path : String)
      (predicted_filesize : Int) (metadata : String)
      (is_script metadata_only at_front : Bool)
  | addToQueueChunked (p : Nat) (id : Nat) (fn short_fn curr_path os_path : String)
      (predicted_filesize : Int) (metadata : String) (is_script : Bool)
  | addToQueueStartShadowcopy (p : Nat) (fn : String)
  | addToQueueStopShadowcopy (p : Nat) (fn : String)
  | queueSkip
  | queueStop (immediately : Bool)
  | sleepQueue_return (p : Nat)
  | dequeue
  | process (o : Oracle)
  | getQueuedFileFull (rnd : Nat)
  | getQueuedFileChunked (o : Nat → Oracle)
  | unqueueFileFull (rnd : Nat → Nat) (fn : String)
  | unqueueFileChunked (rnd : Nat → Nat) (remotefn : String)
  | resetQueueFull
  | resetQueueChunked

/-- Run one operation; `none` when the operation cannot take place in this state: a
producer inside `sleepQueue` starts no enqueue, the engine takes an item only when
it holds none, the queue is not empty and it has not left its loop. -/
def apply (cfg : Config) (op : Op) (s : State) : Option State :=
  match op with
  | Op.addToQueueFull p id fn short_fn curr_path os_path predicted_filesize metadata is_script
      metadata_only at_front =>
    if p ∈ s.sleeping then none
    else
      let s1 := addToQueueFull s id fn short_fn curr_path os_path predicted_filesize metadata
        is_script metadata_only at_front
      some (if at_front then s1 else sleepQueue_enter s1 p)
  | Op.addToQueueChunked p id fn short_fn curr_path os_path predicted_filesize metadata
      is_script =>
    if p ∈ s.sleeping then none
    else
      some (sleepQueue_enter
        (addToQueueChunked s id fn short_fn curr_path os_path predicted_filesize metadata
          is_script) p)
  | Op.addToQueueStartShadowcopy p fn =>
    if p ∈ s.sleeping then none else some (sleepQueue_enter (addToQueueStartShadowcopy s fn) p)
  | Op.addToQueueStopShadowcopy p fn =>
    if p ∈ s.sleeping then none else some (sleepQueue_enter (addToQueueStopShadowcopy s fn) p)
  | Op.queueSkip => some (queueSkip s)
  | Op.queueStop immediately => some (queueStop s immediately)
  | Op.sleepQueue_return p => sleepQueue_return s p
  | Op.dequeue => if s.curr.isSome ∨ s.finished then none else dequeue s
  | Op.process o => process cfg o s
  | Op.getQueuedFileFull rnd => some (getQueuedFileFull cfg rnd s).2.2
  | Op.getQueuedFileChunked o => some (getQueuedFileChunked cfg o s).2
  | Op.unqueueFileFull rnd fn => some (unqueueFileFull cfg rnd s fn)
  | Op.unqueueFileChunked rnd remotefn => some (unqueueFileChunked cfg rnd s remotefn)
  | Op.resetQueueFull => some (resetQueueFull s)
  | Op.resetQueueChunked => some (resetQueueChunked s)

/-- Run a sequence of operations, first to last. -/
def run (cfg : Config) : List Op → State → Option State
  | [], s => some s
  | op :: ops, s =>
    match apply cfg op s with
    | none => none
    | some s1 => run cfg ops s1

/-- The state `s` is reachable: some sequence of operations leads from the initial
state to it. -/
def Reachable (cfg : Config) (s : State) : Prop :=
  ∃ ops : List Op, run cfg ops State.init = some s

/-! ## Relations between states, invariants and run logs -/

def Untouched (s s' : State) : Prop :=
  s'.dl_queue = s.dl_queue ∧ s'.queue_size = s.queue_size ∧ s'.is_offline = s.is_offline
    ∧ s'.skipping = s.skipping ∧ s'.curr = s.curr ∧ s'.finished = s.finished
    ∧ s'.sleeping = s.sleeping

def Registry (id : Nat) (s s' : State) : Prop :=
  (s'.download_nok_ids = s.download_nok_ids
      ∧ s'.download_partial_ids = s.download_partial_ids
      ∧ (s'.max_ok_id = s.max_ok_id ∨ s'.max_ok_id = max s.max_ok_id id)
      ∧ (s'.all_downloads_ok = s.all_downloads_ok ∨ s'.all_downloads_ok = false))
  ∨ (s'.download_nok_ids = s.download_nok_ids ++ [id]
      ∧ s'.download_partial_ids = s.download_partial_ids
      ∧ s'.max_ok_id = s.max_ok_id ∧ s'.all_downloads_ok = false)
  ∨ (s'.download_partial_ids = s.download_partial_ids ++ [id]
      ∧ s'.download_nok_ids = s.download_nok_ids
      ∧ s'.max_ok_id = max s.max_ok_id id
      ∧ (s'.all_downloads_ok = false
          ∨ (s'.all_downloads_ok = s.all_downloads_ok
              ∧ (s.is_offline = true ∨ s.skipping = true))))

/-- The change of the result registry by a full or a patch transfer: as `Registry`,
and an item recorded as partial comes with `all_downloads_ok` set to false. -/
def TransferRegistry (id : Nat) (s s' : State) : Prop :=
  (s'.download_nok_ids = s.download_nok_ids
      ∧ s'.download_partial_ids = s.download_partial_ids
      ∧ (s'.max_ok_id = s.max_ok_id ∨ s'.max_ok_id = max s.max_ok_id id)
      ∧ (s'.all_downloads_ok = s.all_downloads_ok ∨ s'.all_downloads_ok = false))
  ∨ (s'.download_nok_ids = s.download_nok_ids ++ [id]
      ∧ s'.download_partial_ids = s.download_partial_ids
      ∧ s'.max_ok_id = s.max_ok_id ∧ s'.all_downloads_ok = false)
  ∨ (s'.download_partial_ids = s.download_partial_ids ++ [id]
      ∧ s'.download_nok_ids = s.download_nok_ids
      ∧ s'.max_ok_id = max s.max_ok_id id ∧ s'.all_downloads_ok = false)

/-- The effect of `load_file_patch` when it puts the item back at the head of the
queue as a full transfer: nothing else of the engine state changes. -/
def Requeued (todl : SQueueItem) (s s' : State) : Prop :=
  s'.dl_queue
      = addToQueueFull.ni todl.id todl.fn todl.short_fn todl.curr_path todl.os_path
          todl.predicted_filesize todl.metadata todl.is_script todl.metadata_only :: s.dl_queue
    ∧ s'.queue_size = s.queue_size + queue_items_full
    ∧ s'.is_offline = s.is_offline ∧ s'.skipping = s.skipping ∧ s'.curr = s.curr
    ∧ s'.finished = s.finished ∧ s'.sleeping = s.sleeping
    ∧ s'.all_downloads_ok = s.all_downloads_ok ∧ s'.max_ok_id = s.max_ok_id
    ∧ s'.download_nok_ids = s.download_nok_ids
    ∧ s'.download_partial_ids = s.download_partial_ids
    ∧ s'.hashpipe = s.hashpipe ∧ s'.trace = s.trace

/-- What one `process` step on the item `curr` does to the engine state: either the
queue is left alone and the registry changes as `Registry` says, or the item, a
chunked transfer, is put back at the head as a full transfer and the registry is
left alone. -/
structure ProcessEffect (curr : SQueueItem) (s s' : State) : Prop where
  curr_none : s'.curr = none
  sleeping : s'.sleeping = s.sleeping
  offline : s.is_offline = true → s'.is_offline = true
  skipping : s.skipping = true → s'.skipping = true
  finished : s.finished = true → s'.finished = true
  effect :
    (s'.dl_queue = s.dl_queue ∧ s'.queue_size = s.queue_size ∧ Registry curr.id s s'
        ∧ (s'.download_partial_ids ≠ s.download_partial_ids →
            curr.action = EQueueAction.EQueueAction_Fileclient
              ∨ curr.fileclient = EFileClient.EFileClient_Chunked))
    ∨ (curr.action = EQueueAction.EQueueAction_Fileclient
        ∧ curr.fileclient = EFileClient.EFileClient_Chunked
        ∧ s'.dl_queue
            = addToQueueFull.ni curr.id curr.fn curr.short_fn curr.curr_path curr.os_path
                curr.predicted_filesize curr.metadata curr.is_script curr.metadata_only
              :: s.dl_queue
        ∧ s'.queue_size = s.queue_size + queue_items_full
        ∧ s'.download_nok_ids = s.download_nok_ids
        ∧ s'.download_partial_ids = s.download_partial_ids
        ∧ s'.max_ok_id = s.max_ok_id ∧ s'.all_downloads_ok = s.all_downloads_ok
        ∧ s'.is_offline = s.is_offline ∧ s'.skipping = s.skipping)

/-- The weight of a queue entry in `queue_size`. -/
def weight (it : SQueueItem) : Nat :=
  if it.action = EQueueAction.EQueueAction_Fileclient then
    if it.fileclient = EFileClient.EFileClient_Full then queue_items_full
    else queue_items_chunked
  else 0

/-- The total weight of a queue. -/
def queueWeight (q : List SQueueItem) : Nat := (q.map weight).sum

/-- A queue entry without the fields the look-ahead callbacks write: mode, `queued`
and the patch files.  What is left identifies the entry: action, id, names, paths,
predicted size, metadata and flags. -/
def SQueueItem.ident (it : SQueueItem) : SQueueItem :=
  { it with fileclient := EFileClient.EFileClient_Full, queued := false,
            patch_dl_files := SPatchDownloadFiles.zero }

/-- The entry `it'` is the entry `it` after look-ahead callbacks: the same entry, a
control entry untouched, the mode the same or changed from chunked to full. -/
def Lookahead (it it' : SQueueItem) : Prop :=
  it'.ident = it.ident
    ∧ (it.action ≠ EQueueAction.EQueueAction_Fileclient → it' = it)
    ∧ (it'.fileclient = it.fileclient
        ∨ (it.action = EQueueAction.EQueueAction_Fileclient
            ∧ it.fileclient = EFileClient.EFileClient_Chunked
            ∧ it'.fileclient = EFileClient.EFileClient_Full))

/-- Look-ahead that leaves the mode alone. -/
def SameMode (it it' : SQueueItem) : Prop :=
  it'.ident = it.ident
    ∧ (it.action ≠ EQueueAction.EQueueAction_Fileclient → it' = it)
    ∧ it'.fileclient = it.fileclient

/-- A queued full transfer. -/
def isFullTransfer (it : SQueueItem) : Bool :=
  decide (it.action = EQueueAction.EQueueAction_Fileclient
    ∧ it.fileclient = EFileClient.EFileClient_Full)

/-- A queued chunked transfer. -/
def isChunkedTransfer (it : SQueueItem) : Bool :=
  decide (it.action = EQueueAction.EQueueAction_Fileclient
    ∧ it.fileclient = EFileClient.EFileClient_Chunked)

/-- `queue_size` is the total weight of the queue. -/
def WeightOk (s : State) : Prop := s.queue_size = queueWeight s.dl_queue

/-- The operation `op`, taking `s` to `s1`, does not insert at the head of the queue:
a producer uses a tail enqueue, and the engine does not put its item back. -/
def HeadFree (op : Op) (s s1 : State) : Prop :=
  match op with
  | Op.addToQueueFull _ _ _ _ _ _ _ _ _ _ at_front => at_front = false
  | Op.queueSkip => False
  | Op.queueStop immediately => immediately = false
  | Op.process _ => s1.dl_queue = s.dl_queue
  | _ => True

/-- No operation of the run from `s` inserts at the head of the queue. -/
def NoHeadInsertion (cfg : Config) : List Op → State → Prop
  | [], _ => True
  | op :: ops, s =>
    match apply cfg op s with
    | none => True
    | some s1 => HeadFree op s s1 ∧ NoHeadInsertion cfg ops s1

/-- The producer thread that runs the operation, for the enqueue functions that end
in `sleepQueue` and for the return from `sleepQueue`. -/
def Op.producer : Op → Option Nat
  | Op.addToQueueFull p _ _ _ _ _ _ _ _ _ _ => some p
  | Op.addToQueueChunked p _ _ _ _ _ _ _ _ => some p
  | Op.addToQueueStartShadowcopy p _ => some p
  | Op.addToQueueStopShadowcopy p _ => some p
  | Op.sleepQueue_return p => some p
  | _ => none

/-- The backpressure invariant: producers inside `sleepQueue` are distinct and each
of them accounts for at most one chunked weight above `max_queue_size`. -/
def SleepOk (N : Nat) (s : State) : Prop :=
  WeightOk s ∧ s.sleeping.Nodup ∧ (∀ p ∈ s.sleeping, p < N)
    ∧ s.queue_size ≤ max_queue_size + queue_items_chunked * s.sleeping.length

/-- The item an enqueue operation puts into the queue. -/
def Op.enqueued : Op → Option SQueueItem
  | Op.addToQueueFull _ id fn short_fn curr_path os_path predicted_filesize metadata is_script
      metadata_only _ =>
    some (addToQueueFull.ni id fn short_fn curr_path os_path predicted_filesize metadata
      is_script metadata_only)
  | Op.addToQueueChunked _ id fn short_fn curr_path os_path predicted_filesize metadata
      is_script =>
    some (addToQueueChunked.ni id fn short_fn curr_path os_path predicted_filesize metadata
      is_script)
  | Op.addToQueueStartShadowcopy _ fn => some (addToQueueStartShadowcopy.ni fn)
  | Op.addToQueueStopShadowcopy _ fn => some (addToQueueStopShadowcopy.ni fn)
  | Op.queueSkip => some queueSkip.ni
  | Op.queueStop _ => some queueStop.ni
  | _ => none

/-- The look-ahead callbacks of the chunked transport. -/
def Op.isLookahead : Op → Bool
  | Op.getQueuedFileFull _ => true
  | Op.getQueuedFileChunked _ => true
  | Op.unqueueFileFull _ _ => true
  | Op.unqueueFileChunked _ _ => true
  | Op.resetQueueFull => true
  | Op.resetQueueChunked => true
  | _ => false

/-- The result registry and the mode flags are the same in both states. -/
def RegSame (s s' : State) : Prop :=
  s'.download_nok_ids = s.download_nok_ids
    ∧ s'.download_partial_ids = s.download_partial_ids
    ∧ s'.max_ok_id = s.max_ok_id ∧ s'.all_downloads_ok = s.all_downloads_ok
    ∧ s'.is_offline = s.is_offline ∧ s'.skipping = s.skipping ∧ s'.finished = s.finished
    ∧ s'.curr = s.curr

/-- A control entry as the enqueue functions build it: mode Full and the id `npos`. -/
def ControlShape (it : SQueueItem) : Prop :=
  it.action ≠ EQueueAction.EQueueAction_Fileclient →
    it.fileclient = EFileClient.EFileClient_Full ∧ it.id = npos

/-- What a single operation does, by kind. -/
inductive StepKind (cfg : Config) (op : Op) (s s' : State) : Prop
  | enqueue (ni : SQueueItem) (hop : op.enqueued = some ni) (hshape : ControlShape ni)
      (hq : s'.dl_queue = s.dl_queue ++ [ni]
        ∨ (s'.dl_queue = ni :: s.dl_queue ∧ ¬ HeadFree op s s'))
      (hreg : RegSame s s')
  | dequeue (c : SQueueItem) (hop : op = Op.dequeue) (hcurr : s.curr = none)
      (hq : s.dl_queue = c :: s'.dl_queue) (hc : s'.curr = some c)
      (hreg : s'.download_nok_ids = s.download_nok_ids
        ∧ s'.download_partial_ids = s.download_partial_ids
        ∧ s'.max_ok_id = s.max_ok_id ∧ s'.all_downloads_ok = s.all_downloads_ok
        ∧ s'.is_offline = s.is_offline ∧ s'.skipping = s.skipping
        ∧ s'.finished = s.finished)
  | lookahead (hop : op.enqueued = none) (hnd : op ≠ Op.dequeue)
      (hq : List.Forall₂ Lookahead s.dl_queue s'.dl_queue) (hreg : RegSame s s')
  | process (o : Oracle) (curr : SQueueItem) (hop : op = Op.process o)
      (hcurr : s.curr = some curr) (he : ProcessEffect curr s s')

/-- The items the enqueue operations of a run put into the queue, in order. -/
def enqueueLog (ops : List Op) : List SQueueItem := ops.filterMap Op.enqueued

/-- The item the engine takes off the queue in the operation `op` that leads to `s1`. -/
def Op.taken (op : Op) (s1 : State) : List SQueueItem :=
  match op with
  | Op.dequeue => s1.curr.toList
  | _ => []

/-- The items the engine takes off the queue during a run from `s`, in order. -/
def dequeueLog (cfg : Config) : List Op → State → List SQueueItem
  | [], _ => []
  | op :: ops, s =>
    match apply cfg op s with
    | none => []
    | some s1 => op.taken s1 ++ dequeueLog cfg ops s1

/-- Every id recorded as partial is at most `max_ok_id`. -/
def PartialBound (s : State) : Prop := ∀ id ∈ s.download_partial_ids, id ≤ s.max_ok_id

/-- The failure latch as the code keeps it: a recorded failure means `all_downloads_ok`
is false; a recorded partial file means `all_downloads_ok` is false or the engine is
offline or skipping. -/
def FailureLatch (s : State) : Prop :=
  (s.download_nok_ids ≠ [] → s.all_downloads_ok = false)
    ∧ (s.download_partial_ids ≠ [] →
        s.all_downloads_ok = false ∨ s.is_offline = true ∨ s.skipping = true)

/-- The ids of the transfer items of a list of queue entries. -/
def transferIds (q : List SQueueItem) : List Nat :=
  (q.filter (fun it => decide (it.action = EQueueAction.EQueueAction_Fileclient))).map
    SQueueItem.id

/-- The entries the engine still has to process: the item it holds and the queue. -/
def State.pending (s : State) : List SQueueItem := s.curr.toList ++ s.dl_queue

/-- The invariant behind the disjointness of the two id sets, relative to the ids `H`
handed to the enqueue functions so far: control entries have mode Full and id
`npos`; pending transfers have distinct ids from `H`; a recorded id is no longer
pending and is in one set only. -/
structure IdsOk (H : List Nat) (s : State) : Prop where
  shape : ∀ it ∈ s.pending, ControlShape it
  nodup : (transferIds s.pending).Nodup
  known : ∀ x ∈ transferIds s.pending, x ∈ H
  part : ∀ x ∈ s.download_partial_ids,
    x ∈ H ∧ x ∉ transferIds s.pending ∧ x ∉ s.download_nok_ids
  nok : ∀ x ∈ s.download_nok_ids, (x ∈ H ∨ x = npos) ∧ x ∉ transferIds s.pending

/-- The script reply counts as a failure: `err`, an empty reply, or a return code
that is not zero. -/
def ScriptFails (cfg : Config) (o : Oracle) : Prop :=
  o.script_output = "err" ∨ o.script_output = "" ∨ cfg.script_retval o.script_output ≠ 0

/-- The condition under which `load_file` keeps an incomplete file: the last result
code is `ERR_TIMEOUT` or `ERR_ERROR`, `save_incomplete_file` is set, the temp file is
not empty and the item is not metadata-only. -/
def SavesIncomplete (cfg : Config) (todl : SQueueItem) (rc : ErrCode) (fd : Option IFile) :
    Prop :=
  (rc = ErrCode.ERR_TIMEOUT ∨ rc = ErrCode.ERR_ERROR) ∧ cfg.save_incomplete_file = true
    ∧ (∃ f, fd = some f ∧ 0 < f.size) ∧ todl.metadata_only = false

/-- The condition under which `load_file_patch` keeps an incomplete patch file. -/
def SavesIncompletePatch (cfg : Config) (rc : ErrCode) (patchfile : IFile) : Prop :=
  (rc = ErrCode.ERR_TIMEOUT ∨ rc = ErrCode.ERR_CONN_LOST ∨ rc = ErrCode.ERR_SOCKET_ERROR)
    ∧ patchfile.size > 0 ∧ cfg.save_incomplete_file = true

/-- The item `load_file_patch_finish` works on after a retry loop that ended with the
files `pfd` and `hash_tmp`. -/
def load_file_patch_item (o : Oracle) (todl : SQueueItem) (pfd hash_tmp : IFile) :
    SQueueItem :=
  { todl with
    predicted_filesize := (o.getFilePatch 0).2.2,
    patch_dl_files :=
      { todl.patch_dl_files with patchfile := some pfd, hashoutput := some hash_tmp } }

/-- The result code the transport returned last in the step `process` takes from `s`.
It is defined when the step is a full or a patch transfer that reaches the
classification by result code: the engine is neither offline nor skipping, the
item is a transfer, its temp file or patch files are there, and the retry loop
ran to its end. -/
def transfer_rc (cfg : Config) (o : Oracle) (s : State) : Option ErrCode :=
  match s.curr with
  | none => none
  | some curr =>
    if curr.action ≠ EQueueAction.EQueueAction_Fileclient ∨ s.is_offline = true
        ∨ s.skipping = true then none
    else if curr.fileclient = EFileClient.EFileClient_Full then
      match load_file_fd o curr with
      | none => none
      | some fd => (load_file_transfer o (getDLPath cfg o.random curr) fd).map GetFileResult.rc
    else
      let p := load_file_patch_prepare cfg o { s with curr := none } curr
      if p.1.patch_dl_files.prepare_error then none
      else
        match load_file_patch_loop cfg o p.2.2 p.1 (load_file_patch_cfn cfg o curr) with
        | some (PatchLoop.done rc _ _ _ _ _) => some rc
        | _ => none

instance HeadFree.instDecidable : (op : Op) → (s s1 : State) → Decidable (HeadFree op s s1)
  | Op.addToQueueFull _ _ _ _ _ _ _ _ _ _ at_front, _, _ =>
    inferInstanceAs (Decidable (at_front = false))
  | Op.addToQueueChunked _ _ _ _ _ _ _ _ _, _, _ => inferInstanceAs (Decidable True)
  | Op.addToQueueStartShadowcopy _ _, _, _ => inferInstanceAs (Decidable True)
  | Op.addToQueueStopShadowcopy _ _, _, _ => inferInstanceAs (Decidable True)
  | Op.queueSkip, _, _ => inferInstanceAs (Decidable False)
  | Op.queueStop immediately, _, _ => inferInstanceAs (Decidable (immediately = false))
  | Op.sleepQueue_return _, _, _ => inferInstanceAs (Decidable True)
  | Op.dequeue, _, _ => inferInstanceAs (Decidable True)
  | Op.process _, s, s1 => inferInstanceAs (Decidable (s1.dl_queue = s.dl_queue))
  | Op.getQueuedFileFull _, _, _ => inferInstanceAs (Decidable True)
  | Op.getQueuedFileChunked _, _, _ => inferInstanceAs (Decidable True)
  | Op.unqueueFileFull _ _, _, _ => inferInstanceAs (Decidable True)
  | Op.unqueueFileChunked _ _, _, _ => inferInstanceAs (Decidable True)
  | Op.resetQueueFull, _, _ => inferInstanceAs (Decidable True)
  | Op.resetQueueChunked, _, _ => inferInstanceAs (Decidable True)

instance NoHeadInsertion.instDecidable (cfg : Config) :
    (ops : List Op) → (s : State) → Decidable (NoHeadInsertion cfg ops s)
  | [], _ => isTrue True.intro
  | op :: ops, s =>
    match h : apply cfg op s with
    | none => isTrue (by simp only [NoHeadInsertion, h])
    | some s1 =>
      match HeadFree.instDecidable op s s1, NoHeadInsertion.instDecidable cfg ops s1 with
      | isTrue h1, isTrue h2 => isTrue (by simp only [NoHeadInsertion, h]; exact ⟨h1, h2⟩)
      | isFalse h1, _ => isFalse (by simp only [NoHeadInsertion, h]; exact fun x => h1 x.1)
      | _, isFalse h2 => isFalse (by simp only [NoHeadInsertion, h]; exact fun x => h2 x.2)

def Demo.cfg : Config :=
  { backuppath := "/backup/new", backuppath_hashes := "/backup/new/.hashes",
    last_backuppath := "/backup/old", last_backuppath_complete := "",
    hashed_transfer := true, save_incomplete_file := true, server_token := "",
    use_reflink := false, backupid := 1, r_incremental := false, incremental_num := 0,
    file_meta := 0, os_file_sep := "/", convertToOSPathFromFileClient := fun p => p,
    escape_metadata_fn := fun p => p, script_retval := fun _ => 0 }

/-- The id `id` was added to at most one of the two id sets between `s` and `s'`, and
nothing else was added. -/
def AddsToOneSet (id : Nat) (s s' : State) : Prop :=
  (s'.download_nok_ids = s.download_nok_ids
      ∧ s'.download_partial_ids = s.download_partial_ids)
  ∨ (s'.download_nok_ids = s.download_nok_ids ++ [id]
      ∧ s'.download_partial_ids = s.download_partial_ids)
  ∨ (s'.download_partial_ids = s.download_partial_ids ++ [id]
      ∧ s'.download_nok_ids = s.download_nok_ids)

/-! ## Look-ahead candidates, retry rounds and temp files of a record -/

/-- The items `getQueuedFileFull` looks for: a transfer of mode full that is not
yet queued and has a positive predicted size. -/
def FullCandidate (it : SQueueItem) : Prop :=
  it.action = EQueueAction.EQueueAction_Fileclient ∧ it.queued = false
    ∧ it.fileclient = EFileClient.EFileClient_Full ∧ it.predicted_filesize > 0

instance FullCandidate.instDecidable (it : SQueueItem) : Decidable (FullCandidate it) := by
  unfold FullCandidate
  infer_instance

/-- The event is a `GetFile` call of the full-file transport. -/
def Ev.isGetFile : Ev → Bool
  | Ev.GetFile _ _ => true
  | _ => false

/-- The event is a `Seek` on a file handle. -/
def Ev.isSeek : Ev → Bool
  | Ev.Seek _ => true
  | _ => false

/-- The external calls of the first `j` rounds of the retry loop of `load_file` on
the temp file `f`: each round rewinds the file, which has the size the call
before left, and calls `GetFile` on it. -/
def retryCalls (gf : Nat → ErrCode × Nat) (cfn : String) (f : IFile) : Nat → List Ev
  | 0 => []
  | j + 1 =>
    retryCalls gf cfn f j
      ++ [Ev.Seek { f with size := (gf j).2 }, Ev.GetFile cfn (some { f with size := (gf j).2 })]

/-- The local variables of `load_file` after `j` rounds of the retry loop. -/
def retryState (gf : Nat → ErrCode × Nat) (cfn : String) (f : IFile) (j : Nat) :
    GetFileResult :=
  { rc := (gf j).1, fd := some { f with size := (gf j).2 },
    calls := Ev.GetFile cfn (some f) :: retryCalls gf cfn f j }

/-- The temp files a patch-files record refers to: the synthesised chunk hashes when
`delete_chunkhashes` is set, the hash output and the patch file. -/
def SPatchDownloadFiles.tmpNames (d : SPatchDownloadFiles) : List String :=
  (if d.delete_chunkhashes then (d.chunkhashes.map IFile.name).toList else [])
    ++ (d.hashoutput.map IFile.name).toList ++ (d.patchfile.map IFile.name).toList

/-- The run of `link_or_copy_file` stays clear of the hash-output handle it has
deleted: the two hard links succeed, or `Seek`, `Write` and `copy_file` succeed. -/
def SalvageDefined (o : Oracle) : Prop :=
  (o.hardlink_file && o.hardlink_hashes) = true
    ∨ (o.seek_ok && o.write_ok && o.copy_ok) = true

/-! ## Concrete runs -/

/-- An oracle in which every external call succeeds: transfers return `ERR_SUCCESS`
with 100 bytes, the prior file and its chunk hashes exist, links can be made. -/
def Demo.oracle : Oracle :=
  { random := 0, tmp_fd := some { name := "tmp_fd", size := 0 },
    getFile := fun _ => (ErrCode.ERR_SUCCESS, 100), script_output := "0 ok",
    open_old := some { name := "old", size := 10 }, open_old_complete := none,
    tmp_pfd := some { name := "tmp_pfd", size := 0 },
    tmp_hash_tmp := some { name := "tmp_hash", size := 0 },
    tmp_hashfile_old := some { name := "tmp_hashes_old", size := 0 },
    open_hashfile_old := some { name := "old_hashes", size := 10 },
    hashfile_old_metadata_only := false, built_hashes_size := 10,
    getFilePatch := fun _ => (ErrCode.ERR_SUCCESS, 100, 100),
    retry_pfd := fun _ => some { name := "tmp_pfd2", size := 0 },
    retry_hash_tmp := fun _ => some { name := "tmp_hash2", size := 0 },
    hardlink_file := true, hardlink_hashes := true, seek_ok := true, write_ok := true,
    copy_ok := true, reopen_hashoutput := some { name := "tmp_hash", size := 10 } }

/-- The full transfer times out after 50 bytes. -/
def Demo.oracleTimeout : Oracle :=
  { Demo.oracle with getFile := fun _ => (ErrCode.ERR_TIMEOUT, 50) }

/-- The full transfer loses the connection. -/
def Demo.oracleConnLost : Oracle :=
  { Demo.oracle with getFile := fun _ => (ErrCode.ERR_CONN_LOST, 0) }

/-- No temp file can be created for the full transfer. -/
def Demo.oracleNoTmp : Oracle := { Demo.oracle with tmp_fd := none }

/-- The hard link of the prior file fails; the copy works, but the copied hash
output cannot be opened again. -/
def Demo.oracleNoSalvage : Oracle :=
  { Demo.oracle with hardlink_file := false, reopen_hashoutput := none }

/-- The patch transfer times out after 30 bytes. -/
def Demo.oraclePatchTimeout : Oracle :=
  { Demo.oracle with getFilePatch := fun _ => (ErrCode.ERR_TIMEOUT, 30, 100) }

/-- The patch transfer reports that the base directory is lost. -/
def Demo.oraclePatchBaseDirLost : Oracle :=
  { Demo.oracle with getFilePatch := fun _ => (ErrCode.ERR_BASE_DIR_LOST, 0, 100) }

/-- The patch transfer reports a hash mismatch and the retry gets no temp file. -/
def Demo.oraclePatchHash : Oracle :=
  { Demo.oracle with getFilePatch := fun _ => (ErrCode.ERR_HASH, 30, 100),
                     retry_pfd := fun _ => none }

/-- The transfer succeeds and the script replies `err`. -/
def Demo.oracleScriptErr : Oracle := { Demo.oracle with script_output := "err" }

def Demo.full1 : SQueueItem := addToQueueFull.ni 1 "a" "a" "" "" 100 "" false false

def Demo.meta1 : SQueueItem := addToQueueFull.ni 1 "a" "a" "" "" 100 "" false true

def Demo.chunked2 : SQueueItem := addToQueueChunked.ni 2 "b" "b" "" "" 100 "" false

/-- A full and a chunked item; the full transfer times out and is kept as partial,
the engine goes offline, the salvage of the chunked item fails. -/
def Demo.opsC1 : List Op :=
  [Op.addToQueueFull 0 1 "a" "a" "" "" 100 "" false false false, Op.sleepQueue_return 0,
   Op.addToQueueChunked 0 2 "b" "b" "" "" 100 "" false, Op.sleepQueue_return 0,
   Op.dequeue, Op.process Demo.oracleTimeout, Op.dequeue, Op.process Demo.oracleNoSalvage]

def Demo.stateC1 : State := (run Demo.cfg Demo.opsC1 State.init).getD State.init

def Demo.stateC2 : State :=
  ((load_file Demo.cfg Demo.oracle State.init Demo.full1).getD (false, State.init)).2

/-- A skip and a chunked item, which is salvaged by hard links. -/
def Demo.opsC4bad : List Op :=
  [Op.queueSkip, Op.addToQueueChunked 0 1 "b" "b" "" "" 100 "" false, Op.dequeue,
   Op.process Demo.oracle, Op.dequeue, Op.process Demo.oracle]

/-- One producer enqueues `n` chunked items, `sleepQueue` returning each time. -/
def Demo.fill : Nat → List Op
  | 0 => []
  | n + 1 =>
    Op.addToQueueChunked 0 n "f" "f" "" "" 10 "" false :: Op.sleepQueue_return 0 :: Demo.fill n

/-- One producer enqueues 126 chunked items. -/
def Demo.opsC5 : List Op :=
  Demo.fill 125 ++ [Op.addToQueueChunked 0 125 "f" "f" "" "" 10 "" false]

def Demo.stateC5 : State := (run Demo.cfg Demo.opsC5 State.init).getD State.init

def Demo.opsC6 : List Op :=
  [Op.addToQueueFull 0 1 "a" "a" "" "" 100 "" false false false, Op.sleepQueue_return 0,
   Op.addToQueueChunked 0 2 "b" "b" "" "" 100 "" false]

def Demo.stateC6 : State := (run Demo.cfg Demo.opsC6 State.init).getD State.init

/-- Three tail enqueues, a look-ahead and two dequeues. -/
def Demo.opsC7 : List Op :=
  [Op.addToQueueFull 0 1 "a" "a" "" "" 100 "" false false false, Op.sleepQueue_return 0,
   Op.addToQueueChunked 0 2 "b" "b" "" "" 100 "" false, Op.sleepQueue_return 0,
   Op.addToQueueStartShadowcopy 0 "C:", Op.getQueuedFileChunked (fun _ => Demo.oracle),
   Op.dequeue, Op.process Demo.oracle, Op.dequeue]

def Demo.stateC7 : State := (run Demo.cfg Demo.opsC7 State.init).getD State.init

/-- A full script item is enqueued and taken by the engine. -/
def Demo.opsC10 : List Op :=
  [Op.addToQueueFull 0 1 "a" "a" "" "" 100 "" true false false, Op.sleepQueue_return 0,
   Op.dequeue]

def Demo.stateC10 : State := (run Demo.cfg Demo.opsC10 State.init).getD State.init

/-- The temp file for the patch cannot be created. -/
def Demo.oracleNoPfd : Oracle := { Demo.oracle with tmp_pfd := none }

/-- The old chunk hashes are missing and the temp file for new ones cannot be
created. -/
def Demo.oracleNoHashfile : Oracle :=
  { Demo.oracle with open_hashfile_old := none, tmp_hashfile_old := none }

/-- The full transfer always reports a hash mismatch. -/
def Demo.oracleHash : Oracle :=
  { Demo.oracle with getFile := fun _ => (ErrCode.ERR_HASH, 0) }

/-- The full transfer reports a hash mismatch twice and then succeeds. -/
def Demo.oracleHashTwice : Oracle :=
  { Demo.oracle with
    getFile := fun i => if i < 2 then (ErrCode.ERR_HASH, 7) else (ErrCode.ERR_SUCCESS, 100) }

/-- There is no prior file in either backup. -/
def Demo.oracleNoPrior : Oracle :=
  { Demo.oracle with open_old := none, open_old_complete := none }

/-- A chunked item whose look-ahead preparation fails, then a skip; the engine takes
the skip item and then the chunked item. -/
def Demo.opsC11 : List Op :=
  [Op.addToQueueChunked 0 1 "b" "b" "" "" 100 "" false, Op.sleepQueue_return 0,
   Op.getQueuedFileChunked (fun _ => Demo.oracleNoPfd), Op.queueSkip, Op.dequeue,
   Op.process Demo.oracle, Op.dequeue]

def Demo.stateC11 : State := (run Demo.cfg Demo.opsC11 State.init).getD State.init

/-- A chunked item is enqueued and taken by the engine. -/
def Demo.opsC15 : List Op :=
  [Op.addToQueueChunked 0 2 "b" "b" "" "" 100 "" false, Op.sleepQueue_return 0, Op.dequeue]

def Demo.stateC15 : State := (run Demo.cfg Demo.opsC15 State.init).getD State.init

theorem registry_of_transfer {id : Nat} {s s' : State} (h : TransferRegistry id s s') :
    Registry id s s' := by
  rcases h with h | h | ⟨h1, h2, h3, h4⟩
  · exact Or.inl h
  · exact Or.inr (Or.inl h)
  · exact Or.inr (Or.inr ⟨h1, h2, h3, Or.inl h4⟩)

theorem logScriptOutput_snd (cfg : Config) (o : Oracle) (s : State) (cfn : String) :
    (logScriptOutput cfg o s cfn).2
      = { s with trace := s.trace ++ [Ev.ClientMessage ("SCRIPT STDERR " ++ cfn)] } := by
  unfold logScriptOutput
  repeat' split
  all_goals rfl

theorem load_file_classify_summary (cfg : Config) (o : Oracle) (s : State)
    (todl : SQueueItem) (cfn : String) (rc : ErrCode) (fd : Option IFile) :
    Untouched s (load_file_classify cfg o s todl cfn rc fd).2
      ∧ TransferRegistry todl.id s (load_file_classify cfg o s todl cfn rc fd).2 := by
  unfold load_file_classify
  simp only
  split
  · split
    · simp [Untouched, TransferRegistry, IdSet.add]
    · split <;> simp [Untouched, TransferRegistry, IdSet.add]
  · split <;> simp [Untouched, TransferRegistry, logScriptOutput_snd]

theorem load_file_finish_summary {cfg : Config} {o : Oracle} {s s' : State}
    {todl : SQueueItem} {cfn : String} {rc : ErrCode} {fd : Option IFile} {ret : Bool}
    (h : load_file_finish cfg o s todl cfn rc fd = some (ret, s')) :
    Untouched s s' ∧ TransferRegistry todl.id s s' := by
  have hc := load_file_classify_summary cfg o s todl cfn rc fd
  unfold load_file_finish at h
  simp only at h
  split at h
  · split at h
    · contradiction
    · simp only [Option.some.injEq, Prod.mk.injEq] at h
      obtain ⟨-, rfl⟩ := h
      simpa [Untouched, TransferRegistry, hashFile] using hc
  · simp only [Option.some.injEq, Prod.mk.injEq] at h
    obtain ⟨-, rfl⟩ := h
    exact hc

theorem untouched_refl (s : State) : Untouched s s := by simp [Untouched]

theorem untouched_trans {s s1 s2 : State} (h1 : Untouched s s1) (h2 : Untouched s1 s2) :
    Untouched s s2 := by
  simp only [Untouched] at *
  simp [h1, h2]

theorem load_file_summary {cfg : Config} {o : Oracle} {s s' : State} {todl : SQueueItem}
    {ret : Bool} (h : load_file cfg o s todl = some (ret, s')) :
    Untouched s s' ∧ TransferRegistry todl.id s s' := by
  unfold load_file at h
  split at h
  · simp only [Option.some.injEq, Prod.mk.injEq] at h
    obtain ⟨-, rfl⟩ := h
    simp [Untouched, TransferRegistry]
  · simp only at h
    split at h
    · contradiction
    · have := load_file_finish_summary h
      simpa [Untouched, TransferRegistry] using this

theorem preparePatchDownloadFiles_frame (cfg : Config) (o : Oracle) (s : State)
    (todl : SQueueItem) :
    ∃ t, (preparePatchDownloadFiles cfg o s todl).2.2 = { s with tmpfiles := t } := by
  unfold preparePatchDownloadFiles
  simp only
  repeat' split
  all_goals exact ⟨_, rfl⟩

/-- What `preparePatchDownloadFiles` returns: all four files and `prepared`, or no
prior file and `prepare_error`. -/
theorem preparePatchDownloadFiles_result (cfg : Config) (o : Oracle) (s : State)
    (todl : SQueueItem) :
    let p := preparePatchDownloadFiles cfg o s todl
    (p.1.prepared = true ∧ p.1.prepare_error = false ∧ p.2.1 = false
        ∧ p.1.orig_file.isSome ∧ p.1.patchfile.isSome ∧ p.1.chunkhashes.isSome
        ∧ p.1.hashoutput.isSome)
    ∨ (p.1.prepared = false ∧ p.1.prepare_error = true) := by
  unfold preparePatchDownloadFiles
  simp only
  repeat' split
  all_goals cases hh : o.open_hashfile_old <;> simp_all [SPatchDownloadFiles.zero]

theorem link_or_copy_file_frame {cfg : Config} {o : Oracle} {s s' : State}
    {todl : SQueueItem} {b : Bool} (h : link_or_copy_file cfg o s todl = some (b, s')) :
    ∃ t tr hp, s' = { s with tmpfiles := t, trace := tr, hashpipe := hp } := by
  unfold link_or_copy_file at h
  simp only [hashFile] at h
  repeat' split at h
  all_goals first
    | contradiction
    | (simp only [Option.some.injEq, Prod.mk.injEq] at h
       obtain ⟨-, rfl⟩ := h
       exact ⟨_, _, _, rfl⟩)

theorem load_file_patch_finish_summary {cfg : Config} {o : Oracle} {s s' : State}
    {todl : SQueueItem} {cfn : String} {rc : ErrCode} {patchfile hashoutput : IFile}
    {download_filesize : Int} {ret : Bool}
    (h : load_file_patch_finish cfg o s todl cfn rc patchfile hashoutput download_filesize
      = some (ret, s')) :
    Untouched s s' ∧ TransferRegistry todl.id s s' := by
  unfold load_file_patch_finish at h
  by_cases hrc : rc = ErrCode.ERR_SUCCESS
  · subst hrc
    simp only [ne_eq, not_true_eq_false, if_false, hashFile, logScriptOutput_snd,
      Option.some.injEq, Prod.mk.injEq] at h
    obtain ⟨-, rfl⟩ := h
    cases hs : todl.is_script <;> simp [Untouched, TransferRegistry, logScriptOutput_snd]
  · simp only [ne_eq, hrc, not_false_eq_true, if_true] at h
    split at h
    · rcases hl : link_or_copy_file cfg o { s with all_downloads_ok := false } todl
        with _ | ⟨b, s2⟩
      · simp [hl] at h
      · obtain ⟨t, tr, hp, rfl⟩ := link_or_copy_file_frame hl
        cases b <;> simp only [hl, IdSet.add, Option.some.injEq, Prod.mk.injEq] at h <;>
          (obtain ⟨-, rfl⟩ := h; simp [Untouched, TransferRegistry])
    · split at h <;>
        (simp only [hashFile, IdSet.add, Option.some.injEq, Prod.mk.injEq] at h
         obtain ⟨-, rfl⟩ := h
         simp [Untouched, TransferRegistry])

theorem load_file_patch_transfer_summary {cfg : Config} {o : Oracle} {s s' : State}
    {todl : SQueueItem} {cfn : String} {ret : Bool}
    (h : load_file_patch_transfer cfg o s todl cfn = some (ret, s')) :
    Untouched s s' ∧ TransferRegistry todl.id s s' := by
  unfold load_file_patch_transfer at h
  simp only at h
  split at h
  · simp only [Option.some.injEq, Prod.mk.injEq] at h
    obtain ⟨-, rfl⟩ := h
    simp [Untouched, TransferRegistry]
  · split at h
    · contradiction
    · simp only [Option.some.injEq, Prod.mk.injEq] at h
      obtain ⟨-, rfl⟩ := h
      simp [Untouched, TransferRegistry]
    · have := load_file_patch_finish_summary h
      simpa [Untouched, TransferRegistry] using this

theorem load_file_patch_prepare_frame (cfg : Config) (o : Oracle) (s : State)
    (todl : SQueueItem) :
    ∃ t, (load_file_patch_prepare cfg o s todl).2.2 = { s with tmpfiles := t } := by
  unfold load_file_patch_prepare
  split
  · exact preparePatchDownloadFiles_frame cfg o s todl
  · exact ⟨s.tmpfiles, rfl⟩

theorem load_file_patch_prepare_id (cfg : Config) (o : Oracle) (s : State)
    (todl : SQueueItem) : (load_file_patch_prepare cfg o s todl).1.id = todl.id := by
  unfold load_file_patch_prepare
  split <;> rfl

theorem load_file_patch_summary {cfg : Config} {o : Oracle} {s s' : State}
    {todl : SQueueItem} {ret : Bool} (h : load_file_patch cfg o s todl = some (ret, s')) :
    (Untouched s s' ∧ TransferRegistry todl.id s s') ∨ (ret = true ∧ Requeued todl s s') := by
  unfold load_file_patch at h
  simp only at h
  obtain ⟨t, ht⟩ := load_file_patch_prepare_frame cfg o s todl
  split at h
  · right
    simp only [Option.some.injEq, Prod.mk.injEq] at h
    obtain ⟨rfl, rfl⟩ := h
    rw [ht]
    simp [Requeued, addToQueueFull]
  · left
    have := load_file_patch_transfer_summary h
    rw [ht, load_file_patch_prepare_id] at this
    simpa [Untouched, TransferRegistry] using this

theorem process_offline_summary {cfg : Config} {o : Oracle} {s s' : State}
    {curr : SQueueItem} (hoff : s.is_offline = true ∨ s.skipping = true)
    (h : process_offline cfg o s curr = some s') :
    Untouched s s' ∧ Registry curr.id s s'
      ∧ (s'.download_partial_ids ≠ s.download_partial_ids
          → curr.fileclient = EFileClient.EFileClient_Chunked) := by
  unfold process_offline at h
  split at h
  · rename_i hc
    generalize hp : (if (!curr.patch_dl_files.prepared) = true then
      preparePatchDownloadFiles cfg o s curr else (curr.patch_dl_files, false, s)) = p at h
    have hfr : ∃ t, p.2.2 = { s with tmpfiles := t } := by
      subst hp
      split
      · exact preparePatchDownloadFiles_frame cfg o s curr
      · exact ⟨s.tmpfiles, rfl⟩
    obtain ⟨pf, fdl, s1⟩ := p
    obtain ⟨t, ht⟩ := hfr
    simp only at ht
    subst ht
    simp only at h
    split at h
    · split at h
      · contradiction
      · rename_i s2 hl
        simp only [Option.some.injEq] at h
        subst h
        obtain ⟨t2, tr, hp, rfl⟩ := link_or_copy_file_frame hl
        simp only [Untouched, Registry, IdSet.add, hc, ne_eq, not_false_eq_true, and_self,
          implies_true, and_true, true_and]
        exact Or.inr (Or.inr (Or.inr hoff))
      · rename_i s2 hl
        simp only [Option.some.injEq] at h
        subst h
        obtain ⟨t2, tr, hp, rfl⟩ := link_or_copy_file_frame hl
        simp [Untouched, Registry, IdSet.add]
    · simp only [Option.some.injEq] at h
      subst h
      unfold process_offline_failed
      split <;> simp [Untouched, Registry, IdSet.add]
  · simp only [Option.some.injEq] at h
    subst h
    unfold process_offline_failed
    split <;> simp [Untouched, Registry, IdSet.add]

/-- An item that the offline or skipping branch records as partial is a chunked item
salvaged by `link_or_copy_file`; the branch leaves `all_downloads_ok` as it is. -/
theorem process_offline_salvaged {cfg : Config} {o : Oracle} {s s' : State}
    {curr : SQueueItem} (h : process_offline cfg o s curr = some s')
    (hne : s'.download_partial_ids ≠ s.download_partial_ids) :
    s'.all_downloads_ok = s.all_downloads_ok
      ∧ s'.download_partial_ids = s.download_partial_ids ++ [curr.id]
      ∧ s'.download_nok_ids = s.download_nok_ids
      ∧ curr.fileclient = EFileClient.EFileClient_Chunked := by
  unfold process_offline at h
  split at h
  · rename_i hc
    generalize hp : (if (!curr.patch_dl_files.prepared) = true then
      preparePatchDownloadFiles cfg o s curr else (curr.patch_dl_files, false, s)) = p at h
    have hfr : ∃ t, p.2.2 = { s with tmpfiles := t } := by
      subst hp
      split
      · exact preparePatchDownloadFiles_frame cfg o s curr
      · exact ⟨s.tmpfiles, rfl⟩
    obtain ⟨pf, fdl, s1⟩ := p
    obtain ⟨t, ht⟩ := hfr
    simp only at ht
    subst ht
    simp only at h
    split at h
    · split at h
      · contradiction
      · rename_i s2 hl
        simp only [Option.some.injEq] at h
        subst h
        obtain ⟨t2, tr, hp, rfl⟩ := link_or_copy_file_frame hl
        exact ⟨rfl, rfl, rfl, hc⟩
      · rename_i s2 hl
        simp only [Option.some.injEq] at h
        subst h
        obtain ⟨t2, tr, hp, rfl⟩ := link_or_copy_file_frame hl
        exact absurd rfl hne
    · simp only [Option.some.injEq] at h
      subst h
      exfalso
      apply hne
      unfold process_offline_failed
      split <;> rfl
  · simp only [Option.some.injEq] at h
    subst h
    exfalso
    apply hne
    unfold process_offline_failed
    split <;> rfl

/-- A step of the engine loop, taken while the engine is offline or skipping, that
records an item as partial. -/
theorem process_salvaged {cfg : Config} {o : Oracle} {s s' : State}
    (hoff : s.is_offline = true ∨ s.skipping = true) (h : process cfg o s = some s')
    (hne : s'.download_partial_ids ≠ s.download_partial_ids) :
    s'.all_downloads_ok = s.all_downloads_ok
      ∧ ∃ curr, s.curr = some curr ∧ curr.fileclient = EFileClient.EFileClient_Chunked
          ∧ s'.download_partial_ids = s.download_partial_ids ++ [curr.id]
          ∧ s'.download_nok_ids = s.download_nok_ids := by
  unfold process at h
  split at h
  · contradiction
  · rename_i curr hcurr
    simp only at h
    split at h
    · simp only [Option.some.injEq] at h
      subst h
      exact absurd rfl hne
    · split at h
      · simp only [Option.some.injEq] at h
        subst h
        exact absurd rfl hne
      · have hoff' : (s.is_offline || s.skipping) = true := by
          rcases hoff with h1 | h1 <;> simp [h1]
        rw [if_pos hoff'] at h
        obtain ⟨h1, h2, h3, h4⟩ := process_offline_salvaged h hne
        exact ⟨h1, curr, hcurr, h4, h2, h3⟩

theorem process_summary {cfg : Config} {o : Oracle} {s s' : State}
    (h : process cfg o s = some s') : ∃ curr, s.curr = some curr ∧ ProcessEffect curr s s' := by
  unfold process at h
  split at h
  · contradiction
  · rename_i curr hcurr
    refine ⟨curr, hcurr, ?_⟩
    simp only at h
    split at h
    · simp only [Option.some.injEq] at h
      subst h
      constructor <;> simp [Registry]
    · split at h
      · simp only [Option.some.injEq] at h
        subst h
        constructor <;> simp [Registry]
      · split at h
        · rename_i hoff
          have hoff' : ({ s with curr := none } : State).is_offline = true
              ∨ ({ s with curr := none } : State).skipping = true := by
            simpa using hoff
          obtain ⟨hu, hr, hp⟩ := process_offline_summary hoff' h
          simp only [Untouched] at hu
          constructor
          · simpa using hu.2.2.2.2.1
          · simpa using hu.2.2.2.2.2.2
          · simp [hu.2.2.1]
          · simp [hu.2.2.2.1]
          · simp [hu.2.2.2.2.2.1]
          · left
            refine ⟨by simpa using hu.1, by simpa using hu.2.1, by simpa [Registry] using hr, ?_⟩
            intro hne
            exact Or.inr (hp (by simpa using hne))
        · split at h
          · simp only [Option.some.injEq] at h
            subst h
            constructor <;> simp [Registry, start_shadowcopy]
          · split at h
            · simp only [Option.some.injEq] at h
              subst h
              constructor <;> simp [Registry, stop_shadowcopy]
            · rename_i hq hsk hoff hst hsp
              have hact : curr.action = EQueueAction.EQueueAction_Fileclient := by
                cases hca : curr.action <;> simp_all
              split at h
              · contradiction
              · rename_i ret s1 hr
                simp only [Option.some.injEq] at h
                split at hr
                · obtain ⟨hu, hreg⟩ := load_file_summary hr
                  have hreg := registry_of_transfer hreg
                  simp only [Untouched] at hu
                  subst h
                  constructor
                  · cases ret <;> simpa using hu.2.2.2.2.1
                  · cases ret <;> simpa using hu.2.2.2.2.2.2
                  · cases ret <;> simp [hu.2.2.1]
                  · cases ret <;> simp [hu.2.2.2.1]
                  · cases ret <;> simp [hu.2.2.2.2.2.1]
                  · left
                    refine ⟨?_, ?_, ?_, fun _ => Or.inl hact⟩
                    · cases ret <;> simpa using hu.1
                    · cases ret <;> simpa using hu.2.1
                    · cases ret <;> simpa [Registry] using hreg
                · rename_i hfull
                  have hch : curr.fileclient = EFileClient.EFileClient_Chunked := by
                    cases hcf : curr.fileclient <;> simp_all
                  simp only [hch, if_true] at hr
                  rcases load_file_patch_summary hr with ⟨hu, hreg⟩ | ⟨hret, hrq⟩
                  · have hreg := registry_of_transfer hreg
                    simp only [Untouched] at hu
                    subst h
                    constructor
                    · cases ret <;> simpa using hu.2.2.2.2.1
                    · cases ret <;> simpa using hu.2.2.2.2.2.2
                    · cases ret <;> simp [hu.2.2.1]
                    · cases ret <;> simp [hu.2.2.2.1]
                    · cases ret <;> simp [hu.2.2.2.2.2.1]
                    · left
                      refine ⟨?_, ?_, ?_, fun _ => Or.inl hact⟩
                      · cases ret <;> simpa using hu.1
                      · cases ret <;> simpa using hu.2.1
                      · cases ret <;> simpa [Registry] using hreg
                  · subst hret
                    simp only [Requeued] at hrq
                    simp only [Bool.not_true, Bool.false_eq_true, if_false] at h
                    subst h
                    constructor
                    · simpa using hrq.2.2.2.2.1
                    · simpa using hrq.2.2.2.2.2.2.1
                    · simp [hrq.2.2.1]
                    · simp [hrq.2.2.2.1]
                    · simp [hrq.2.2.2.2.2.1]
                    · right
                      refine ⟨hact, hch, ?_⟩
                      simp [hrq]

/-! ## Queue entries under look-ahead -/

theorem sameMode_refl (it : SQueueItem) : SameMode it it := ⟨rfl, fun _ => rfl, rfl⟩

theorem sameMode_lookahead {it it' : SQueueItem} (h : SameMode it it') : Lookahead it it' :=
  ⟨h.1, h.2.1, Or.inl h.2.2⟩

theorem lookahead_refl (it : SQueueItem) : Lookahead it it := sameMode_lookahead (sameMode_refl it)

theorem forall₂_sameMode_refl (q : List SQueueItem) : List.Forall₂ SameMode q q := by
  induction q with
  | nil => exact List.Forall₂.nil
  | cons it q ih => exact List.Forall₂.cons (sameMode_refl it) ih

theorem forall₂_lookahead_of_sameMode {q q' : List SQueueItem}
    (h : List.Forall₂ SameMode q q') : List.Forall₂ Lookahead q q' :=
  h.imp (fun _ _ hab => sameMode_lookahead hab)

theorem ident_action {it it' : SQueueItem} (h : it'.ident = it.ident) :
    it'.action = it.action := by
  have := congrArg SQueueItem.action h
  simpa [SQueueItem.ident] using this

theorem ident_id {it it' : SQueueItem} (h : it'.ident = it.ident) : it'.id = it.id := by
  have := congrArg SQueueItem.id h
  simpa [SQueueItem.ident] using this

theorem sameMode_queued (it : SQueueItem) (b : Bool)
    (h : it.action = EQueueAction.EQueueAction_Fileclient) :
    SameMode it { it with queued := b } :=
  ⟨rfl, fun hne => absurd h hne, rfl⟩

theorem getQueuedFileFull_scan_sameMode (cfg : Config) (rnd : Nat) :
    ∀ (q q' : List SQueueItem) (name : String),
      getQueuedFileFull.scan cfg rnd q = some (name, q') → List.Forall₂ SameMode q q' := by
  intro q
  induction q with
  | nil => intro q' name h; simp [getQueuedFileFull.scan] at h
  | cons it rest ih =>
    intro q' name h
    unfold getQueuedFileFull.scan at h
    split at h
    · rename_i hc
      simp only [Option.some.injEq, Prod.mk.injEq] at h
      obtain ⟨-, rfl⟩ := h
      exact List.Forall₂.cons (sameMode_queued it true hc.1) (forall₂_sameMode_refl rest)
    · split at h
      · contradiction
      · rename_i name1 rest1 hr
        simp only [Option.some.injEq, Prod.mk.injEq] at h
        obtain ⟨-, rfl⟩ := h
        exact List.Forall₂.cons (sameMode_refl it) (ih _ _ hr)

theorem getQueuedFileFull_queue (cfg : Config) (rnd : Nat) (s : State) :
    ∃ q, (getQueuedFileFull cfg rnd s).2.2 = { s with dl_queue := q }
      ∧ List.Forall₂ SameMode s.dl_queue q := by
  unfold getQueuedFileFull
  split
  · rename_i name q hq
    exact ⟨q, rfl, getQueuedFileFull_scan_sameMode cfg rnd _ _ _ hq⟩
  · exact ⟨s.dl_queue, rfl, forall₂_sameMode_refl _⟩

theorem unqueueScan_sameMode (cfg : Config) (rnd : Nat → Nat) (fc : EFileClient)
    (name : String) :
    ∀ (q : List SQueueItem) (i : Nat),
      List.Forall₂ SameMode q (unqueueScan cfg rnd fc name i q) := by
  intro q
  induction q with
  | nil => intro i; simp [unqueueScan]
  | cons it rest ih =>
    intro i
    unfold unqueueScan
    split
    · rename_i hc
      exact List.Forall₂.cons (sameMode_queued it false hc.1) (forall₂_sameMode_refl rest)
    · exact List.Forall₂.cons (sameMode_refl it) (ih _)

theorem resetQueue_sameMode (fc : EFileClient) :
    ∀ q : List SQueueItem,
      List.Forall₂ SameMode q
        (q.map (fun it =>
          if it.action = EQueueAction.EQueueAction_Fileclient ∧ it.fileclient = fc then
            { it with queued := false }
          else it)) := by
  intro q
  induction q with
  | nil => simp
  | cons it rest ih =>
    simp only [List.map_cons]
    refine List.Forall₂.cons ?_ ih
    split
    · rename_i hc
      exact sameMode_queued it false hc.1
    · exact sameMode_refl it

theorem weight_of_sameMode {it it' : SQueueItem} (h : SameMode it it') :
    weight it' = weight it := by
  unfold weight
  rw [ident_action h.1, h.2.2]

theorem queueWeight_of_sameMode {q q' : List SQueueItem} (h : List.Forall₂ SameMode q q') :
    queueWeight q' = queueWeight q := by
  induction h with
  | nil => rfl
  | cons hab _ ih =>
    simp only [queueWeight, List.map_cons, List.sum_cons] at *
    rw [weight_of_sameMode hab, ih]

theorem subSizeT_add (a b : Nat) : subSizeT (a + b) b = a := by
  unfold subSizeT
  simp

theorem getQueuedFileChunked_scan_spec (cfg : Config) (o : Nat → Oracle) :
    ∀ (q : List SQueueItem) (i : Nat) (s : State),
      List.Forall₂ Lookahead q (getQueuedFileChunked.scan cfg o i q s).2.1
        ∧ (∃ n t, (getQueuedFileChunked.scan cfg o i q s).2.2
              = { s with queue_size := n, tmpfiles := t })
        ∧ (∀ base, s.queue_size = base + queueWeight q →
            (getQueuedFileChunked.scan cfg o i q s).2.2.queue_size
              = base + queueWeight (getQueuedFileChunked.scan cfg o i q s).2.1) := by
  intro q
  induction q with
  | nil =>
    intro i s
    simp only [getQueuedFileChunked.scan, List.Forall₂.nil, queueWeight, List.map_nil,
      List.sum_nil, add_zero, imp_self, implies_true, and_true, true_and]
    exact ⟨_, _, rfl⟩
  | cons it rest ih =>
    intro i s
    -- the loop goes on to the next entry with `it1` in place of `it`
    have hskip : ∀ (it1 : SQueueItem) (s1 : State), Lookahead it it1 →
        (∃ n t, s1 = { s with queue_size := n, tmpfiles := t }) →
        (∀ base, s.queue_size = base + queueWeight (it :: rest) →
          s1.queue_size = base + weight it1 + queueWeight rest) →
        List.Forall₂ Lookahead (it :: rest)
            (it1 :: (getQueuedFileChunked.scan cfg o (i + 1) rest s1).2.1)
          ∧ (∃ n t, (getQueuedFileChunked.scan cfg o (i + 1) rest s1).2.2
                = { s with queue_size := n, tmpfiles := t })
          ∧ (∀ base, s.queue_size = base + queueWeight (it :: rest) →
              (getQueuedFileChunked.scan cfg o (i + 1) rest s1).2.2.queue_size
                = base + queueWeight
                    (it1 :: (getQueuedFileChunked.scan cfg o (i + 1) rest s1).2.1)) := by
      intro it1 s1 hl hfr hw
      obtain ⟨h1, ⟨n, t, h2⟩, h3⟩ := ih (i + 1) s1
      obtain ⟨n1, t1, rfl⟩ := hfr
      refine ⟨List.Forall₂.cons hl h1, ⟨n, t, by rw [h2]⟩, ?_⟩
      intro base hb
      rw [h3 (base + weight it1) (hw base hb)]
      simp [queueWeight, Nat.add_assoc]
    -- the loop returns the entry `it1` in place of `it`
    have hfound : ∀ (it1 : SQueueItem) (s1 : State), SameMode it it1 →
        (∃ n t, s1 = { s with queue_size := n, tmpfiles := t }) →
        s1.queue_size = s.queue_size →
        List.Forall₂ Lookahead (it :: rest) (it1 :: rest)
          ∧ (∃ n t, s1 = { s with queue_size := n, tmpfiles := t })
          ∧ (∀ base, s.queue_size = base + queueWeight (it :: rest) →
              s1.queue_size = base + queueWeight (it1 :: rest)) := by
      intro it1 s1 hl hfr hq
      refine ⟨List.Forall₂.cons (sameMode_lookahead hl)
        (forall₂_lookahead_of_sameMode (forall₂_sameMode_refl rest)), hfr, ?_⟩
      intro base hb
      rw [hq, hb]
      simp [queueWeight, weight_of_sameMode hl]
    have hself : ∃ n t, s = { s with queue_size := n, tmpfiles := t } := ⟨_, _, rfl⟩
    obtain ⟨t, ht⟩ := preparePatchDownloadFiles_frame cfg (o i) s it
    unfold getQueuedFileChunked.scan
    simp only
    split
    · rename_i hc
      obtain ⟨hact, hq, hch, hsz⟩ := hc
      split
      · exact hskip it s (lookahead_refl it) hself
          (fun base hb => by rw [hb]; simp [queueWeight, Nat.add_assoc])
      · split
        · split
          · -- no prior file: the entry becomes a full transfer
            rw [ht]
            refine hskip _ _ ⟨rfl, fun hne => absurd hact hne, Or.inr ⟨hact, hch, rfl⟩⟩
              ⟨_, _, rfl⟩ ?_
            intro base hb
            simp only [hb, queueWeight, List.map_cons, List.sum_cons, weight, hact, hch,
              if_true, queue_items_chunked, queue_items_full]
            have : base + (4 + (List.map weight rest).sum)
                = (base + 1 + (List.map weight rest).sum) + (4 - 1) := by omega
            simp only [reduceCtorEq, if_false]
            rw [this, subSizeT_add]
          · split
            · rw [ht]
              refine hfound _ _ ⟨rfl, fun hne => absurd hact hne, rfl⟩ ⟨_, _, rfl⟩ rfl
            · rw [ht]
              refine hskip _ _ ⟨rfl, fun hne => absurd hact hne, Or.inl rfl⟩ ⟨_, _, rfl⟩ ?_
              intro base hb
              simp only [hb, queueWeight, List.map_cons, List.sum_cons, weight, hact, hch,
                if_true, Nat.add_assoc]
        · exact hfound _ _ (sameMode_queued it true hact) hself rfl
    · exact hskip it s (lookahead_refl it) hself
        (fun base hb => by rw [hb]; simp [queueWeight, Nat.add_assoc])

/-! ## Runs -/

theorem run_append (cfg : Config) (ops1 ops2 : List Op) (s : State) :
    run cfg (ops1 ++ ops2) s = (run cfg ops1 s).bind (run cfg ops2) := by
  induction ops1 generalizing s with
  | nil => rfl
  | cons op ops ih =>
    simp only [List.cons_append, run]
    cases apply cfg op s with
    | none => rfl
    | some s1 => exact ih s1

/-- A property that holds in a state and is kept by every operation holds after every
run from that state. -/
theorem run_invariant {cfg : Config} {P : State → Prop}
    (hstep : ∀ op s s', P s → apply cfg op s = some s' → P s') :
    ∀ ops s s', P s → run cfg ops s = some s' → P s' := by
  intro ops
  induction ops with
  | nil =>
    intro s s' hP h
    simp only [run, Option.some.injEq] at h
    exact h ▸ hP
  | cons op ops ih =>
    intro s s' hP h
    simp only [run] at h
    split at h
    · contradiction
    · rename_i s1 h1
      exact ih s1 s' (hstep op s s1 hP h1) h

/-! ## Queue weight -/

theorem queueWeight_nil : queueWeight [] = 0 := rfl

theorem queueWeight_cons (it : SQueueItem) (q : List SQueueItem) :
    queueWeight (it :: q) = weight it + queueWeight q := by
  simp [queueWeight]

theorem queueWeight_append (q1 q2 : List SQueueItem) :
    queueWeight (q1 ++ q2) = queueWeight q1 + queueWeight q2 := by
  simp [queueWeight]

theorem queueWeight_eq_count (q : List SQueueItem) :
    queueWeight q = 1 * q.countP isFullTransfer + 4 * q.countP isChunkedTransfer := by
  induction q with
  | nil => rfl
  | cons it q ih =>
    rw [queueWeight_cons, ih, List.countP_cons, List.countP_cons]
    unfold weight isFullTransfer isChunkedTransfer
    cases hf : it.fileclient <;>
      by_cases ha : it.action = EQueueAction.EQueueAction_Fileclient <;>
      simp [ha, queue_items_full, queue_items_chunked] <;> omega

theorem weight_pos_of_transfer {it : SQueueItem}
    (h : it.action = EQueueAction.EQueueAction_Fileclient) : 0 < weight it := by
  unfold weight
  simp only [h, if_true]
  split <;> simp [queue_items_full, queue_items_chunked]

theorem queueWeight_eq_zero {q : List SQueueItem} (h : queueWeight q = 0) :
    ∀ it ∈ q, it.action ≠ EQueueAction.EQueueAction_Fileclient := by
  induction q with
  | nil => simp
  | cons it q ih =>
    rw [queueWeight_cons] at h
    intro x hx ha
    rcases List.mem_cons.1 hx with rfl | hx
    · have := weight_pos_of_transfer ha
      omega
    · exact ih (by omega) x hx ha

theorem dequeue_weightOk {s s' : State} (hs : WeightOk s) (h : dequeue s = some s') :
    WeightOk s' := by
  unfold dequeue at h
  split at h
  · contradiction
  · rename_i curr rest hq
    simp only [Option.some.injEq] at h
    subst h
    simp only [WeightOk, hq, queueWeight_cons] at hs ⊢
    rw [hs]
    unfold weight
    by_cases ha : curr.action = EQueueAction.EQueueAction_Fileclient
    · cases hf : curr.fileclient <;>
        simp [ha, Nat.add_comm _ (queueWeight rest), subSizeT_add]
    · simp [ha]

theorem apply_weightOk (cfg : Config) (op : Op) (s s' : State) (hs : WeightOk s)
    (h : apply cfg op s = some s') : WeightOk s' := by
  cases op with
  | addToQueueFull p id fn short_fn curr_path os_path predicted_filesize metadata is_script
      metadata_only at_front =>
    simp only [apply] at h
    split at h
    · contradiction
    · simp only [Option.some.injEq] at h
      subst h
      simp only [WeightOk] at hs
      cases at_front <;>
        simp [WeightOk, addToQueueFull, sleepQueue_enter, queueWeight_cons,
          queueWeight_append, queueWeight_nil, weight, addToQueueFull.ni, hs]
      omega
  | addToQueueChunked p id fn short_fn curr_path os_path predicted_filesize metadata
      is_script =>
    simp only [apply] at h
    split at h
    · contradiction
    · simp only [Option.some.injEq] at h
      subst h
      simp only [WeightOk] at hs
      simp [WeightOk, addToQueueChunked, sleepQueue_enter, queueWeight_cons,
        queueWeight_append, queueWeight_nil, weight, addToQueueChunked.ni, hs]
  | addToQueueStartShadowcopy p fn =>
    simp only [apply] at h
    split at h
    · contradiction
    · simp only [Option.some.injEq] at h
      subst h
      simp only [WeightOk] at hs
      simp [WeightOk, addToQueueStartShadowcopy, sleepQueue_enter, queueWeight_cons,
        queueWeight_append, queueWeight_nil, weight, addToQueueStartShadowcopy.ni, hs]
  | addToQueueStopShadowcopy p fn =>
    simp only [apply] at h
    split at h
    · contradiction
    · simp only [Option.some.injEq] at h
      subst h
      simp only [WeightOk] at hs
      simp [WeightOk, addToQueueStopShadowcopy, sleepQueue_enter, queueWeight_cons,
        queueWeight_append, queueWeight_nil, weight, addToQueueStopShadowcopy.ni, hs]
  | queueSkip =>
    simp only [apply, Option.some.injEq] at h
    subst h
    simp only [WeightOk] at hs
    simp [WeightOk, queueSkip, queueWeight_cons, weight, queueSkip.ni, hs]
  | queueStop immediately =>
    simp only [apply, Option.some.injEq] at h
    subst h
    simp only [WeightOk] at hs
    cases immediately <;>
      simp [WeightOk, queueStop, queueWeight_cons, queueWeight_append, queueWeight_nil,
        weight, queueStop.ni, hs]
  | sleepQueue_return p =>
    simp only [apply, sleepQueue_return] at h
    split at h
    · simp only [Option.some.injEq] at h
      subst h
      exact hs
    · contradiction
  | dequeue =>
    simp only [apply] at h
    split at h
    · contradiction
    · exact dequeue_weightOk hs h
  | process o =>
    simp only [apply] at h
    obtain ⟨curr, -, he⟩ := process_summary h
    simp only [WeightOk] at hs ⊢
    rcases he.effect with ⟨hq, hz, -⟩ | ⟨ha, hc, hq, hz, -⟩
    · rw [hq, hz, hs]
    · rw [hq, hz, hs, queueWeight_cons]
      simp [weight, addToQueueFull.ni, Nat.add_comm]
  | getQueuedFileFull rnd =>
    simp only [apply, Option.some.injEq] at h
    subst h
    obtain ⟨q, hq, hf⟩ := getQueuedFileFull_queue cfg rnd s
    simp only [WeightOk] at hs ⊢
    rw [hq]
    simp [queueWeight_of_sameMode hf, hs]
  | getQueuedFileChunked o =>
    simp only [apply, Option.some.injEq] at h
    subst h
    obtain ⟨-, -, hw⟩ := getQueuedFileChunked_scan_spec cfg o s.dl_queue 0 s
    simp only [WeightOk] at hs ⊢
    simpa [getQueuedFileChunked] using hw 0 (by simpa using hs)
  | unqueueFileFull rnd fn =>
    simp only [apply, Option.some.injEq] at h
    subst h
    simp only [WeightOk] at hs ⊢
    simp [unqueueFileFull, queueWeight_of_sameMode (unqueueScan_sameMode cfg rnd _ fn _ 0), hs]
  | unqueueFileChunked rnd fn =>
    simp only [apply, Option.some.injEq] at h
    subst h
    simp only [WeightOk] at hs ⊢
    simp [unqueueFileChunked, queueWeight_of_sameMode (unqueueScan_sameMode cfg rnd _ fn _ 0),
      hs]
  | resetQueueFull =>
    simp only [apply, Option.some.injEq] at h
    subst h
    simp only [WeightOk] at hs ⊢
    simp only [resetQueueFull]
    rw [queueWeight_of_sameMode (resetQueue_sameMode _ _), hs]
  | resetQueueChunked =>
    simp only [apply, Option.some.injEq] at h
    subst h
    simp only [WeightOk] at hs ⊢
    simp only [resetQueueChunked]
    rw [queueWeight_of_sameMode (resetQueue_sameMode _ _), hs]

theorem reachable_weightOk {cfg : Config} {s : State} (h : Reachable cfg s) : WeightOk s := by
  obtain ⟨ops, hr⟩ := h
  exact run_invariant (apply_weightOk cfg) ops State.init s rfl hr

/-! ## Backpressure -/

theorem run_invariant_headFree {cfg : Config} {P : State → Prop} {Q : Op → Prop}
    (hstep : ∀ op s s', Q op → P s → apply cfg op s = some s' → HeadFree op s s' → P s') :
    ∀ ops s s', (∀ op ∈ ops, Q op) → P s → NoHeadInsertion cfg ops s →
      run cfg ops s = some s' → P s' := by
  intro ops
  induction ops with
  | nil =>
    intro s s' _ hP _ h
    simp only [run, Option.some.injEq] at h
    exact h ▸ hP
  | cons op ops ih =>
    intro s s' hQ hP hN h
    simp only [run] at h
    simp only [NoHeadInsertion] at hN
    split at h
    · contradiction
    · rename_i s1 h1
      simp only [h1] at hN
      exact ih s1 s' (fun o ho => hQ o (List.mem_cons_of_mem _ ho))
        (hstep op s s1 (hQ op (List.mem_cons_self _ _)) hP h1 hN.1) hN.2 h

theorem weight_of_lookahead {it it' : SQueueItem} (h : Lookahead it it') :
    weight it' ≤ weight it := by
  unfold weight
  rw [ident_action h.1]
  rcases h.2.2 with he | ⟨ha, hc, hf⟩
  · rw [he]
  · simp [ha, hc, hf, queue_items_full, queue_items_chunked]

theorem queueWeight_of_lookahead {q q' : List SQueueItem} (h : List.Forall₂ Lookahead q q') :
    queueWeight q' ≤ queueWeight q := by
  induction h with
  | nil => exact Nat.le_refl _
  | cons hab _ ih =>
    rw [queueWeight_cons, queueWeight_cons]
    exact Nat.add_le_add (weight_of_lookahead hab) ih

theorem apply_sleepOk (cfg : Config) (N : Nat) (op : Op) (s s' : State)
    (hp : ∀ p, op.producer = some p → p < N) (hs : SleepOk N s)
    (h : apply cfg op s = some s') (hf : HeadFree op s s') : SleepOk N s' := by
  obtain ⟨hw, hnd, hlt, hle⟩ := hs
  have hw' := apply_weightOk cfg op s s' hw h
  refine ⟨hw', ?_⟩
  simp only [queue_items_chunked, max_queue_size] at hle ⊢
  cases op with
  | addToQueueFull p id fn short_fn curr_path os_path predicted_filesize metadata is_script
      metadata_only at_front =>
    simp only [HeadFree] at hf
    subst hf
    simp only [apply] at h
    split at h
    · contradiction
    · rename_i hps
      simp only [Option.some.injEq] at h
      subst h
      have := hp p rfl
      simp [addToQueueFull, sleepQueue_enter, hps, hnd, queue_items_full]
      exact ⟨⟨this, hlt⟩, by omega⟩
  | addToQueueChunked p id fn short_fn curr_path os_path predicted_filesize metadata
      is_script =>
    simp only [apply] at h
    split at h
    · contradiction
    · rename_i hps
      simp only [Option.some.injEq] at h
      subst h
      have := hp p rfl
      simp [addToQueueChunked, sleepQueue_enter, hps, hnd, queue_items_chunked]
      exact ⟨⟨this, hlt⟩, by omega⟩
  | addToQueueStartShadowcopy p fn =>
    simp only [apply] at h
    split at h
    · contradiction
    · rename_i hps
      simp only [Option.some.injEq] at h
      subst h
      have := hp p rfl
      simp [addToQueueStartShadowcopy, sleepQueue_enter, hps, hnd]
      exact ⟨⟨this, hlt⟩, by omega⟩
  | addToQueueStopShadowcopy p fn =>
    simp only [apply] at h
    split at h
    · contradiction
    · rename_i hps
      simp only [Option.some.injEq] at h
      subst h
      have := hp p rfl
      simp [addToQueueStopShadowcopy, sleepQueue_enter, hps, hnd]
      exact ⟨⟨this, hlt⟩, by omega⟩
  | queueSkip => exact absurd hf (by simp [HeadFree])
  | queueStop immediately =>
    simp only [apply, Option.some.injEq] at h
    subst h
    exact ⟨hnd, hlt, hle⟩
  | sleepQueue_return p =>
    simp only [apply, sleepQueue_return] at h
    split at h
    · rename_i hc
      simp only [Option.some.injEq] at h
      subst h
      simp only [max_queue_size] at hc
      refine ⟨hnd.erase p, fun x hx => hlt x (List.mem_of_mem_erase hx), ?_⟩
      simp only
      omega
    · contradiction
  | dequeue =>
    simp only [apply] at h
    split at h
    · contradiction
    · have hq : s'.queue_size ≤ s.queue_size := by
        rw [hw', hw]
        unfold dequeue at h
        split at h
        · contradiction
        · rename_i curr rest hq
          simp only [Option.some.injEq] at h
          subst h
          simp [hq, queueWeight_cons]
      have hsl : s'.sleeping = s.sleeping := by
        unfold dequeue at h
        split at h
        · contradiction
        · simp only [Option.some.injEq] at h
          subst h
          rfl
      rw [hsl]
      exact ⟨hnd, hlt, by omega⟩
  | process o =>
    simp only [apply] at h
    obtain ⟨curr, -, he⟩ := process_summary h
    simp only [HeadFree] at hf
    rw [he.sleeping]
    refine ⟨hnd, hlt, ?_⟩
    rcases he.effect with ⟨-, hz, -⟩ | ⟨-, -, hq, -⟩
    · omega
    · rw [hf] at hq
      exact absurd hq (by simp)
  | getQueuedFileFull rnd =>
    simp only [apply, Option.some.injEq] at h
    subst h
    obtain ⟨q, hq, -⟩ := getQueuedFileFull_queue cfg rnd s
    rw [hq]
    exact ⟨hnd, hlt, hle⟩
  | getQueuedFileChunked o =>
    simp only [apply, Option.some.injEq] at h
    subst h
    obtain ⟨hl, ⟨n, t, hfr⟩, -⟩ := getQueuedFileChunked_scan_spec cfg o s.dl_queue 0 s
    have hq : (getQueuedFileChunked cfg o s).2.queue_size ≤ s.queue_size := by
      rw [hw', hw]
      simpa [getQueuedFileChunked] using queueWeight_of_lookahead hl
    have hsl : (getQueuedFileChunked cfg o s).2.sleeping = s.sleeping := by
      simp [getQueuedFileChunked, hfr]
    rw [hsl]
    exact ⟨hnd, hlt, by omega⟩
  | unqueueFileFull rnd fn =>
    simp only [apply, Option.some.injEq] at h
    subst h
    exact ⟨hnd, hlt, hle⟩
  | unqueueFileChunked rnd fn =>
    simp only [apply, Option.some.injEq] at h
    subst h
    exact ⟨hnd, hlt, hle⟩
  | resetQueueFull =>
    simp only [apply, Option.some.injEq] at h
    subst h
    exact ⟨hnd, hlt, hle⟩
  | resetQueueChunked =>
    simp only [apply, Option.some.injEq] at h
    subst h
    exact ⟨hnd, hlt, hle⟩

theorem length_le_of_nodup_lt {l : List Nat} {N : Nat} (hnd : l.Nodup) (hlt : ∀ p ∈ l, p < N) :
    l.length ≤ N := by
  have h1 : l.toFinset ⊆ Finset.range N := by
    intro x hx
    exact Finset.mem_range.2 (hlt x (List.mem_toFinset.1 hx))
  have h2 := Finset.card_le_card h1
  rwa [List.toFinset_card_of_nodup hnd, Finset.card_range] at h2

/-! ## Classification of the operations -/

theorem forall₂_lookahead_refl (q : List SQueueItem) : List.Forall₂ Lookahead q q :=
  forall₂_lookahead_of_sameMode (forall₂_sameMode_refl q)

theorem apply_kind {cfg : Config} {op : Op} {s s' : State} (h : apply cfg op s = some s') :
    StepKind cfg op s s' := by
  cases op with
  | addToQueueFull p id fn short_fn curr_path os_path predicted_filesize metadata is_script
      metadata_only at_front =>
    simp only [apply] at h
    split at h
    · contradiction
    · simp only [Option.some.injEq] at h
      subst h
      refine StepKind.enqueue _ rfl (by simp [ControlShape, addToQueueFull.ni]) ?_ ?_
      · cases at_front <;> simp [addToQueueFull, sleepQueue_enter, HeadFree]
      · cases at_front <;> simp [RegSame, addToQueueFull, sleepQueue_enter]
  | addToQueueChunked p id fn short_fn curr_path os_path predicted_filesize metadata
      is_script =>
    simp only [apply] at h
    split at h
    · contradiction
    · simp only [Option.some.injEq] at h
      subst h
      exact StepKind.enqueue _ rfl (by simp [ControlShape, addToQueueChunked.ni])
        (by simp [addToQueueChunked, sleepQueue_enter])
        (by simp [RegSame, addToQueueChunked, sleepQueue_enter])
  | addToQueueStartShadowcopy p fn =>
    simp only [apply] at h
    split at h
    · contradiction
    · simp only [Option.some.injEq] at h
      subst h
      exact StepKind.enqueue _ rfl
        (by simp [ControlShape, addToQueueStartShadowcopy.ni, SQueueItem.fresh])
        (by simp [addToQueueStartShadowcopy, sleepQueue_enter])
        (by simp [RegSame, addToQueueStartShadowcopy, sleepQueue_enter])
  | addToQueueStopShadowcopy p fn =>
    simp only [apply] at h
    split at h
    · contradiction
    · simp only [Option.some.injEq] at h
      subst h
      exact StepKind.enqueue _ rfl
        (by simp [ControlShape, addToQueueStopShadowcopy.ni, SQueueItem.fresh])
        (by simp [addToQueueStopShadowcopy, sleepQueue_enter])
        (by simp [RegSame, addToQueueStopShadowcopy, sleepQueue_enter])
  | queueSkip =>
    simp only [apply, Option.some.injEq] at h
    subst h
    exact StepKind.enqueue _ rfl (by simp [ControlShape, queueSkip.ni, SQueueItem.fresh])
      (by simp [queueSkip, HeadFree]) (by simp [RegSame, queueSkip])
  | queueStop immediately =>
    simp only [apply, Option.some.injEq] at h
    subst h
    refine StepKind.enqueue _ rfl (by simp [ControlShape, queueStop.ni, SQueueItem.fresh]) ?_
      (by simp [RegSame, queueStop])
    cases immediately <;> simp [queueStop, HeadFree]
  | sleepQueue_return p =>
    simp only [apply, sleepQueue_return] at h
    split at h
    · simp only [Option.some.injEq] at h
      subst h
      exact StepKind.lookahead rfl (by simp) (forall₂_lookahead_refl _) (by simp [RegSame])
    · contradiction
  | dequeue =>
    simp only [apply] at h
    split at h
    · contradiction
    · rename_i hc
      unfold dequeue at h
      split at h
      · contradiction
      · rename_i c rest hq
        simp only [Option.some.injEq] at h
        subst h
        refine StepKind.dequeue c rfl ?_ (by simpa using hq) rfl (by simp)
        cases hcu : s.curr <;> simp_all
  | process o =>
    simp only [apply] at h
    obtain ⟨curr, hc, he⟩ := process_summary h
    exact StepKind.process o curr rfl hc he
  | getQueuedFileFull rnd =>
    simp only [apply, Option.some.injEq] at h
    subst h
    obtain ⟨q, hq, hf⟩ := getQueuedFileFull_queue cfg rnd s
    rw [hq]
    exact StepKind.lookahead rfl (by simp) (forall₂_lookahead_of_sameMode hf) (by simp [RegSame])
  | getQueuedFileChunked o =>
    simp only [apply, Option.some.injEq] at h
    subst h
    obtain ⟨hl, ⟨n, t, hfr⟩, -⟩ := getQueuedFileChunked_scan_spec cfg o s.dl_queue 0 s
    refine StepKind.lookahead rfl (by simp) (by simpa [getQueuedFileChunked] using hl) ?_
    simp [RegSame, getQueuedFileChunked, hfr]
  | unqueueFileFull rnd fn =>
    simp only [apply, Option.some.injEq] at h
    subst h
    exact StepKind.lookahead rfl (by simp)
      (forall₂_lookahead_of_sameMode (unqueueScan_sameMode cfg rnd _ fn _ 0))
      (by simp [RegSame, unqueueFileFull])
  | unqueueFileChunked rnd fn =>
    simp only [apply, Option.some.injEq] at h
    subst h
    exact StepKind.lookahead rfl (by simp)
      (forall₂_lookahead_of_sameMode (unqueueScan_sameMode cfg rnd _ fn _ 0))
      (by simp [RegSame, unqueueFileChunked])
  | resetQueueFull =>
    simp only [apply, Option.some.injEq] at h
    subst h
    exact StepKind.lookahead rfl (by simp)
      (forall₂_lookahead_of_sameMode (resetQueue_sameMode _ _)) (by simp [RegSame, resetQueueFull])
  | resetQueueChunked =>
    simp only [apply, Option.some.injEq] at h
    subst h
    exact StepKind.lookahead rfl (by simp)
      (forall₂_lookahead_of_sameMode (resetQueue_sameMode _ _))
      (by simp [RegSame, resetQueueChunked])

/-! ## Order of consumption -/

theorem taken_of_ne_dequeue {op : Op} (h : op ≠ Op.dequeue) (s1 : State) : op.taken s1 = [] := by
  cases op <;> simp_all [Op.taken]

theorem ne_dequeue_of_enqueued {op : Op} {ni : SQueueItem} (h : op.enqueued = some ni) :
    op ≠ Op.dequeue := by
  intro he
  subst he
  simp [Op.enqueued] at h

theorem map_ident_of_lookahead {q q' : List SQueueItem} (h : List.Forall₂ Lookahead q q') :
    q'.map SQueueItem.ident = q.map SQueueItem.ident := by
  induction h with
  | nil => rfl
  | cons hab _ ih => simp [hab.1, ih]

theorem dequeue_order_from {cfg : Config} :
    ∀ (ops : List Op) (s s' : State), NoHeadInsertion cfg ops s → run cfg ops s = some s' →
      s.dl_queue.map SQueueItem.ident ++ (enqueueLog ops).map SQueueItem.ident
        = (dequeueLog cfg ops s).map SQueueItem.ident ++ s'.dl_queue.map SQueueItem.ident := by
  intro ops
  induction ops with
  | nil =>
    intro s s' _ h
    simp only [run, Option.some.injEq] at h
    subst h
    simp [enqueueLog, dequeueLog]
  | cons op ops ih =>
    intro s s' hN h
    simp only [run] at h
    simp only [NoHeadInsertion] at hN
    split at h
    · contradiction
    · rename_i s1 h1
      simp only [h1] at hN
      have ih1 := ih s1 s' hN.2 h
      simp only [dequeueLog, h1, List.map_append, List.append_assoc]
      rw [← ih1]
      cases apply_kind h1 with
      | enqueue ni hop hshape hq hreg =>
        rcases hq with hq | ⟨-, hnf⟩
        · simp [enqueueLog, List.filterMap_cons, hop, hq,
            taken_of_ne_dequeue (ne_dequeue_of_enqueued hop)]
        · exact absurd hN.1 hnf
      | dequeue c hop hcurr hq hc hreg =>
        subst hop
        simp [enqueueLog, List.filterMap_cons, Op.enqueued, Op.taken, hc, hq]
      | lookahead hop hnd hq hreg =>
        simp [enqueueLog, List.filterMap_cons, hop, taken_of_ne_dequeue hnd,
          map_ident_of_lookahead hq]
      | process o curr hop hcurr he =>
        subst hop
        have hq : s1.dl_queue = s.dl_queue := hN.1
        simp [enqueueLog, List.filterMap_cons, Op.enqueued, Op.taken, hq]

/-! ## The result registry along runs -/

theorem apply_max_ok_id {cfg : Config} {op : Op} {s s' : State}
    (h : apply cfg op s = some s') :
    s'.max_ok_id = s.max_ok_id
      ∨ ∃ curr, s.curr = some curr ∧ s'.max_ok_id = max s.max_ok_id curr.id := by
  cases apply_kind h with
  | enqueue ni hop hshape hq hreg => exact Or.inl hreg.2.2.1
  | dequeue c hop hcurr hq hc hreg => exact Or.inl hreg.2.2.1
  | lookahead hop hnd hq hreg => exact Or.inl hreg.2.2.1
  | process o curr hop hcurr he =>
    rcases he.effect with ⟨-, -, hr, -⟩ | ⟨-, -, -, -, -, -, hm, -⟩
    · rcases hr with ⟨-, -, hm, -⟩ | ⟨-, -, hm, -⟩ | ⟨-, -, hm, -⟩
      · rcases hm with hm | hm
        · exact Or.inl hm
        · exact Or.inr ⟨curr, hcurr, hm⟩
      · exact Or.inl hm
      · exact Or.inr ⟨curr, hcurr, hm⟩
    · exact Or.inl hm

theorem apply_max_ok_id_le {cfg : Config} {op : Op} {s s' : State}
    (h : apply cfg op s = some s') : s.max_ok_id ≤ s'.max_ok_id := by
  rcases apply_max_ok_id h with h1 | ⟨_, _, h1⟩
  · exact Nat.le_of_eq h1.symm
  · rw [h1]
    exact Nat.le_max_left _ _

theorem run_max_ok_id_le {cfg : Config} :
    ∀ (ops : List Op) (s s' : State), run cfg ops s = some s' → s.max_ok_id ≤ s'.max_ok_id := by
  intro ops
  induction ops with
  | nil =>
    intro s s' h
    simp only [run, Option.some.injEq] at h
    exact Nat.le_of_eq (congrArg State.max_ok_id h)
  | cons op ops ih =>
    intro s s' h
    simp only [run] at h
    split at h
    · contradiction
    · rename_i s1 h1
      exact Nat.le_trans (apply_max_ok_id_le h1) (ih s1 s' h)

theorem apply_partialBound (cfg : Config) (op : Op) (s s' : State) (hs : PartialBound s)
    (h : apply cfg op s = some s') : PartialBound s' := by
  have hle := apply_max_ok_id_le h
  intro id hid
  cases apply_kind h with
  | enqueue ni hop hshape hq hreg =>
    rw [hreg.2.1] at hid
    exact Nat.le_trans (hs id hid) hle
  | dequeue c hop hcurr hq hc hreg =>
    rw [hreg.2.1] at hid
    exact Nat.le_trans (hs id hid) hle
  | lookahead hop hnd hq hreg =>
    rw [hreg.2.1] at hid
    exact Nat.le_trans (hs id hid) hle
  | process o curr hop hcurr he =>
    rcases he.effect with ⟨-, -, hr, -⟩ | ⟨-, -, -, -, -, hp, -⟩
    · rcases hr with ⟨-, hp, -⟩ | ⟨-, hp, -⟩ | ⟨hp, -, hm, -⟩
      · rw [hp] at hid
        exact Nat.le_trans (hs id hid) hle
      · rw [hp] at hid
        exact Nat.le_trans (hs id hid) hle
      · rw [hp] at hid
        rcases List.mem_append.1 hid with hid | hid
        · exact Nat.le_trans (hs id hid) hle
        · rw [List.mem_singleton.1 hid, hm]
          exact Nat.le_max_right _ _
    · rw [hp] at hid
      exact Nat.le_trans (hs id hid) hle

theorem apply_failureLatch (cfg : Config) (op : Op) (s s' : State) (hs : FailureLatch s)
    (h : apply cfg op s = some s') : FailureLatch s' := by
  obtain ⟨hn, hp⟩ := hs
  cases apply_kind h with
  | enqueue ni hop hshape hq hreg =>
    obtain ⟨h1, h2, -, h4, h5, h6, -⟩ := hreg
    simp only [FailureLatch, h1, h2, h4, h5, h6]
    exact ⟨hn, hp⟩
  | dequeue c hop hcurr hq hc hreg =>
    obtain ⟨h1, h2, -, h4, h5, h6, -⟩ := hreg
    simp only [FailureLatch, h1, h2, h4, h5, h6]
    exact ⟨hn, hp⟩
  | lookahead hop hnd hq hreg =>
    obtain ⟨h1, h2, -, h4, h5, h6, -⟩ := hreg
    simp only [FailureLatch, h1, h2, h4, h5, h6]
    exact ⟨hn, hp⟩
  | process o curr hop hcurr he =>
    have hoff := he.offline
    have hsk := he.skipping
    rcases he.effect with ⟨-, -, hr, -⟩ | ⟨-, -, -, -, h1, h2, -, h4, h5, h6⟩
    · rcases hr with ⟨h1, h2, -, h4⟩ | ⟨h1, h2, -, h4⟩ | ⟨h2, h1, -, h4⟩
      · simp only [FailureLatch, h1, h2]
        constructor
        · intro hne
          rcases h4 with h4 | h4
          · rw [h4]; exact hn hne
          · exact h4
        · intro hne
          rcases h4 with h4 | h4
          · rcases hp hne with h | h | h
            · exact Or.inl (by rw [h4]; exact h)
            · exact Or.inr (Or.inl (hoff h))
            · exact Or.inr (Or.inr (hsk h))
          · exact Or.inl h4
      · simp only [FailureLatch, h4]
        exact ⟨fun _ => trivial, fun _ => Or.inl trivial⟩
      · simp only [FailureLatch, h1]
        constructor
        · intro hne
          rcases h4 with h4 | ⟨h4, -⟩
          · exact h4
          · rw [h4]; exact hn hne
        · intro _
          rcases h4 with h4 | ⟨-, h | h⟩
          · exact Or.inl h4
          · exact Or.inr (Or.inl (hoff h))
          · exact Or.inr (Or.inr (hsk h))
    · simp only [FailureLatch, h1, h2, h4, h5, h6]
      exact ⟨hn, hp⟩

/-! ## Ids of pending transfers -/

theorem transferIds_append (a b : List SQueueItem) :
    transferIds (a ++ b) = transferIds a ++ transferIds b := by
  simp [transferIds]

theorem transferIds_cons (it : SQueueItem) (q : List SQueueItem) :
    transferIds (it :: q)
      = (if it.action = EQueueAction.EQueueAction_Fileclient then [it.id] else [])
          ++ transferIds q := by
  unfold transferIds
  by_cases h : it.action = EQueueAction.EQueueAction_Fileclient <;> simp [List.filter_cons, h]

theorem transferIds_perm {a b : List SQueueItem} (h : a.Perm b) :
    (transferIds a).Perm (transferIds b) :=
  (h.filter _).map _

theorem transferIds_of_lookahead {q q' : List SQueueItem} (h : List.Forall₂ Lookahead q q') :
    transferIds q' = transferIds q := by
  induction h with
  | nil => rfl
  | cons hab _ ih =>
    rw [transferIds_cons, transferIds_cons, ih, ident_action hab.1, ident_id hab.1]

theorem shape_of_lookahead {q q' : List SQueueItem} (h : List.Forall₂ Lookahead q q')
    (hq : ∀ it ∈ q, ControlShape it) : ∀ it ∈ q', ControlShape it := by
  induction h with
  | nil => simp
  | cons hab _ ih =>
    rename_i a b l1 l2 _
    intro it hit
    rcases List.mem_cons.1 hit with rfl | hit
    · intro hne
      have ha : a.action ≠ EQueueAction.EQueueAction_Fileclient := by
        rw [← ident_action hab.1]; exact hne
      rw [hab.2.1 ha]
      exact hq a (List.mem_cons_self _ _) ha
    · exact ih (fun x hx => hq x (List.mem_cons_of_mem _ hx)) it hit

theorem idsOk_init : IdsOk [] State.init := by
  constructor <;> simp [State.init, State.pending, transferIds]

/-- Operations that keep the pending entries (up to look-ahead) and the registry keep
the invariant. -/
theorem idsOk_of_same {H : List Nat} {s s' : State} (hs : IdsOk H s)
    (hsh : ∀ it ∈ s'.pending, ControlShape it)
    (hT : transferIds s'.pending = transferIds s.pending)
    (hn : s'.download_nok_ids = s.download_nok_ids)
    (hp : s'.download_partial_ids = s.download_partial_ids) : IdsOk H s' := by
  constructor
  · exact hsh
  · rw [hT]; exact hs.nodup
  · rw [hT]; exact hs.known
  · rw [hT, hn, hp]; exact hs.part
  · rw [hT, hn]; exact hs.nok

theorem idsOk_enqueue {H : List Nat} {s s' : State} {ni : SQueueItem} (hs : IdsOk H s)
    (hshape : ControlShape ni) (hperm : s'.pending.Perm (s.pending ++ [ni]))
    (hn : s'.download_nok_ids = s.download_nok_ids)
    (hp : s'.download_partial_ids = s.download_partial_ids)
    (hfresh : ∀ x ∈ transferIds [ni], x ∉ H ∧ x ≠ npos) :
    IdsOk (H ++ transferIds [ni]) s' := by
  have hT : (transferIds s'.pending).Perm (transferIds s.pending ++ transferIds [ni]) := by
    rw [← transferIds_append]
    exact transferIds_perm hperm
  constructor
  · intro it hit
    rcases List.mem_append.1 (hperm.mem_iff.1 hit) with h | h
    · exact hs.shape it h
    · rw [List.mem_singleton.1 h]; exact hshape
  · rw [hT.nodup_iff, List.nodup_append]
    refine ⟨hs.nodup, ?_, ?_⟩
    · unfold transferIds
      by_cases ha : ni.action = EQueueAction.EQueueAction_Fileclient <;> simp [ha]
    · intro x hx1 hx2
      exact (hfresh x hx2).1 (hs.known x hx1)
  · intro x hx
    rcases List.mem_append.1 (hT.mem_iff.1 hx) with h | h
    · exact List.mem_append_left _ (hs.known x h)
    · exact List.mem_append_right _ h
  · intro x hx
    rw [hp] at hx
    obtain ⟨h1, h2, h3⟩ := hs.part x hx
    refine ⟨List.mem_append_left _ h1, ?_, by rw [hn]; exact h3⟩
    intro hx'
    rcases List.mem_append.1 (hT.mem_iff.1 hx') with h | h
    · exact h2 h
    · exact (hfresh x h).1 h1
  · intro x hx
    rw [hn] at hx
    obtain ⟨h1, h2⟩ := hs.nok x hx
    refine ⟨h1.imp (List.mem_append_left _) id, ?_⟩
    intro hx'
    rcases List.mem_append.1 (hT.mem_iff.1 hx') with h | h
    · exact h2 h
    · rcases h1 with h1 | h1
      · exact (hfresh x h).1 h1
      · exact (hfresh x h).2 h1

theorem idsOk_process {H : List Nat} {s s' : State} {curr : SQueueItem} (hH : npos ∉ H)
    (hs : IdsOk H s) (hcurr : s.curr = some curr) (he : ProcessEffect curr s s') :
    IdsOk H s' := by
  have hpend : s.pending = curr :: s.dl_queue := by simp [State.pending, hcurr]
  have hpend' : s'.pending = s'.dl_queue := by simp [State.pending, he.curr_none]
  have hshape := hs.shape
  have hnodup := hs.nodup
  have hknown := hs.known
  rw [hpend] at hshape hnodup hknown
  rw [transferIds_cons] at hnodup hknown
  have hcs : ControlShape curr := hshape curr (List.mem_cons_self _ _)
  rcases he.effect with ⟨hq, -, hr, hact⟩ | ⟨ha, -, hq, -, hn, hp, -⟩
  · -- the queue is as before, the held item is gone
    have hsub : ∀ x ∈ transferIds s'.pending, x ∈ transferIds s.pending := by
      intro x hx
      rw [hpend', hq] at hx
      rw [hpend, transferIds_cons]
      exact List.mem_append_right _ hx
    have hsh' : ∀ it ∈ s'.pending, ControlShape it := by
      intro it hit
      rw [hpend', hq] at hit
      exact hshape it (List.mem_cons_of_mem _ hit)
    have hnd' : (transferIds s'.pending).Nodup := by
      rw [hpend', hq]
      exact (List.nodup_append.1 hnodup).2.1
    have hkn' : ∀ x ∈ transferIds s'.pending, x ∈ H := fun x hx => hs.known x (hsub x hx)
    -- facts about the id of the held item
    have hid_known : curr.id ∈ H ∨ curr.id = npos := by
      by_cases ha : curr.action = EQueueAction.EQueueAction_Fileclient
      · exact Or.inl (hknown curr.id (by simp [ha]))
      · exact Or.inr (hcs ha).2
    have hid_gone : curr.id ∉ transferIds s'.pending := by
      rw [hpend', hq]
      intro hx
      by_cases ha : curr.action = EQueueAction.EQueueAction_Fileclient
      · simp only [ha, if_true] at hnodup
        exact (List.nodup_cons.1 hnodup).1 hx
      · have : curr.id ∈ H := hknown curr.id (List.mem_append_right _ hx)
        rw [(hcs ha).2] at this
        exact hH this
    have hid_part : curr.id ∉ s.download_partial_ids := by
      intro hx
      obtain ⟨h1, h2, -⟩ := hs.part curr.id hx
      by_cases ha : curr.action = EQueueAction.EQueueAction_Fileclient
      · exact h2 (by rw [hpend, transferIds_cons]; simp [ha])
      · rw [(hcs ha).2] at h1
        exact hH h1
    rcases hr with ⟨hn, hp, -⟩ | ⟨hn, hp, -⟩ | ⟨hp, hn, -⟩
    · constructor
      · exact hsh'
      · exact hnd'
      · exact hkn'
      · intro x hx
        rw [hp] at hx
        obtain ⟨h1, h2, h3⟩ := hs.part x hx
        exact ⟨h1, fun h => h2 (hsub x h), by rw [hn]; exact h3⟩
      · intro x hx
        rw [hn] at hx
        obtain ⟨h1, h2⟩ := hs.nok x hx
        exact ⟨h1, fun h => h2 (hsub x h)⟩
    · constructor
      · exact hsh'
      · exact hnd'
      · exact hkn'
      · intro x hx
        rw [hp] at hx
        obtain ⟨h1, h2, h3⟩ := hs.part x hx
        refine ⟨h1, fun h => h2 (hsub x h), ?_⟩
        rw [hn]
        intro hx'
        rcases List.mem_append.1 hx' with h | h
        · exact h3 h
        · rw [List.mem_singleton.1 h] at hx
          exact hid_part hx
      · intro x hx
        rw [hn] at hx
        rcases List.mem_append.1 hx with h | h
        · obtain ⟨h1, h2⟩ := hs.nok x h
          exact ⟨h1, fun h => h2 (hsub x h)⟩
        · rw [List.mem_singleton.1 h]
          exact ⟨hid_known, hid_gone⟩
    · have ha : curr.action = EQueueAction.EQueueAction_Fileclient := by
        rcases hact (by rw [hp]; simp) with h | h
        · exact h
        · by_contra hne
          rw [(hcs hne).1] at h
          exact absurd h (by simp)
      have hidT : curr.id ∈ transferIds s.pending := by
        rw [hpend, transferIds_cons]; simp [ha]
      constructor
      · exact hsh'
      · exact hnd'
      · exact hkn'
      · intro x hx
        rw [hp] at hx
        rw [hn]
        rcases List.mem_append.1 hx with h | h
        · obtain ⟨h1, h2, h3⟩ := hs.part x h
          exact ⟨h1, fun h => h2 (hsub x h), h3⟩
        · rw [List.mem_singleton.1 h]
          exact ⟨hs.known _ hidT, hid_gone, fun hx' => (hs.nok _ hx').2 hidT⟩
      · intro x hx
        rw [hn] at hx
        obtain ⟨h1, h2⟩ := hs.nok x hx
        exact ⟨h1, fun h => h2 (hsub x h)⟩
  · -- the item is back at the head of the queue as a full transfer
    refine idsOk_of_same hs ?_ ?_ hn hp
    · intro it hit
      rw [hpend', hq] at hit
      rcases List.mem_cons.1 hit with rfl | hit
      · simp [ControlShape, addToQueueFull.ni]
      · exact hshape it (List.mem_cons_of_mem _ hit)
    · rw [hpend', hq, hpend, transferIds_cons, transferIds_cons]
      simp [ha, addToQueueFull.ni]

theorem enqueueLog_cons (op : Op) (ops : List Op) :
    enqueueLog (op :: ops) = op.enqueued.toList ++ enqueueLog ops := by
  unfold enqueueLog
  cases h : op.enqueued <;> simp [List.filterMap_cons, h]

theorem apply_idsOk {cfg : Config} {op : Op} {s s' : State} {H : List Nat} (hH : npos ∉ H)
    (hs : IdsOk H s) (h : apply cfg op s = some s')
    (hfresh : ∀ x ∈ transferIds op.enqueued.toList, x ∉ H ∧ x ≠ npos) :
    IdsOk (H ++ transferIds op.enqueued.toList) s' := by
  cases apply_kind h with
  | enqueue ni hop hshape hq hreg =>
    rw [hop] at hfresh ⊢
    simp only [Option.toList] at hfresh ⊢
    refine idsOk_enqueue hs hshape ?_ hreg.1 hreg.2.1 hfresh
    have hc : s'.curr = s.curr := hreg.2.2.2.2.2.2.2
    rcases hq with hq | ⟨hq, -⟩
    · simp [State.pending, hc, hq]
    · simp only [State.pending, hc, hq]
      exact List.perm_middle.trans (List.perm_append_singleton _ _).symm
  | dequeue c hop hcurr hq hc hreg =>
    subst hop
    simp only [Op.enqueued, Option.toList, transferIds, List.filter_nil, List.map_nil,
      List.append_nil]
    refine idsOk_of_same hs ?_ ?_ hreg.1 hreg.2.1
    · intro it hit
      apply hs.shape
      simpa [State.pending, hcurr, hc, hq] using hit
    · simp [State.pending, hcurr, hc, hq]
  | lookahead hop hnd hq hreg =>
    rw [hop]
    simp only [Option.toList, transferIds, List.filter_nil, List.map_nil, List.append_nil]
    have hc : s'.curr = s.curr := hreg.2.2.2.2.2.2.2
    refine idsOk_of_same hs ?_ ?_ hreg.1 hreg.2.1
    · intro it hit
      simp only [State.pending, hc, List.mem_append] at hit
      rcases hit with hit | hit
      · exact hs.shape it (by simp [State.pending, hit])
      · exact shape_of_lookahead hq
          (fun x hx => hs.shape x (by simp [State.pending, hx])) it hit
    · simp only [State.pending, hc, transferIds_append, transferIds_of_lookahead hq]
  | process o curr hop hcurr he =>
    subst hop
    simp only [Op.enqueued, Option.toList, transferIds, List.filter_nil, List.map_nil,
      List.append_nil]
    exact idsOk_process hH hs hcurr he

theorem run_idsOk {cfg : Config} :
    ∀ (ops : List Op) (H : List Nat) (s s' : State), npos ∉ H → IdsOk H s →
      (H ++ transferIds (enqueueLog ops)).Nodup → npos ∉ transferIds (enqueueLog ops) →
      run cfg ops s = some s' → IdsOk (H ++ transferIds (enqueueLog ops)) s' := by
  intro ops
  induction ops with
  | nil =>
    intro H s s' _ hs _ _ h
    simp only [run, Option.some.injEq] at h
    subst h
    simpa [enqueueLog, transferIds] using hs
  | cons op ops ih =>
    intro H s s' hH hs hnd hnp h
    simp only [run] at h
    split at h
    · contradiction
    · rename_i s1 h1
      rw [enqueueLog_cons, transferIds_append] at hnd hnp ⊢
      rw [← List.append_assoc] at hnd ⊢
      have hfresh : ∀ x ∈ transferIds op.enqueued.toList, x ∉ H ∧ x ≠ npos := by
        intro x hx
        constructor
        · intro hxH
          have := (List.nodup_append.1 (List.nodup_append.1 hnd).1).2.2
          exact this hxH hx
        · rintro rfl
          exact hnp (List.mem_append_left _ hx)
      have hs1 := apply_idsOk hH hs h1 hfresh
      have hH1 : npos ∉ H ++ transferIds op.enqueued.toList := by
        intro hx
        rcases List.mem_append.1 hx with hx | hx
        · exact hH hx
        · exact hnp (List.mem_append_left _ hx)
      exact ih _ s1 s' hH1 hs1 hnd (fun hx => hnp (List.mem_append_right _ hx)) h

/-! ## Full transfer, case by case -/

theorem getFileRetry_fd_isSome (gf : Nat → ErrCode × Nat) (cfn : String) :
    ∀ (n k : Nat) (r : GetFileResult), r.fd.isSome →
      ∃ r', getFileRetry gf cfn n k r = some r' ∧ r'.fd.isSome := by
  intro n
  induction n with
  | zero => intro k r hr; exact ⟨r, rfl, hr⟩
  | succ n ih =>
    intro k r hr
    unfold getFileRetry
    split
    · rcases hfd : r.fd with _ | f
      · simp [hfd] at hr
      · simp only
        exact ih _ _ rfl
    · exact ⟨r, rfl, hr⟩

theorem load_file_transfer_fd_isSome (o : Oracle) (cfn : String) (f : IFile) :
    ∃ r, load_file_transfer o cfn (some f) = some r ∧ r.fd.isSome := by
  unfold load_file_transfer
  exact getFileRetry_fd_isSome _ _ _ _ _ (by simp [setSize])

theorem logScriptOutput_fst_of_fails {cfg : Config} {o : Oracle} (h : ScriptFails cfg o)
    (s : State) (cfn : String) : (logScriptOutput cfg o s cfn).1 = false := by
  unfold logScriptOutput
  rcases h with h | h | h
  · simp [h]
  · simp [h]
  · split
    · rfl
    · split
      · simp [h]
      · rfl

theorem exists_of_isSome {α β : Type} {x : Option (α × β)} (h : x.isSome) :
    ∃ a b, x = some (a, b) := by
  rcases x with _ | ⟨a, b⟩
  · simp at h
  · exact ⟨a, b, rfl⟩

theorem load_file_finish_isSome (cfg : Config) (o : Oracle) (s : State) (todl : SQueueItem)
    (cfn : String) (rc : ErrCode) (fd : Option IFile)
    (hfd : todl.metadata_only = false → fd.isSome) :
    (load_file_finish cfg o s todl cfn rc fd).isSome := by
  unfold load_file_finish
  simp only
  split
  · rename_i hc
    rcases fd with _ | f
    · simp [hc.2] at hfd
    · rfl
  · rfl

/-- `load_file_classify` after a transfer that ended with `ERR_SUCCESS`. -/
theorem load_file_classify_success (cfg : Config) (o : Oracle) (s : State)
    (todl : SQueueItem) (cfn : String) (fd : Option IFile) :
    let c := load_file_classify cfg o s todl cfn ErrCode.ERR_SUCCESS fd
    c.1.ret = true ∧ c.1.hash_file = true
      ∧ c.2.max_ok_id = max s.max_ok_id todl.id
      ∧ c.2.download_nok_ids = s.download_nok_ids
      ∧ c.2.download_partial_ids = s.download_partial_ids
      ∧ c.2.all_downloads_ok = s.all_downloads_ok
      ∧ c.2.hashpipe = s.hashpipe
      ∧ (todl.is_script = true → ScriptFails cfg o → c.1.script_ok = false) := by
  unfold load_file_classify
  simp only [ne_eq, not_true_eq_false, if_false, logScriptOutput_snd, true_and]
  cases hs : todl.is_script
  · simp
  · simp only [if_true, logScriptOutput_snd, true_and, forall_const]
    exact fun hf => logScriptOutput_fst_of_fails hf _ _

theorem savesIncomplete_iff (cfg : Config) (todl : SQueueItem) (rc : ErrCode)
    (fd : Option IFile) :
    SavesIncomplete cfg todl rc fd ↔
      ((rc = ErrCode.ERR_TIMEOUT ∨ rc = ErrCode.ERR_ERROR) ∧ cfg.save_incomplete_file = true
        ∧ (match fd with
            | some f => decide (f.size > 0)
            | none => false) = true
        ∧ todl.metadata_only = false) := by
  unfold SavesIncomplete
  rcases fd with _ | f <;> simp

/-- `load_file_classify` after a transfer that ended with another code. -/
theorem load_file_classify_failure (cfg : Config) (o : Oracle) (s : State)
    (todl : SQueueItem) (cfn : String) (rc : ErrCode) (fd : Option IFile)
    (hrc : rc ≠ ErrCode.ERR_SUCCESS) :
    let c := load_file_classify cfg o s todl cfn rc fd
    c.2.all_downloads_ok = false ∧ c.2.hashpipe = s.hashpipe
      ∧ (SavesIncomplete cfg todl rc fd →
          c.1.hash_file = true
          ∧ c.2.download_partial_ids = s.download_partial_ids ++ [todl.id]
          ∧ c.2.download_nok_ids = s.download_nok_ids
          ∧ c.2.max_ok_id = max s.max_ok_id todl.id)
      ∧ (¬ SavesIncomplete cfg todl rc fd →
          c.1.hash_file = false
          ∧ c.2.download_partial_ids = s.download_partial_ids
          ∧ c.2.max_ok_id = s.max_ok_id
          ∧ (todl.metadata_only = false →
              c.2.download_nok_ids = s.download_nok_ids ++ [todl.id])
          ∧ (todl.metadata_only = true → c.2.download_nok_ids = s.download_nok_ids)) := by
  rw [savesIncomplete_iff]
  unfold load_file_classify
  simp only [ne_eq, hrc, not_false_eq_true, if_true]
  split
  · rename_i hc
    simp [hc, IdSet.add]
  · rename_i hc
    split
    · rename_i hm
      simp only [hm, IdSet.add, and_true, true_and, not_true_eq_false, true_implies,
        not_false_eq_true, implies_true]
      simp only [hm, and_true] at hc
      refine ⟨fun h => absurd h hc, ?_⟩
      simp
    · rename_i hm
      simp only [Bool.not_eq_false] at hm
      simp [hm]

/-- `load_file_finish` after a transfer that ended with `ERR_SUCCESS`. -/
theorem load_file_finish_success {cfg : Config} {o : Oracle} {s s' : State}
    {todl : SQueueItem} {cfn : String} {fd : Option IFile} {ret : Bool}
    (h : load_file_finish cfg o s todl cfn ErrCode.ERR_SUCCESS fd = some (ret, s')) :
    s'.max_ok_id = max s.max_ok_id todl.id
      ∧ s'.download_nok_ids = s.download_nok_ids
      ∧ s'.download_partial_ids = s.download_partial_ids
      ∧ s'.all_downloads_ok = s.all_downloads_ok
      ∧ (todl.is_script = true → ScriptFails cfg o → ret = false) := by
  have hc := load_file_classify_success cfg o s todl cfn fd
  unfold load_file_finish at h
  simp only at h hc
  generalize load_file_classify cfg o s todl cfn ErrCode.ERR_SUCCESS fd = c at h hc
  obtain ⟨l, s2⟩ := c
  obtain ⟨-, -, h3, h4, h5, h6, -, h8⟩ := hc
  simp only at h3 h4 h5 h6 h8 h
  have hret : todl.is_script = true → ScriptFails cfg o →
      (if todl.is_script = true ∧ (ErrCode.ERR_SUCCESS ≠ ErrCode.ERR_SUCCESS
        ∨ l.script_ok = false) then false else l.ret) = false := by
    intro hs hf
    simp [hs, h8 hs hf]
  split at h
  · split at h
    · contradiction
    · simp only [Option.some.injEq, Prod.mk.injEq] at h
      obtain ⟨rfl, rfl⟩ := h
      exact ⟨h3, h4, h5, h6, hret⟩
  · simp only [Option.some.injEq, Prod.mk.injEq] at h
    obtain ⟨rfl, rfl⟩ := h
    exact ⟨h3, h4, h5, h6, hret⟩

/-- `load_file_finish` after a transfer that ended with another code. -/
theorem load_file_finish_failure {cfg : Config} {o : Oracle} {s s' : State}
    {todl : SQueueItem} {cfn : String} {rc : ErrCode} {fd : Option IFile} {ret : Bool}
    (hrc : rc ≠ ErrCode.ERR_SUCCESS)
    (h : load_file_finish cfg o s todl cfn rc fd = some (ret, s')) :
    s'.all_downloads_ok = false
      ∧ (SavesIncomplete cfg todl rc fd →
          s'.download_partial_ids = s.download_partial_ids ++ [todl.id]
          ∧ s'.download_nok_ids = s.download_nok_ids
          ∧ s'.max_ok_id = max s.max_ok_id todl.id
          ∧ ∃ f data, fd = some f ∧ s'.hashpipe = s.hashpipe ++ [data]
              ∧ data.t_filesize = (f.size : Int) ∧ data.temp_fn = f.name)
      ∧ (¬ SavesIncomplete cfg todl rc fd →
          s'.download_partial_ids = s.download_partial_ids
          ∧ s'.max_ok_id = s.max_ok_id ∧ s'.hashpipe = s.hashpipe
          ∧ (todl.metadata_only = false →
              s'.download_nok_ids = s.download_nok_ids ++ [todl.id])
          ∧ (todl.metadata_only = true → s'.download_nok_ids = s.download_nok_ids)) := by
  have hc := load_file_classify_failure cfg o s todl cfn rc fd hrc
  unfold load_file_finish at h
  simp only at h hc
  generalize load_file_classify cfg o s todl cfn rc fd = c at h hc
  obtain ⟨l, s2⟩ := c
  obtain ⟨h1, h2, h3, h4⟩ := hc
  simp only at h1 h2 h3 h4 h
  split at h
  · rename_i hh
    have hsv : SavesIncomplete cfg todl rc fd := by
      by_contra hn
      have := (h4 hn).1
      rw [hh.1] at this
      exact absurd this (by simp)
    obtain ⟨-, h5, h6, h7⟩ := h3 hsv
    split at h
    · contradiction
    · rename_i f
      simp only [Option.some.injEq, Prod.mk.injEq] at h
      obtain ⟨-, rfl⟩ := h
      refine ⟨by simpa [hashFile] using h1, fun _ => ⟨by simpa [hashFile] using h5,
        by simpa [hashFile] using h6, by simpa [hashFile] using h7, ?_⟩,
        fun hn => absurd hsv hn⟩
      simp only [hashFile]
      rw [h2]
      exact ⟨f, _, rfl, rfl, rfl, rfl⟩
  · rename_i hh
    simp only [Option.some.injEq, Prod.mk.injEq] at h
    obtain ⟨-, rfl⟩ := h
    have hsv : ¬ SavesIncomplete cfg todl rc fd := by
      intro hsv
      exact hh ⟨(h3 hsv).1, hsv.2.2.2⟩
    exact ⟨h1, fun h => absurd h hsv, fun _ => ⟨(h4 hsv).2.1, (h4 hsv).2.2.1, h2,
      (h4 hsv).2.2.2⟩⟩

theorem load_file_fd_isSome {o : Oracle} {todl : SQueueItem} {fd : Option IFile}
    (h : load_file_fd o todl = some fd) : todl.metadata_only = false → fd.isSome := by
  intro hm
  unfold load_file_fd at h
  simp only [hm, Bool.false_eq_true, if_false] at h
  split at h
  · contradiction
  · simp only [Option.some.injEq] at h
    rw [← h]
    rfl

theorem load_file_transfer_fd {o : Oracle} {cfn : String} {fd : Option IFile}
    {r : GetFileResult} (h : load_file_transfer o cfn fd = some r) (hfd : fd.isSome) :
    r.fd.isSome := by
  rcases fd with _ | f
  · simp at hfd
  · obtain ⟨r', h1, h2⟩ := load_file_transfer_fd_isSome o cfn f
    rw [h] at h1
    simp only [Option.some.injEq] at h1
    rw [h1]
    exact h2

/-- When the temp file is there and the transfer returns, `load_file` is
`load_file_finish` on the outcome of the transfer. -/
theorem load_file_eq_finish {cfg : Config} {o : Oracle} {todl : SQueueItem}
    {fd : Option IFile} {r : GetFileResult} (s : State) (hfd : load_file_fd o todl = some fd)
    (htr : load_file_transfer o (getDLPath cfg o.random todl) fd = some r) :
    load_file cfg o s todl
      = load_file_finish cfg o
          { s with tmpfiles := createTmp s.tmpfiles fd, trace := s.trace ++ r.calls }
          todl (getDLPath cfg o.random todl) r.rc r.fd := by
  unfold load_file
  simp only [hfd, htr]

theorem load_file_returns {cfg : Config} {o : Oracle} {todl : SQueueItem}
    {fd : Option IFile} {r : GetFileResult} (s : State) (hfd : load_file_fd o todl = some fd)
    (htr : load_file_transfer o (getDLPath cfg o.random todl) fd = some r) :
    ∃ ret s', load_file cfg o s todl = some (ret, s') := by
  rw [load_file_eq_finish s hfd htr]
  apply exists_of_isSome
  apply load_file_finish_isSome
  intro hm
  exact load_file_transfer_fd htr (load_file_fd_isSome hfd hm)

/-! ## Patch transfer, case by case -/

theorem link_or_copy_file_isSome (cfg : Config) (o : Oracle) (s : State) (todl : SQueueItem)
    (h1 : todl.patch_dl_files.orig_file.isSome) (h2 : todl.patch_dl_files.patchfile.isSome)
    (h3 : todl.patch_dl_files.chunkhashes.isSome) (h4 : todl.patch_dl_files.hashoutput.isSome)
    (h5 : SalvageDefined o) :
    (link_or_copy_file cfg o s todl).isSome := by
  rcases ho : todl.patch_dl_files.orig_file with _ | orig
  · simp [ho] at h1
  rcases hp : todl.patch_dl_files.patchfile with _ | patchfile
  · simp [hp] at h2
  rcases hc : todl.patch_dl_files.chunkhashes with _ | chunkhashes
  · simp [hc] at h3
  rcases hh : todl.patch_dl_files.hashoutput with _ | hashoutput
  · simp [hh] at h4
  unfold SalvageDefined at h5
  cases hf : o.hardlink_file <;> cases hs : o.hardlink_hashes <;>
    simp only [hf, hs, Bool.and_self, Bool.and_true, Bool.and_false, Bool.false_eq_true,
      false_or, true_or] at h5 <;>
    simp only [link_or_copy_file, ho, hp, hc, hh, hf, hs, if_true, if_false,
      Bool.false_eq_true] <;>
    first
      | rfl
      | (simp only [h5, Bool.true_and]
         split <;> rfl)

/-- When the hard links fail and then `Seek`, `Write` or `copy_file` fails,
`link_or_copy_file` uses the hash-output handle it has deleted. -/
theorem link_or_copy_file_eq_none (cfg : Config) (o : Oracle) (s : State) (todl : SQueueItem)
    (h5 : ¬ SalvageDefined o) : link_or_copy_file cfg o s todl = none := by
  unfold SalvageDefined at h5
  simp only [not_or, Bool.not_eq_true] at h5
  obtain ⟨ha, hb⟩ := h5
  unfold link_or_copy_file
  simp only
  split
  · rfl
  · split
    · rfl
    · rename_i hl
      exfalso
      cases hf : o.hardlink_file <;> simp [hf] at hl ha
      split at hl
      · contradiction
      · simp only [Option.some.injEq] at hl
        rw [hl] at ha
        contradiction
    · split
      · simp [hb]
      · rfl

/-- `load_file_patch_finish` after a transfer that ended with `ERR_SUCCESS`. -/
theorem load_file_patch_finish_success (cfg : Config) (o : Oracle) (s : State)
    (todl : SQueueItem) (cfn : String) (patchfile hashoutput : IFile) (download_filesize : Int) :
    ∃ ret s', load_file_patch_finish cfg o s todl cfn ErrCode.ERR_SUCCESS patchfile hashoutput
        download_filesize = some (ret, s')
      ∧ s'.max_ok_id = max s.max_ok_id todl.id
      ∧ s'.download_nok_ids = s.download_nok_ids
      ∧ s'.download_partial_ids = s.download_partial_ids
      ∧ s'.all_downloads_ok = s.all_downloads_ok
      ∧ (todl.is_script = true → ScriptFails cfg o → ret = false) := by
  unfold load_file_patch_finish
  simp only [ne_eq, not_true_eq_false, if_false, hashFile, logScriptOutput_snd]
  refine ⟨_, _, rfl, ?_, ?_, ?_, ?_, ?_⟩
  · cases todl.is_script <;> simp [logScriptOutput_snd]
  · cases todl.is_script <;> simp [logScriptOutput_snd]
  · cases todl.is_script <;> simp [logScriptOutput_snd]
  · cases todl.is_script <;> simp [logScriptOutput_snd]
  · intro hs hf
    simp [hs, logScriptOutput_fst_of_fails hf]

/-- `load_file_patch_finish` after a transfer that ended with another code. -/
theorem load_file_patch_finish_failure {cfg : Config} {o : Oracle} {s s' : State}
    {todl : SQueueItem} {cfn : String} {rc : ErrCode} {patchfile hashoutput : IFile}
    {download_filesize : Int} {ret : Bool} (hrc : rc ≠ ErrCode.ERR_SUCCESS)
    (h : load_file_patch_finish cfg o s todl cfn rc patchfile hashoutput download_filesize
      = some (ret, s')) :
    s'.all_downloads_ok = false
      ∧ (rc = ErrCode.ERR_BASE_DIR_LOST ∧ cfg.save_incomplete_file = true →
          ∃ b s3, link_or_copy_file cfg o { s with all_downloads_ok := false } todl = some (b, s3)
            ∧ s'.hashpipe = s3.hashpipe
            ∧ (b = true → s'.download_partial_ids = s.download_partial_ids ++ [todl.id]
                ∧ s'.download_nok_ids = s.download_nok_ids
                ∧ s'.max_ok_id = max s.max_ok_id todl.id)
            ∧ (b = false → s'.download_nok_ids = s.download_nok_ids ++ [todl.id]
                ∧ s'.download_partial_ids = s.download_partial_ids
                ∧ s'.max_ok_id = s.max_ok_id))
      ∧ (¬ (rc = ErrCode.ERR_BASE_DIR_LOST ∧ cfg.save_incomplete_file = true) →
          (SavesIncompletePatch cfg rc patchfile →
            s'.download_partial_ids = s.download_partial_ids ++ [todl.id]
            ∧ s'.download_nok_ids = s.download_nok_ids
            ∧ s'.max_ok_id = max s.max_ok_id todl.id
            ∧ ∃ data, s'.hashpipe = s.hashpipe ++ [data] ∧ data.temp_fn = patchfile.name
                ∧ data.t_filesize = download_filesize)
          ∧ (¬ SavesIncompletePatch cfg rc patchfile →
            s'.download_nok_ids = s.download_nok_ids ++ [todl.id]
            ∧ s'.download_partial_ids = s.download_partial_ids
            ∧ s'.max_ok_id = s.max_ok_id ∧ s'.hashpipe = s.hashpipe)) := by
  unfold load_file_patch_finish at h
  simp only [ne_eq, hrc, not_false_eq_true, if_true] at h
  split at h
  · rename_i hb
    rcases hl : link_or_copy_file cfg o { s with all_downloads_ok := false } todl
      with _ | ⟨b, s3⟩
    · simp [hl] at h
    · obtain ⟨t, tr, hp, rfl⟩ := link_or_copy_file_frame hl
      cases b <;> simp only [hl, IdSet.add, Option.some.injEq, Prod.mk.injEq] at h <;>
        (obtain ⟨-, rfl⟩ := h
         refine ⟨rfl, fun _ => ⟨_, _, rfl, by simp⟩, fun hn => absurd hb hn⟩)
  · rename_i hb
    split at h
    · rename_i hsv
      simp only [hashFile, IdSet.add, Option.some.injEq, Prod.mk.injEq] at h
      obtain ⟨-, rfl⟩ := h
      refine ⟨rfl, fun h => absurd h hb, fun _ => ⟨fun _ => ⟨rfl, rfl, rfl, _, rfl, rfl, rfl⟩,
        fun hn => absurd hsv hn⟩⟩
    · rename_i hsv
      simp only [IdSet.add, Option.some.injEq, Prod.mk.injEq] at h
      obtain ⟨-, rfl⟩ := h
      refine ⟨rfl, fun h => absurd h hb, fun _ => ⟨fun h => absurd h hsv,
        fun _ => ⟨rfl, rfl, rfl, rfl⟩⟩⟩

theorem load_file_patch_loop_handles {cfg : Config} {o : Oracle} {s : State}
    {todl : SQueueItem} {cfn : String} {l : PatchLoop}
    (h : load_file_patch_loop cfg o s todl cfn = some l) :
    todl.patch_dl_files.orig_file.isSome ∧ todl.patch_dl_files.patchfile.isSome
      ∧ todl.patch_dl_files.chunkhashes.isSome ∧ todl.patch_dl_files.hashoutput.isSome := by
  unfold load_file_patch_loop at h
  simp only at h
  split at h
  · rename_i h1 h2 h3 h4
    simp [h1, h2, h3, h4]
  · contradiction

/-- When the item is prepared and the retry loop runs to its end, `load_file_patch` is
`load_file_patch_finish` on the outcome of the loop. -/
theorem load_file_patch_eq_finish {cfg : Config} {o : Oracle} {s s1 : State}
    {todl t : SQueueItem} {fdl : Bool} {rc : ErrCode} {pfd hash_tmp : IFile}
    {download_filesize : Int} {tmpfiles : List String} {calls : List Ev}
    (hprep : load_file_patch_prepare cfg o s todl = (t, fdl, s1))
    (herr : t.patch_dl_files.prepare_error = false)
    (hloop : load_file_patch_loop cfg o s1 t (load_file_patch_cfn cfg o todl)
      = some (PatchLoop.done rc pfd hash_tmp download_filesize tmpfiles calls)) :
    load_file_patch cfg o s todl
      = load_file_patch_finish cfg o
          { s1 with tmpfiles := tmpfiles, trace := s1.trace ++ calls }
          (load_file_patch_item o t pfd hash_tmp)
          (load_file_patch_remote cfg t (load_file_patch_cfn cfg o todl)) rc pfd hash_tmp
          (if download_filesize < 0 then (o.getFilePatch 0).2.2 else download_filesize) := by
  have ho := (load_file_patch_loop_handles hloop).1
  unfold load_file_patch
  simp only [hprep]
  rw [if_neg (by
    rintro ⟨h1, -⟩
    simp [h1] at ho)]
  unfold load_file_patch_transfer
  simp only [herr, hloop, Bool.false_eq_true, if_false]
  rfl

/-! ## The result code of a processing step -/

/-- `process` on a transfer item while the engine is neither offline nor skipping. -/
theorem process_transfer {cfg : Config} {o : Oracle} {s : State} {curr : SQueueItem}
    (hcurr : s.curr = some curr) (hact : curr.action = EQueueAction.EQueueAction_Fileclient)
    (hoff : s.is_offline = false) (hsk : s.skipping = false) :
    process cfg o s
      = (match (if curr.fileclient = EFileClient.EFileClient_Full then
            load_file cfg o { s with curr := none } curr
          else load_file_patch cfg o { s with curr := none } curr) with
        | none => none
        | some (ret, s1) => some (if !ret then { s1 with is_offline := true } else s1)) := by
  unfold process
  simp only [hcurr, hact, hoff, hsk, reduceCtorEq, if_false, Bool.or_self, Bool.false_eq_true]
  cases hf : curr.fileclient <;> simp

/-- A step whose transfer ended with `ERR_SUCCESS`: the step returns, `max_ok_id`
covers the id, and a failed script latches `is_offline`. -/
theorem process_of_success {cfg : Config} {o : Oracle} {s : State}
    (hrc : transfer_rc cfg o s = some ErrCode.ERR_SUCCESS) :
    ∃ curr s', s.curr = some curr ∧ process cfg o s = some s'
      ∧ s'.max_ok_id = max s.max_ok_id curr.id
      ∧ s'.download_nok_ids = s.download_nok_ids
      ∧ s'.download_partial_ids = s.download_partial_ids
      ∧ (curr.is_script = true → ScriptFails cfg o → s'.is_offline = true) := by
  unfold transfer_rc at hrc
  split at hrc
  · contradiction
  · rename_i curr hcurr
    refine ⟨curr, ?_⟩
    split at hrc
    · contradiction
    · rename_i hc
      simp only [not_or, not_not, Bool.not_eq_true] at hc
      obtain ⟨hact, hoff, hsk⟩ := hc
      rw [process_transfer hcurr hact hoff hsk]
      split at hrc
      · rename_i hfull
        simp only [hfull, if_true]
        split at hrc
        · contradiction
        · rename_i fd hfd
          rcases htr : load_file_transfer o (getDLPath cfg o.random curr) fd with _ | r
          · simp [htr] at hrc
          · simp only [htr, Option.map_some', Option.some.injEq] at hrc
            obtain ⟨ret, s1, h1⟩ := load_file_returns { s with curr := none } hfd htr
            have h2 := h1
            rw [load_file_eq_finish _ hfd htr, hrc] at h2
            obtain ⟨m1, m2, m3, -, m5⟩ := load_file_finish_success h2
            rw [h1]
            refine ⟨_, hcurr, rfl, ?_, ?_, ?_, ?_⟩
            · cases ret <;> simpa using m1
            · cases ret <;> simpa using m2
            · cases ret <;> simpa using m3
            · intro hs hf
              simp [m5 hs hf]
      · rename_i hfull
        simp only [hfull, if_false]
        simp only at hrc
        split at hrc
        · contradiction
        · rename_i herr
          simp only [Bool.not_eq_true] at herr
          split at hrc
          · rename_i rc pfd hash_tmp dfs tmp calls hloop
            simp only [Option.some.injEq] at hrc
            subst hrc
            obtain ⟨t, hfr⟩ := load_file_patch_prepare_frame cfg o { s with curr := none } curr
            rw [load_file_patch_eq_finish (Prod.mk.eta).symm herr hloop]
            obtain ⟨ret, s1, h1, m1, m2, m3, -, m5⟩ := load_file_patch_finish_success cfg o
              { (load_file_patch_prepare cfg o { s with curr := none } curr).2.2 with
                tmpfiles := tmp,
                trace := (load_file_patch_prepare cfg o { s with curr := none } curr).2.2.trace
                  ++ calls }
              (load_file_patch_item o (load_file_patch_prepare cfg o { s with curr := none }
                curr).1 pfd hash_tmp)
              (load_file_patch_remote cfg (load_file_patch_prepare cfg o { s with curr := none }
                curr).1 (load_file_patch_cfn cfg o curr)) pfd hash_tmp
              (if dfs < 0 then (o.getFilePatch 0).2.2 else dfs)
            rw [h1]
            simp only [hfr] at m1 m2 m3
            have hid : (load_file_patch_item o (load_file_patch_prepare cfg o
                { s with curr := none } curr).1 pfd hash_tmp).id = curr.id := by
              simp [load_file_patch_item, load_file_patch_prepare_id]
            have hscr : (load_file_patch_item o (load_file_patch_prepare cfg o
                { s with curr := none } curr).1 pfd hash_tmp).is_script = curr.is_script := by
              unfold load_file_patch_item load_file_patch_prepare
              split <;> rfl
            rw [hid] at m1
            rw [hscr] at m5
            refine ⟨_, hcurr, rfl, ?_, ?_, ?_, ?_⟩
            · cases ret <;> simpa using m1
            · cases ret <;> simpa using m2
            · cases ret <;> simpa using m3
            · intro hs hf
              simp [m5 hs hf]
          · contradiction

theorem addsToOneSet_of_registry {id : Nat} {s s' : State} (h : Registry id s s') :
    AddsToOneSet id s s' := by
  rcases h with ⟨h1, h2, -⟩ | ⟨h1, h2, -⟩ | ⟨h1, h2, -⟩
  · exact Or.inl ⟨h1, h2⟩
  · exact Or.inr (Or.inl ⟨h1, h2⟩)
  · exact Or.inr (Or.inr ⟨h1, h2⟩)

theorem enqueued_of_isLookahead {op : Op} (h : op.isLookahead = true) :
    op.enqueued = none ∧ op ≠ Op.dequeue ∧ ∀ o, op ≠ Op.process o := by
  cases op <;> simp_all [Op.isLookahead, Op.enqueued]

/-! ## Patch preparation: call sites and temp files -/

/-- `load_file_patch` on an item marked `prepare_error` returns false at once. -/
theorem load_file_patch_of_prepare_error (cfg : Config) (o : Oracle) (s : State)
    (todl : SQueueItem) (he : todl.patch_dl_files.prepare_error = true) :
    load_file_patch cfg o s todl = some (false, s) := by
  simp [load_file_patch, load_file_patch_prepare, load_file_patch_transfer, he]

/-- `load_file_patch` on a prepared item goes on with the files the item carries. -/
theorem load_file_patch_prepare_of_prepared (cfg : Config) (o : Oracle) (s : State)
    (todl : SQueueItem)
    (h : todl.patch_dl_files.prepared = true ∨ todl.patch_dl_files.prepare_error = true) :
    load_file_patch_prepare cfg o s todl = (todl, false, s) := by
  rcases h with h | h <;> simp [load_file_patch_prepare, h]

/-- The look-ahead `getQueuedFileChunked` passes over an item marked `prepare_error`
and leaves it as it is. -/
theorem getQueuedFileChunked_scan_of_prepare_error (cfg : Config) (o : Nat → Oracle) (i : Nat)
    (it : SQueueItem) (rest : List SQueueItem) (s : State)
    (he : it.patch_dl_files.prepare_error = true) :
    getQueuedFileChunked.scan cfg o i (it :: rest) s
      = ((getQueuedFileChunked.scan cfg o (i + 1) rest s).1,
          it :: (getQueuedFileChunked.scan cfg o (i + 1) rest s).2.1,
          (getQueuedFileChunked.scan cfg o (i + 1) rest s).2.2) := by
  simp only [getQueuedFileChunked.scan, he, if_true]
  split <;> rfl

/-- In the offline or skipping branch an item that is not prepared is prepared
whether or not it is marked `prepare_error`. -/
theorem process_offline_of_not_prepared (cfg : Config) (o : Oracle) (s : State)
    (curr : SQueueItem) (hc : curr.fileclient = EFileClient.EFileClient_Chunked)
    (hp : curr.patch_dl_files.prepared = false) :
    process_offline cfg o s curr
      = process_offline cfg o s
          { curr with patch_dl_files :=
              { curr.patch_dl_files with prepare_error := false } } := by
  simp only [process_offline, hc, hp]
  rfl

/-- When the third temp-file allocation of `preparePatchDownloadFiles` does not fail
and the name of the first temp file is new, the temp files on disk after the call
are those before it and those the returned record refers to. -/
theorem preparePatchDownloadFiles_tmpfiles (cfg : Config) (o : Oracle) (s : State)
    (todl : SQueueItem) (h3 : o.tmp_hashfile_old ≠ none)
    (hfresh : ∀ f, o.tmp_pfd = some f → f.name ∉ s.tmpfiles) :
    (preparePatchDownloadFiles cfg o s todl).2.2.tmpfiles
      = (preparePatchDownloadFiles cfg o s todl).1.tmpNames ++ s.tmpfiles := by
  unfold preparePatchDownloadFiles
  simp only
  split
  · rfl
  · split
    · rfl
    · rename_i pfd hpfd
      have hf := hfresh pfd hpfd
      split
      · simp only [deleteTmp, createTmp, SPatchDownloadFiles.tmpNames, SPatchDownloadFiles.zero]
        simp only [List.filter_cons, bne_self_eq_false, Bool.false_eq_true, if_false,
          Option.map_none', Option.toList_none, List.append_nil, List.nil_append, ite_self]
        rw [List.filter_eq_self]
        intro a ha
        simp only [bne_iff_ne, ne_eq]
        intro e
        exact hf (e ▸ ha)
      · split
        · rcases ht : o.tmp_hashfile_old with _ | h
          · exact absurd ht h3
          · simp [createTmp, SPatchDownloadFiles.tmpNames]
        · simp [createTmp, SPatchDownloadFiles.tmpNames]

/-! ## The look-ahead for full transfers -/

theorem countP_isGetFile_retryCalls (gf : Nat → ErrCode × Nat) (cfn : String) (f : IFile) :
    ∀ j, (retryCalls gf cfn f j).countP Ev.isGetFile = j
      ∧ (retryCalls gf cfn f j).countP Ev.isSeek = j := by
  intro j
  induction j with
  | zero => exact ⟨rfl, rfl⟩
  | succ j ih =>
    simp only [retryCalls, List.countP_append, ih.1, ih.2]
    simp [Ev.isGetFile, Ev.isSeek]

/-- The retry loop of `load_file`, started after `j` rounds with `n` retries left,
runs `d` more rounds when the next `d` result codes are `ERR_HASH` and the one after
them is not, or the retries are used up. -/
theorem getFileRetry_rounds (gf : Nat → ErrCode × Nat) (cfn : String) (f : IFile) :
    ∀ (n j d : Nat), d ≤ n →
      (∀ i, j ≤ i → i < j + d → (gf i).1 = ErrCode.ERR_HASH) →
      (d < n → (gf (j + d)).1 ≠ ErrCode.ERR_HASH) →
      getFileRetry gf cfn n (j + 1) (retryState gf cfn f j)
        = some (retryState gf cfn f (j + d)) := by
  intro n
  induction n with
  | zero =>
    intro j d hd _ _
    have : d = 0 := by omega
    subst this
    rfl
  | succ n ih =>
    intro j d hd hh hl
    unfold getFileRetry
    rcases d with _ | d
    · have h0 : (retryState gf cfn f j).rc ≠ ErrCode.ERR_HASH := by
        simpa [retryState] using hl (by omega)
      rw [if_neg h0]
      rfl
    · have h0 : (retryState gf cfn f j).rc = ErrCode.ERR_HASH := by
        simpa [retryState] using hh j (Nat.le_refl _) (by omega)
      rw [if_pos h0]
      have := ih (j + 1) d (by omega) (fun i h1 h2 => hh i (by omega) (by omega))
        (fun h1 => by
          have := hl (by omega)
          rwa [show j + (d + 1) = j + 1 + d by omega] at this)
      rw [show j + (d + 1) = j + 1 + d by omega, ← this]
      rfl

theorem load_file_transfer_rounds (o : Oracle) (cfn : String) (f : IFile) (k : Nat)
    (hk : ∀ i, i < min k 5 → (o.getFile i).1 = ErrCode.ERR_HASH)
    (hlast : k < 5 → (o.getFile k).1 ≠ ErrCode.ERR_HASH) :
    load_file_transfer o cfn (some f) = some (retryState o.getFile cfn f (min k 5)) := by
  have h := getFileRetry_rounds o.getFile cfn f 5 0 (min k 5) (Nat.min_le_right _ _)
    (fun i _ h2 => hk i (by omega))
    (fun h1 => by
      have hk5 : k < 5 := by omega
      have : min k 5 = k := Nat.min_eq_left (by omega)
      rw [Nat.zero_add, this]
      exact hlast hk5)
  simp only [Nat.zero_add] at h
  exact h

/-- The retry loop of `load_file` on a null handle: the rewind runs on the null
handle exactly when the first result code is `ERR_HASH`. -/
theorem load_file_transfer_null (o : Oracle) (cfn : String) :
    load_file_transfer o cfn none = none ↔ (o.getFile 0).1 = ErrCode.ERR_HASH := by
  unfold load_file_transfer
  simp only [setSize, Option.map_none']
  unfold getFileRetry
  by_cases h : (o.getFile 0).1 = ErrCode.ERR_HASH
  · simp [h]
  · simp [h]

theorem logScriptOutput_fst_state (cfg : Config) (o : Oracle) (s t : State) (cfn : String) :
    (logScriptOutput cfg o s cfn).1 = (logScriptOutput cfg o t cfn).1 := by
  unfold logScriptOutput
  repeat' split
  all_goals rfl

/-- The external calls `load_file_classify` adds: the script message, for a script
whose transfer ended with `ERR_SUCCESS`. -/
theorem load_file_classify_trace (cfg : Config) (o : Oracle) (s : State)
    (todl : SQueueItem) (cfn : String) (rc : ErrCode) (fd : Option IFile) :
    ∃ tail, (load_file_classify cfg o s todl cfn rc fd).2.trace = s.trace ++ tail
      ∧ tail.countP Ev.isGetFile = 0 ∧ tail.countP Ev.isSeek = 0 := by
  unfold load_file_classify
  simp only
  split
  · split
    · exact ⟨[], by simp⟩
    · split <;> exact ⟨[], by simp⟩
  · split
    · refine ⟨[Ev.ClientMessage ("SCRIPT STDERR " ++ cfn)], ?_, rfl, rfl⟩
      simp [logScriptOutput_snd]
    · exact ⟨[], by simp⟩

theorem load_file_finish_trace {cfg : Config} {o : Oracle} {s s' : State}
    {todl : SQueueItem} {cfn : String} {rc : ErrCode} {fd : Option IFile} {ret : Bool}
    (h : load_file_finish cfg o s todl cfn rc fd = some (ret, s')) :
    ∃ tail, s'.trace = s.trace ++ tail
      ∧ tail.countP Ev.isGetFile = 0 ∧ tail.countP Ev.isSeek = 0 := by
  have hc := load_file_classify_trace cfg o s todl cfn rc fd
  unfold load_file_finish at h
  simp only at h
  split at h
  · split at h
    · contradiction
    · simp only [Option.some.injEq, Prod.mk.injEq] at h
      obtain ⟨-, rfl⟩ := h
      simpa [hashFile] using hc
  · simp only [Option.some.injEq, Prod.mk.injEq] at h
    obtain ⟨-, rfl⟩ := h
    exact hc

/-- The result of `load_file_classify` does not depend on the calls made before,
except that it keeps them in the call log. -/
theorem load_file_classify_of_trace (cfg : Config) (o : Oracle) (s : State)
    (todl : SQueueItem) (cfn : String) (rc : ErrCode) (fd : Option IFile) (t1 t2 : List Ev) :
    (load_file_classify cfg o { s with trace := t1 } todl cfn rc fd).1
        = (load_file_classify cfg o { s with trace := t2 } todl cfn rc fd).1
      ∧ { (load_file_classify cfg o { s with trace := t1 } todl cfn rc fd).2 with trace := [] }
        = { (load_file_classify cfg o { s with trace := t2 } todl cfn rc fd).2 with trace := [] } := by
  unfold load_file_classify
  simp only
  split
  · split
    · exact ⟨rfl, rfl⟩
    · split <;> exact ⟨rfl, rfl⟩
  · split
    · simp only [logScriptOutput_snd]
      exact ⟨by rw [logScriptOutput_fst_state cfg o _ { s with trace := t2 }], trivial⟩
    · exact ⟨rfl, rfl⟩

theorem load_file_finish_of_trace (cfg : Config) (o : Oracle) (s : State)
    (todl : SQueueItem) (cfn : String) (rc : ErrCode) (fd : Option IFile) (t1 t2 : List Ev) :
    (load_file_finish cfg o { s with trace := t1 } todl cfn rc fd).map
        (fun r => (r.1, { r.2 with trace := [] }))
      = (load_file_finish cfg o { s with trace := t2 } todl cfn rc fd).map
        (fun r => (r.1, { r.2 with trace := [] })) := by
  obtain ⟨h1, h2⟩ := load_file_classify_of_trace cfg o s todl cfn rc fd t1 t2
  unfold load_file_finish
  simp only
  generalize load_file_classify cfg o { s with trace := t1 } todl cfn rc fd = c1 at h1 h2
  generalize load_file_classify cfg o { s with trace := t2 } todl cfn rc fd = c2 at h1 h2
  obtain ⟨l1, s1⟩ := c1
  obtain ⟨l2, s2⟩ := c2
  simp only at h1 h2
  subst h1
  have e : ∀ (f : IFile) a b c d (e : Int) g,
      { hashFile cfg s1 a b f c d e g with trace := [] }
        = { hashFile cfg s2 a b f c d e g with trace := [] } := by
    intro f a b c d e g
    have := congrArg (fun x : State => hashFile cfg x a b f c d e g) h2
    simp only [hashFile] at this ⊢
    simp only [State.mk.injEq] at this h2 ⊢
    simp [h2]
  split
  · rcases fd with _ | f
    · rfl
    · simp only [Option.map_some', e]
  · simp only [Option.map_some', h2]

/-- The part of `load_file` after the retry loop asks the oracle nothing about the
transport. -/
theorem load_file_finish_getFile (cfg : Config) (o : Oracle) (g : Nat → ErrCode × Nat)
    (s : State) (todl : SQueueItem) (cfn : String) (rc : ErrCode) (fd : Option IFile) :
    load_file_finish cfg { o with getFile := g } s todl cfn rc fd
      = load_file_finish cfg o s todl cfn rc fd := rfl

/-- The hash record `load_file_finish` dispatches after `ERR_SUCCESS` for an item
with a temp file. -/
theorem load_file_finish_success_hash {cfg : Config} {o : Oracle} {s s' : State}
    {todl : SQueueItem} {cfn : String} {f : IFile} {ret : Bool}
    (hm : todl.metadata_only = false)
    (h : load_file_finish cfg o s todl cfn ErrCode.ERR_SUCCESS (some f) = some (ret, s')) :
    ∃ data, s'.hashpipe = s.hashpipe ++ [data] ∧ data.t_filesize = (f.size : Int)
      ∧ data.temp_fn = f.name := by
  have hc := load_file_classify_success cfg o s todl cfn (some f)
  unfold load_file_finish at h
  simp only at h hc
  generalize load_file_classify cfg o s todl cfn ErrCode.ERR_SUCCESS (some f) = c at h hc
  obtain ⟨l, s2⟩ := c
  obtain ⟨-, h2, -, -, -, -, h7, -⟩ := hc
  simp only at h2 h7 h
  simp only [h2, hm, and_self, if_true, Option.some.injEq, Prod.mk.injEq] at h
  obtain ⟨-, rfl⟩ := h
  simp only [hashFile, h7]
  exact ⟨_, rfl, rfl, rfl⟩

/-! ## The claims -/

/-- C1. In every state reached from the initial state by a run whose enqueued
transfer ids are distinct ids of file-list entries (the value `npos` is the id that
the enqueue functions give to the control items, and no transfer carries it), no id
is in both `download_nok_ids` (failed) and `download_partial_ids` (partial).  And from any state, a step of the engine loop, a
full transfer and a patch transfer each add the id of the processed item to at
most one of the two sets and add no other id. -/
theorem failed_and_partial_ids_disjoint (cfg : Config) (ops : List Op) (s : State)
    (hrun : run cfg ops State.init = some s)
    (hdistinct : (transferIds (enqueueLog ops)).Nodup)
    (hsentinel : npos ∉ transferIds (enqueueLog ops)) :
    (∀ id, id ∈ s.download_nok_ids → id ∉ s.download_partial_ids)
      ∧ (∀ (o : Oracle) (s0 s1 : State), process cfg o s0 = some s1 →
          ∃ curr, s0.curr = some curr ∧ AddsToOneSet curr.id s0 s1)
      ∧ (∀ (o : Oracle) (s0 s1 : State) (todl : SQueueItem) (ret : Bool),
          load_file cfg o s0 todl = some (ret, s1) → AddsToOneSet todl.id s0 s1)
      ∧ (∀ (o : Oracle) (s0 s1 : State) (todl : SQueueItem) (ret : Bool),
          load_file_patch cfg o s0 todl = some (ret, s1) → AddsToOneSet todl.id s0 s1) := by
  refine ⟨?_, ?_, ?_, ?_⟩
  · have h := run_idsOk ops [] State.init s (by simp) idsOk_init (by simpa using hdistinct)
      hsentinel hrun
    intro id hn hp
    exact (h.part id hp).2.2 hn
  · intro o s0 s1 h
    obtain ⟨curr, hc, he⟩ := process_summary h
    refine ⟨curr, hc, ?_⟩
    rcases he.effect with ⟨-, -, hr, -⟩ | ⟨-, -, -, -, hn, hp, -⟩
    · exact addsToOneSet_of_registry hr
    · exact Or.inl ⟨hn, hp⟩
  · intro o s0 s1 todl ret h
    exact addsToOneSet_of_registry (registry_of_transfer (load_file_summary h).2)
  · intro o s0 s1 todl ret h
    rcases load_file_patch_summary h with ⟨-, hr⟩ | ⟨-, hq⟩
    · exact addsToOneSet_of_registry (registry_of_transfer hr)
    · simp only [Requeued] at hq
      exact Or.inl ⟨hq.2.2.2.2.2.2.2.2.2.1, hq.2.2.2.2.2.2.2.2.2.2.1⟩

theorem failed_and_partial_ids_disjoint_witness :
    run Demo.cfg Demo.opsC1 State.init = some Demo.stateC1
      ∧ (transferIds (enqueueLog Demo.opsC1)).Nodup
      ∧ npos ∉ transferIds (enqueueLog Demo.opsC1)
      ∧ Demo.stateC1.download_nok_ids = [2] ∧ Demo.stateC1.download_partial_ids = [1]
      ∧ ∀ id, id ∈ Demo.stateC1.download_nok_ids → id ∉ Demo.stateC1.download_partial_ids :=
  ⟨by rfl, by decide, by decide, by decide, by decide,
    (failed_and_partial_ids_disjoint Demo.cfg Demo.opsC1 Demo.stateC1 (by rfl) (by decide)
      (by decide)).1⟩

/-- C2 (amended). For an item that `load_file` has finished processing: if the item
is not metadata-only and its temp file was allocated, then an id that is in neither
`download_nok_ids` nor `download_partial_ids` means that the last result code of
the transport was `ERR_SUCCESS`; equivalently, when that code is not `ERR_SUCCESS`
the id is added to `download_partial_ids` or to `download_nok_ids`.  For a
metadata-only item whose last result code is not `ERR_SUCCESS` the id is added to
neither set. -/
theorem load_file_unrecorded_means_success (cfg : Config) (o : Oracle) (s s' : State)
    (todl : SQueueItem) (ret : Bool) (h : load_file cfg o s todl = some (ret, s')) :
    (todl.metadata_only = false → ∀ f, o.tmp_fd = some f →
        ∃ r, load_file_transfer o (getDLPath cfg o.random todl) (some f) = some r
          ∧ (todl.id ∉ s'.download_nok_ids → todl.id ∉ s'.download_partial_ids →
              r.rc = ErrCode.ERR_SUCCESS)
          ∧ (r.rc ≠ ErrCode.ERR_SUCCESS →
              (s'.download_partial_ids = s.download_partial_ids ++ [todl.id]
                ∧ s'.download_nok_ids = s.download_nok_ids)
              ∨ (s'.download_nok_ids = s.download_nok_ids ++ [todl.id]
                ∧ s'.download_partial_ids = s.download_partial_ids)))
      ∧ (todl.metadata_only = true →
        ∃ r, load_file_transfer o (getDLPath cfg o.random todl) none = some r
          ∧ (r.rc ≠ ErrCode.ERR_SUCCESS →
              s'.download_nok_ids = s.download_nok_ids
                ∧ s'.download_partial_ids = s.download_partial_ids)) := by
  constructor
  · intro hm f hf
    have hfd : load_file_fd o todl = some (some f) := by simp [load_file_fd, hm, hf]
    obtain ⟨r, htr, -⟩ := load_file_transfer_fd_isSome o (getDLPath cfg o.random todl) f
    have hcase : r.rc ≠ ErrCode.ERR_SUCCESS →
        (s'.download_partial_ids = s.download_partial_ids ++ [todl.id]
          ∧ s'.download_nok_ids = s.download_nok_ids)
        ∨ (s'.download_nok_ids = s.download_nok_ids ++ [todl.id]
          ∧ s'.download_partial_ids = s.download_partial_ids) := by
      intro hrc
      rw [load_file_eq_finish s hfd htr] at h
      obtain ⟨-, h1, h2⟩ := load_file_finish_failure hrc h
      by_cases hsv : SavesIncomplete cfg todl r.rc r.fd
      · exact Or.inl ⟨(h1 hsv).1, (h1 hsv).2.1⟩
      · exact Or.inr ⟨(h2 hsv).2.2.2.1 hm, (h2 hsv).1⟩
    refine ⟨r, htr, ?_, hcase⟩
    intro hn hp
    by_contra hrc
    rcases hcase hrc with ⟨h1, -⟩ | ⟨h1, -⟩
    · exact hp (by rw [h1]; simp)
    · exact hn (by rw [h1]; simp)
  · intro hm
    have hfd : load_file_fd o todl = some none := by simp [load_file_fd, hm]
    rcases htr : load_file_transfer o (getDLPath cfg o.random todl) none with _ | r
    · simp [load_file, hfd, htr] at h
    · refine ⟨r, rfl, ?_⟩
      intro hrc
      rw [load_file_eq_finish s hfd htr] at h
      obtain ⟨-, -, h2⟩ := load_file_finish_failure hrc h
      have hsv : ¬ SavesIncomplete cfg todl r.rc r.fd := by
        intro hsv
        rw [hsv.2.2.2] at hm
        exact absurd hm (by simp)
      exact ⟨(h2 hsv).2.2.2.2 hm, (h2 hsv).1⟩

/-- C2, counterexample.  A metadata-only item whose transfer ends with
`ERR_CONN_LOST`, and an item whose temp file cannot be created: `load_file` returns
and the id is in neither id set, though the transfer was no success. -/
theorem load_file_unrecorded_without_success :
    ((load_file_transfer Demo.oracleConnLost (getDLPath Demo.cfg 0 Demo.meta1) none).map
        GetFileResult.rc = some ErrCode.ERR_CONN_LOST
      ∧ (load_file Demo.cfg Demo.oracleConnLost State.init Demo.meta1).map
          (fun r => (r.2.download_nok_ids, r.2.download_partial_ids)) = some ([], []))
    ∧ (load_file_fd Demo.oracleNoTmp Demo.full1 = none
      ∧ (load_file Demo.cfg Demo.oracleNoTmp State.init Demo.full1).map
          (fun r => (r.2.download_nok_ids, r.2.download_partial_ids)) = some ([], [])) := by
  refine ⟨⟨by decide, by decide⟩, by decide, by decide⟩

theorem load_file_unrecorded_means_success_witness :
    load_file Demo.cfg Demo.oracle State.init Demo.full1 = some (true, Demo.stateC2)
      ∧ Demo.full1.id ∉ Demo.stateC2.download_nok_ids
      ∧ Demo.full1.id ∉ Demo.stateC2.download_partial_ids
      ∧ ∃ r, load_file_transfer Demo.oracle (getDLPath Demo.cfg Demo.oracle.random Demo.full1)
            (some { name := "tmp_fd", size := 0 }) = some r
          ∧ r.rc = ErrCode.ERR_SUCCESS := by
  refine ⟨by rfl, by decide, by decide, ?_⟩
  obtain ⟨r, h1, h2, -⟩ :=
    (load_file_unrecorded_means_success Demo.cfg Demo.oracle State.init Demo.stateC2
      Demo.full1 true (by rfl)).1 (by rfl) { name := "tmp_fd", size := 0 } (by rfl)
  exact ⟨r, h1, h2 (by decide) (by decide)⟩

/-- C3. In every reachable state `max_ok_id` is at least every id in
`download_partial_ids`; the id of an item whose full or patch transfer ended with
`ERR_SUCCESS` is at most `max_ok_id` after that step and in every state reached
later; `max_ok_id` starts at 0 and every operation leaves it alone or sets it to
the maximum of its value and the id of the item being processed. -/
theorem max_ok_id_covers_partial_and_success (cfg : Config) (s : State)
    (h : Reachable cfg s) :
    State.init.max_ok_id = 0
      ∧ (∀ id ∈ s.download_partial_ids, id ≤ s.max_ok_id)
      ∧ (∀ (op : Op) (s' : State), apply cfg op s = some s' →
          s'.max_ok_id = s.max_ok_id
            ∨ ∃ curr, s.curr = some curr ∧ s'.max_ok_id = max s.max_ok_id curr.id)
      ∧ (∀ (o : Oracle) (curr : SQueueItem) (s1 s2 : State) (ops : List Op),
          s.curr = some curr → transfer_rc cfg o s = some ErrCode.ERR_SUCCESS →
          process cfg o s = some s1 → run cfg ops s1 = some s2 → curr.id ≤ s2.max_ok_id) := by
  refine ⟨rfl, ?_, ?_, ?_⟩
  · obtain ⟨ops, hr⟩ := h
    exact run_invariant (apply_partialBound cfg) ops State.init s
      (by simp [PartialBound, State.init]) hr
  · intro op s' h1
    exact apply_max_ok_id h1
  · intro o curr s1 s2 ops hcurr hrc hp hr
    obtain ⟨c, s1', hc, hp', hm, -⟩ := process_of_success hrc
    rw [hcurr] at hc
    simp only [Option.some.injEq] at hc
    subst hc
    rw [hp] at hp'
    simp only [Option.some.injEq] at hp'
    subst hp'
    have := run_max_ok_id_le ops s1 s2 hr
    rw [hm] at this
    exact Nat.le_trans (Nat.le_max_right _ _) this

theorem max_ok_id_covers_partial_and_success_witness :
    Reachable Demo.cfg Demo.stateC1
      ∧ Demo.stateC1.download_partial_ids = [1] ∧ Demo.stateC1.max_ok_id = 1
      ∧ ∀ id ∈ Demo.stateC1.download_partial_ids, id ≤ Demo.stateC1.max_ok_id :=
  ⟨⟨Demo.opsC1, by rfl⟩, by decide, by decide,
    (max_ok_id_covers_partial_and_success Demo.cfg Demo.stateC1 ⟨Demo.opsC1, by rfl⟩).2.1⟩

/-- C4 (amended). In every reachable state, if `download_nok_ids` contains an id then
`all_downloads_ok` is false, and if `download_partial_ids` contains an id then
`all_downloads_ok` is false or the engine is offline or skipping: a file that fails,
or that a full or patch transfer keeps as partial, latches `all_downloads_ok` to
false.  A step of the engine loop that records an item as partial while the engine
is offline or skipping (the item is a chunked one, salvaged by link-or-copy) leaves
`all_downloads_ok` as it is. -/
theorem failure_latches_all_downloads_ok (cfg : Config) (s : State) (h : Reachable cfg s) :
    (s.download_nok_ids ≠ [] → s.all_downloads_ok = false)
      ∧ (s.download_partial_ids ≠ [] →
          s.all_downloads_ok = false ∨ s.is_offline = true ∨ s.skipping = true)
      ∧ (∀ (o : Oracle) (s1 : State) (todl : SQueueItem) (ret : Bool),
          (load_file cfg o s todl = some (ret, s1)
            ∨ load_file_patch cfg o s todl = some (ret, s1)) →
          s1.download_partial_ids ≠ s.download_partial_ids → s1.all_downloads_ok = false)
      ∧ (∀ (o : Oracle) (s1 : State), s.is_offline = true ∨ s.skipping = true →
          process cfg o s = some s1 →
          s1.download_partial_ids ≠ s.download_partial_ids →
          s1.all_downloads_ok = s.all_downloads_ok
            ∧ ∃ curr, s.curr = some curr
                ∧ curr.fileclient = EFileClient.EFileClient_Chunked
                ∧ s1.download_partial_ids = s.download_partial_ids ++ [curr.id]
                ∧ s1.download_nok_ids = s.download_nok_ids) := by
  obtain ⟨ops, hr⟩ := h
  have hl := run_invariant (apply_failureLatch cfg) ops State.init s
    (by simp [FailureLatch, State.init]) hr
  refine ⟨hl.1, hl.2, ?_, fun o s1 hoff hp hne => process_salvaged hoff hp hne⟩
  intro o s1 todl ret h1 hne
  have key : ∀ {s1 : State}, TransferRegistry todl.id s s1 →
      s1.download_partial_ids ≠ s.download_partial_ids → s1.all_downloads_ok = false := by
    intro s1 hreg hne
    rcases hreg with ⟨-, h2, -⟩ | ⟨-, h2, -⟩ | ⟨-, -, -, h4⟩
    · exact absurd h2 hne
    · exact absurd h2 hne
    · exact h4
  rcases h1 with h1 | h1
  · exact key (load_file_summary h1).2 hne
  · rcases load_file_patch_summary h1 with ⟨-, hreg⟩ | ⟨-, hq⟩
    · exact key hreg hne
    · simp only [Requeued] at hq
      exact absurd hq.2.2.2.2.2.2.2.2.2.2.1 hne

/-- C4, counterexample.  After a skip, a chunked item is salvaged by link-or-copy:
`download_partial_ids` holds its id and `all_downloads_ok` is still true. -/
theorem partial_id_without_latch :
    (run Demo.cfg Demo.opsC4bad State.init).map
        (fun s => (s.download_partial_ids, s.all_downloads_ok, s.skipping))
      = some ([1], true, true) := by
  decide

theorem failure_latches_all_downloads_ok_witness :
    Reachable Demo.cfg Demo.stateC1 ∧ Demo.stateC1.download_nok_ids ≠ []
      ∧ Demo.stateC1.all_downloads_ok = false :=
  ⟨⟨Demo.opsC1, by rfl⟩, by decide,
    (failure_latches_all_downloads_ok Demo.cfg Demo.stateC1 ⟨Demo.opsC1, by rfl⟩).1
      (by decide)⟩

/-- C5 (amended). With `max_queue_size` = 500 and `queue_items_chunked` = 4: in every
state reached by a run without head insertion in which `N` producers enqueue, each
starting its next enqueue only after `sleepQueue` has returned from its previous
one, `queue_size` never exceeds `max_queue_size + N * queue_items_chunked`; for a
single producer that is 504. -/
theorem queue_size_bounded (cfg : Config) (N : Nat) (ops : List Op) (s : State)
    (hrun : run cfg ops State.init = some s)
    (htail : NoHeadInsertion cfg ops State.init)
    (hprod : ∀ op ∈ ops, ∀ p ∈ op.producer, p < N) :
    s.queue_size ≤ max_queue_size + N * queue_items_chunked
      ∧ (N = 1 → s.queue_size ≤ 504) := by
  have hinit : SleepOk N State.init := by
    refine ⟨rfl, ?_, ?_, ?_⟩ <;> simp [State.init, max_queue_size]
  have h := run_invariant_headFree
    (fun op s s' (hq : ∀ p ∈ op.producer, p < N) hs ha hf =>
      apply_sleepOk cfg N op s s' (fun p hp => hq p hp) hs ha hf)
    ops State.init s hprod hinit htail hrun
  obtain ⟨-, hnd, hlt, hle⟩ := h
  have hlen := length_le_of_nodup_lt hnd hlt
  have hb : s.queue_size ≤ max_queue_size + N * queue_items_chunked := by
    have := Nat.mul_le_mul_left queue_items_chunked hlen
    rw [Nat.mul_comm N]
    omega
  refine ⟨hb, ?_⟩
  intro hN
  subst hN
  simpa [max_queue_size, queue_items_chunked] using hb

set_option maxRecDepth 100000 in
/-- C5, counterexample.  A single producer makes tail enqueues only, each after
`sleepQueue` has returned from the one before, and `queue_size` reaches 504, which
is more than 503. -/
theorem queue_size_exceeds_503 :
    NoHeadInsertion Demo.cfg Demo.opsC5 State.init
      ∧ (∀ op ∈ Demo.opsC5, ∀ p ∈ op.producer, p = 0)
      ∧ (run Demo.cfg Demo.opsC5 State.init).map State.queue_size = some 504
      ∧ ¬ (504 ≤ max_queue_size + queue_items_chunked - 1) := by
  refine ⟨by decide, by decide, by decide, by decide⟩

set_option maxRecDepth 100000 in
theorem queue_size_bounded_witness :
    run Demo.cfg Demo.opsC5 State.init = some Demo.stateC5
      ∧ NoHeadInsertion Demo.cfg Demo.opsC5 State.init
      ∧ (∀ op ∈ Demo.opsC5, ∀ p ∈ op.producer, p < 1)
      ∧ Demo.stateC5.queue_size ≤ 504 :=
  ⟨by rfl, by decide, by decide,
    (queue_size_bounded Demo.cfg 1 Demo.opsC5 Demo.stateC5 (by rfl) (by decide)
      (by decide)).2 rfl⟩

/-- C6. In every reachable state `queue_size` equals 1 times the number of queued
full transfers plus 4 times the number of queued chunked transfers; every operation
(the enqueue functions at either end, the snapshot, skip and quit enqueues, the
dequeue of the engine, its re-enqueue of a chunked item as full, and the look-ahead
callbacks, among them the one that turns a chunked item into a full one and
subtracts 3) leads to a state where this holds again.  So `queue_size` is 0 only if
no transfer is queued. -/
theorem queue_size_counts_transfers (cfg : Config) (s : State) (h : Reachable cfg s) :
    s.queue_size
        = 1 * s.dl_queue.countP isFullTransfer + 4 * s.dl_queue.countP isChunkedTransfer
      ∧ (s.queue_size = 0 →
          ∀ it ∈ s.dl_queue, it.action ≠ EQueueAction.EQueueAction_Fileclient)
      ∧ (∀ (op : Op) (s' : State), apply cfg op s = some s' →
          s'.queue_size
            = 1 * s'.dl_queue.countP isFullTransfer
              + 4 * s'.dl_queue.countP isChunkedTransfer) := by
  have hw := reachable_weightOk h
  refine ⟨?_, ?_, ?_⟩
  · rw [← queueWeight_eq_count]
    exact hw
  · intro h0
    exact queueWeight_eq_zero (by rw [← hw]; exact h0)
  · intro op s' ha
    rw [← queueWeight_eq_count]
    exact apply_weightOk cfg op s s' hw ha

theorem queue_size_counts_transfers_witness :
    Reachable Demo.cfg Demo.stateC6 ∧ Demo.stateC6.queue_size = 5
      ∧ Demo.stateC6.queue_size
          = 1 * Demo.stateC6.dl_queue.countP isFullTransfer
            + 4 * Demo.stateC6.dl_queue.countP isChunkedTransfer :=
  ⟨⟨Demo.opsC6, by rfl⟩, by decide,
    (queue_size_counts_transfers Demo.cfg Demo.stateC6 ⟨Demo.opsC6, by rfl⟩).1⟩

/-- C7. For every run without head insertion (the producers use the tail enqueues,
the engine does not put an item back at the head), with look-ahead, unqueue and
reset callbacks in between at will, the items the engine has taken off the queue,
followed by the items still queued, are the enqueued items in the order of their
enqueue, entry by entry (compared without the fields that look-ahead writes).  And
a look-ahead, unqueue or reset callback adds, removes and reorders nothing. -/
theorem dequeue_in_enqueue_order (cfg : Config) (ops : List Op) (s : State)
    (hrun : run cfg ops State.init = some s)
    (htail : NoHeadInsertion cfg ops State.init) :
    (enqueueLog ops).map SQueueItem.ident
        = (dequeueLog cfg ops State.init).map SQueueItem.ident
          ++ s.dl_queue.map SQueueItem.ident
      ∧ (∀ (op : Op) (s0 s1 : State), op.isLookahead = true → apply cfg op s0 = some s1 →
          s1.dl_queue.map SQueueItem.ident = s0.dl_queue.map SQueueItem.ident) := by
  constructor
  · have := dequeue_order_from ops State.init s htail hrun
    simpa [State.init] using this
  · intro op s0 s1 hl ha
    obtain ⟨h1, h2, h3⟩ := enqueued_of_isLookahead hl
    cases apply_kind ha with
    | enqueue ni hop hshape hq hreg => rw [h1] at hop; contradiction
    | dequeue c hop hcurr hq hc hreg => exact absurd hop h2
    | lookahead hop hnd hq hreg => exact map_ident_of_lookahead hq
    | process o curr hop hcurr he => exact absurd hop (h3 o)

theorem dequeue_in_enqueue_order_witness :
    run Demo.cfg Demo.opsC7 State.init = some Demo.stateC7
      ∧ NoHeadInsertion Demo.cfg Demo.opsC7 State.init
      ∧ (dequeueLog Demo.cfg Demo.opsC7 State.init).map SQueueItem.id = [1, 2]
      ∧ (enqueueLog Demo.opsC7).map SQueueItem.ident
          = (dequeueLog Demo.cfg Demo.opsC7 State.init).map SQueueItem.ident
            ++ Demo.stateC7.dl_queue.map SQueueItem.ident :=
  ⟨by rfl, by decide, by decide,
    (dequeue_in_enqueue_order Demo.cfg Demo.opsC7 Demo.stateC7 (by rfl) (by decide)).1⟩

/-- C8 (amended). For every full transfer whose last result code `rc` is not
`ERR_SUCCESS`: the id is added to `download_partial_ids`, `max_ok_id` is advanced and
one hash record is dispatched, with the size of the temp file as file size, exactly
when `rc` is `ERR_TIMEOUT` or `ERR_ERROR`, `save_incomplete_file` is set, the temp
file is not empty and the item is not metadata-only.  In every other case no hash
record is dispatched and the id is added to `download_nok_ids`, unless the item is
metadata-only: then it is added to neither set. -/
theorem load_file_failure_classification (cfg : Config) (o : Oracle) (s : State)
    (todl : SQueueItem) (fd : Option IFile) (r : GetFileResult)
    (hfd : load_file_fd o todl = some fd)
    (htr : load_file_transfer o (getDLPath cfg o.random todl) fd = some r)
    (hrc : r.rc ≠ ErrCode.ERR_SUCCESS) :
    ∃ ret s', load_file cfg o s todl = some (ret, s')
      ∧ (SavesIncomplete cfg todl r.rc r.fd →
          s'.download_partial_ids = s.download_partial_ids ++ [todl.id]
          ∧ s'.download_nok_ids = s.download_nok_ids
          ∧ s'.max_ok_id = max s.max_ok_id todl.id
          ∧ ∃ f data, r.fd = some f ∧ s'.hashpipe = s.hashpipe ++ [data]
              ∧ data.t_filesize = (f.size : Int) ∧ data.temp_fn = f.name)
      ∧ (¬ SavesIncomplete cfg todl r.rc r.fd →
          s'.download_partial_ids = s.download_partial_ids
          ∧ s'.max_ok_id = s.max_ok_id ∧ s'.hashpipe = s.hashpipe
          ∧ (todl.metadata_only = false →
              s'.download_nok_ids = s.download_nok_ids ++ [todl.id])
          ∧ (todl.metadata_only = true → s'.download_nok_ids = s.download_nok_ids)) := by
  obtain ⟨ret, s', h⟩ := load_file_returns s hfd htr
  refine ⟨ret, s', h, ?_⟩
  rw [load_file_eq_finish s hfd htr] at h
  obtain ⟨-, h1, h2⟩ := load_file_finish_failure hrc h
  exact ⟨h1, h2⟩

/-- C8, counterexample.  A metadata-only item whose transfer ends with `ERR_TIMEOUT`
is not kept as partial, and its id is not added to `download_nok_ids`. -/
theorem load_file_metadata_only_not_failed :
    load_file_fd Demo.oracleTimeout Demo.meta1 = some none
      ∧ (load_file_transfer Demo.oracleTimeout (getDLPath Demo.cfg 0 Demo.meta1) none).map
          GetFileResult.rc = some ErrCode.ERR_TIMEOUT
      ∧ (load_file Demo.cfg Demo.oracleTimeout State.init Demo.meta1).map
          (fun r => (r.2.download_nok_ids, r.2.download_partial_ids, r.2.hashpipe.length))
        = some ([], [], 0) := by
  refine ⟨by decide, by decide, by decide⟩

theorem load_file_failure_classification_witness :
    load_file_fd Demo.oracleTimeout Demo.full1 = some (some { name := "tmp_fd", size := 0 })
      ∧ load_file_transfer Demo.oracleTimeout
          (getDLPath Demo.cfg Demo.oracleTimeout.random Demo.full1)
          (some { name := "tmp_fd", size := 0 })
        = some { rc := ErrCode.ERR_TIMEOUT, fd := some { name := "tmp_fd", size := 50 },
                 calls := [Ev.GetFile "a" (some { name := "tmp_fd", size := 0 })] }
      ∧ ErrCode.ERR_TIMEOUT ≠ ErrCode.ERR_SUCCESS
      ∧ ∃ ret s', load_file Demo.cfg Demo.oracleTimeout State.init Demo.full1 = some (ret, s')
          ∧ s'.download_partial_ids = [1]
          ∧ ∃ data, s'.hashpipe = [data] ∧ data.t_filesize = 50 := by
  refine ⟨by rfl, by rfl, by decide, ?_⟩
  obtain ⟨ret, s', h, h1, -⟩ :=
    load_file_failure_classification Demo.cfg Demo.oracleTimeout State.init Demo.full1
      (some { name := "tmp_fd", size := 0 })
      { rc := ErrCode.ERR_TIMEOUT, fd := some { name := "tmp_fd", size := 50 },
        calls := [Ev.GetFile "a" (some { name := "tmp_fd", size := 0 })] }
      (by rfl) (by rfl) (by decide)
  obtain ⟨h2, -, -, f, data, h3, h4, h5, -⟩ :=
    h1 ⟨Or.inl rfl, rfl, ⟨_, rfl, by decide⟩, rfl⟩
  simp only [Option.some.injEq] at h3
  subst h3
  exact ⟨ret, s', h, h2, data, h4, h5⟩

/-- C9 (amended). For every patch transfer on a prepared item whose retry loop runs
to its end (every hash retry got its two temp files) with a last result code `rc`
that is not `ERR_SUCCESS`.  Unless `rc` is `ERR_BASE_DIR_LOST` and
`save_incomplete_file` is set, patch transfer returns, and the id is added to
`download_partial_ids`, with one hash record for the patch file, when `rc` is
`ERR_TIMEOUT`, `ERR_CONN_LOST` or `ERR_SOCKET_ERROR`, the patch file is not empty and
`save_incomplete_file` is set, and to `download_nok_ids`, without hash record, in
every other case.  When `rc` is `ERR_BASE_DIR_LOST` and `save_incomplete_file` is
set, link-or-copy salvage runs.  If the hard links succeed, or `Seek`, `Write` and
`copy_file` succeed, the salvage and the patch transfer return, the id is added to
`download_partial_ids` if the salvage returns true and to `download_nok_ids` if it
returns false, and patch transfer dispatches no hash record of its own.  If not, the
salvage uses the hash-output handle it has deleted and patch transfer has no
result. -/
theorem load_file_patch_failure_classification (cfg : Config) (o : Oracle) (s s1 : State)
    (todl t : SQueueItem) (fdl : Bool) (rc : ErrCode) (pfd hash_tmp : IFile)
    (download_filesize : Int) (tmpfiles : List String) (calls : List Ev)
    (hprep : load_file_patch_prepare cfg o s todl = (t, fdl, s1))
    (herr : t.patch_dl_files.prepare_error = false)
    (hloop : load_file_patch_loop cfg o s1 t (load_file_patch_cfn cfg o todl)
      = some (PatchLoop.done rc pfd hash_tmp download_filesize tmpfiles calls))
    (hrc : rc ≠ ErrCode.ERR_SUCCESS) :
    (¬ (rc = ErrCode.ERR_BASE_DIR_LOST ∧ cfg.save_incomplete_file = true) →
        ∃ ret s', load_file_patch cfg o s todl = some (ret, s')
          ∧ (SavesIncompletePatch cfg rc pfd →
              s'.download_partial_ids = s.download_partial_ids ++ [todl.id]
              ∧ s'.download_nok_ids = s.download_nok_ids
              ∧ ∃ data, s'.hashpipe = s.hashpipe ++ [data] ∧ data.temp_fn = pfd.name)
          ∧ (¬ SavesIncompletePatch cfg rc pfd →
              s'.download_nok_ids = s.download_nok_ids ++ [todl.id]
              ∧ s'.download_partial_ids = s.download_partial_ids
              ∧ s'.hashpipe = s.hashpipe))
      ∧ (rc = ErrCode.ERR_BASE_DIR_LOST ∧ cfg.save_incomplete_file = true →
          SalvageDefined o →
          ∃ ret s' sx b s3, load_file_patch cfg o s todl = some (ret, s')
            ∧ link_or_copy_file cfg o sx (load_file_patch_item o t pfd hash_tmp) = some (b, s3)
            ∧ sx.hashpipe = s.hashpipe ∧ s'.hashpipe = s3.hashpipe
            ∧ (b = true → s'.download_partial_ids = s.download_partial_ids ++ [todl.id]
                ∧ s'.download_nok_ids = s.download_nok_ids)
            ∧ (b = false → s'.download_nok_ids = s.download_nok_ids ++ [todl.id]
                ∧ s'.download_partial_ids = s.download_partial_ids))
      ∧ (rc = ErrCode.ERR_BASE_DIR_LOST ∧ cfg.save_incomplete_file = true →
          ¬ SalvageDefined o → load_file_patch cfg o s todl = none) := by
  obtain ⟨h1, h2, h3, h4⟩ := load_file_patch_loop_handles hloop
  have hid : (load_file_patch_item o t pfd hash_tmp).id = todl.id := by
    have := load_file_patch_prepare_id cfg o s todl
    rw [hprep] at this
    simpa [load_file_patch_item] using this
  obtain ⟨tt, hfr⟩ := load_file_patch_prepare_frame cfg o s todl
  rw [hprep] at hfr
  simp only at hfr
  have heq := load_file_patch_eq_finish hprep herr hloop
  have hsome : (rc = ErrCode.ERR_BASE_DIR_LOST ∧ cfg.save_incomplete_file = true →
      SalvageDefined o) → (load_file_patch cfg o s todl).isSome := by
    intro hdef
    rw [heq]
    unfold load_file_patch_finish
    simp only [ne_eq, hrc, not_false_eq_true, if_true]
    split
    · rename_i hb
      have hl := link_or_copy_file_isSome cfg o
        { ({ s1 with tmpfiles := tmpfiles, trace := s1.trace ++ calls } : State) with
          all_downloads_ok := false }
        (load_file_patch_item o t pfd hash_tmp) (by simpa [load_file_patch_item] using h1)
        (by simp [load_file_patch_item]) (by simpa [load_file_patch_item] using h3)
        (by simp [load_file_patch_item]) (hdef hb)
      obtain ⟨b, s3, hl⟩ := exists_of_isSome hl
      simp only at hl
      rw [hl]
      cases b <;> rfl
    · split <;> rfl
  refine ⟨?_, ?_, ?_⟩
  · intro hb
    obtain ⟨ret, s', h⟩ := exists_of_isSome (hsome (fun h => absurd h hb))
    refine ⟨ret, s', h, ?_⟩
    rw [heq] at h
    obtain ⟨-, -, c2⟩ := load_file_patch_finish_failure hrc h
    rw [hid] at c2
    subst hfr
    obtain ⟨d1, d2⟩ := c2 hb
    constructor
    · intro hsv
      obtain ⟨e1, e2, -, data, e4, e5, -⟩ := d1 hsv
      exact ⟨e1, e2, data, e4, e5⟩
    · intro hsv
      obtain ⟨e1, e2, -, e4⟩ := d2 hsv
      exact ⟨e1, e2, e4⟩
  · intro hb hdef
    obtain ⟨ret, s', h⟩ := exists_of_isSome (hsome (fun _ => hdef))
    have h0 := h
    rw [heq] at h
    obtain ⟨-, c1, -⟩ := load_file_patch_finish_failure hrc h
    rw [hid] at c1
    subst hfr
    obtain ⟨b, s3, hl, e1, e2, e3⟩ := c1 hb
    exact ⟨ret, s', _, b, s3, h0, hl, rfl, e1, fun hb => ⟨(e2 hb).1, (e2 hb).2.1⟩,
      fun hb => ⟨(e3 hb).1, (e3 hb).2.1⟩⟩
  · intro hb hdef
    rw [heq]
    unfold load_file_patch_finish
    obtain ⟨hb1, hb2⟩ := hb
    subst hb1
    simp only [ne_eq, reduceCtorEq, not_false_eq_true, if_true, hb2, and_self,
      link_or_copy_file_eq_none cfg o _ _ hdef]

/-- C9, counterexample.  The item is prepared, the transport reports a hash mismatch
and the retry gets no temp file: `load_file_patch` returns false and the id is in
neither id set. -/
theorem load_file_patch_unrecorded_failure :
    (load_file_patch_prepare Demo.cfg Demo.oraclePatchHash State.init
        Demo.chunked2).1.patch_dl_files.prepared = true
      ∧ (Demo.oraclePatchHash.getFilePatch 0).1 = ErrCode.ERR_HASH
      ∧ (load_file_patch Demo.cfg Demo.oraclePatchHash State.init Demo.chunked2).map
          (fun r => (r.1, r.2.download_nok_ids, r.2.download_partial_ids))
        = some (false, [], []) := by
  refine ⟨by decide, by decide, by decide⟩

theorem load_file_patch_failure_classification_witness :
    (load_file_patch_loop Demo.cfg Demo.oraclePatchTimeout
        (load_file_patch_prepare Demo.cfg Demo.oraclePatchTimeout State.init Demo.chunked2).2.2
        (load_file_patch_prepare Demo.cfg Demo.oraclePatchTimeout State.init Demo.chunked2).1
        (load_file_patch_cfn Demo.cfg Demo.oraclePatchTimeout Demo.chunked2)
      = some (PatchLoop.done ErrCode.ERR_TIMEOUT { name := "tmp_pfd", size := 30 }
          { name := "tmp_hash", size := 0 } 100 ["tmp_hash", "tmp_pfd"]
          [Ev.GetFilePatch "b" { name := "tmp_pfd", size := 0 }
            { name := "tmp_hash", size := 0 }])
      ∧ ∃ ret s',
          load_file_patch Demo.cfg Demo.oraclePatchTimeout State.init Demo.chunked2
            = some (ret, s')
          ∧ s'.download_partial_ids = [2] ∧ s'.download_nok_ids = [])
    ∧ (load_file_patch_loop Demo.cfg Demo.oraclePatchBaseDirLost
        (load_file_patch_prepare Demo.cfg Demo.oraclePatchBaseDirLost State.init
          Demo.chunked2).2.2
        (load_file_patch_prepare Demo.cfg Demo.oraclePatchBaseDirLost State.init
          Demo.chunked2).1
        (load_file_patch_cfn Demo.cfg Demo.oraclePatchBaseDirLost Demo.chunked2)
      = some (PatchLoop.done ErrCode.ERR_BASE_DIR_LOST { name := "tmp_pfd", size := 0 }
          { name := "tmp_hash", size := 0 } 100 ["tmp_hash", "tmp_pfd"]
          [Ev.GetFilePatch "b" { name := "tmp_pfd", size := 0 }
            { name := "tmp_hash", size := 0 }])
      ∧ SalvageDefined Demo.oraclePatchBaseDirLost
      ∧ ∃ ret s',
          load_file_patch Demo.cfg Demo.oraclePatchBaseDirLost State.init Demo.chunked2
            = some (ret, s')
          ∧ (s'.download_partial_ids = [2] ∧ s'.download_nok_ids = []
            ∨ s'.download_nok_ids = [2] ∧ s'.download_partial_ids = [])) := by
  refine ⟨⟨by rfl, ?_⟩, by rfl, Or.inl rfl, ?_⟩
  · obtain ⟨ret, s', h, h2, -⟩ :=
      (load_file_patch_failure_classification Demo.cfg Demo.oraclePatchTimeout State.init
        (load_file_patch_prepare Demo.cfg Demo.oraclePatchTimeout State.init Demo.chunked2).2.2
        Demo.chunked2
        (load_file_patch_prepare Demo.cfg Demo.oraclePatchTimeout State.init Demo.chunked2).1
        (load_file_patch_prepare Demo.cfg Demo.oraclePatchTimeout State.init Demo.chunked2).2.1
        ErrCode.ERR_TIMEOUT { name := "tmp_pfd", size := 30 } { name := "tmp_hash", size := 0 }
        100 ["tmp_hash", "tmp_pfd"]
        [Ev.GetFilePatch "b" { name := "tmp_pfd", size := 0 } { name := "tmp_hash", size := 0 }]
        (by rfl) (by rfl) (by rfl) (by decide)).1 (by decide)
    obtain ⟨h3, h4, -⟩ := h2 ⟨Or.inl rfl, by decide, rfl⟩
    exact ⟨ret, s', h, h3, h4⟩
  · obtain ⟨ret, s', sx, b, s3, h, -, -, -, hb1, hb2⟩ :=
      (load_file_patch_failure_classification Demo.cfg Demo.oraclePatchBaseDirLost State.init
        (load_file_patch_prepare Demo.cfg Demo.oraclePatchBaseDirLost State.init
          Demo.chunked2).2.2
        Demo.chunked2
        (load_file_patch_prepare Demo.cfg Demo.oraclePatchBaseDirLost State.init
          Demo.chunked2).1
        (load_file_patch_prepare Demo.cfg Demo.oraclePatchBaseDirLost State.init
          Demo.chunked2).2.1
        ErrCode.ERR_BASE_DIR_LOST { name := "tmp_pfd", size := 0 }
        { name := "tmp_hash", size := 0 } 100 ["tmp_hash", "tmp_pfd"]
        [Ev.GetFilePatch "b" { name := "tmp_pfd", size := 0 } { name := "tmp_hash", size := 0 }]
        (by rfl) (by rfl) (by rfl) (by decide)).2.1 ⟨rfl, rfl⟩ (Or.inl rfl)
    refine ⟨ret, s', h, ?_⟩
    cases b
    · exact Or.inr (hb2 rfl)
    · exact Or.inl (hb1 rfl)

/-- C10 (amended). For every script transfer item, full or chunked, whose transport
result is `ERR_SUCCESS` but whose script output reports a failure (reply `err`,
empty reply, or a return code that is not zero), processing the item in the engine
loop latches offline: `is_offline` was false before the step and is true after
it. -/
theorem script_failure_latches_offline (cfg : Config) (o : Oracle) (s : State)
    (curr : SQueueItem) (hcurr : s.curr = some curr) (hscript : curr.is_script = true)
    (hrc : transfer_rc cfg o s = some ErrCode.ERR_SUCCESS) (hfail : ScriptFails cfg o) :
    s.is_offline = false ∧ ∃ s', process cfg o s = some s' ∧ s'.is_offline = true := by
  constructor
  · unfold transfer_rc at hrc
    simp only [hcurr] at hrc
    split at hrc
    · contradiction
    · rename_i hc
      simp only [not_or, Bool.not_eq_true] at hc
      exact hc.2.1
  · obtain ⟨c, s', hc, hp, -, -, -, hoff⟩ := process_of_success hrc
    rw [hcurr] at hc
    simp only [Option.some.injEq] at hc
    subst hc
    exact ⟨s', hp, hoff hscript hfail⟩

/-- C10, counterexample.  A full script item whose transfer ends with `ERR_SUCCESS`
and whose script replies `err`: `is_offline` is false before the step and true
after it. -/
theorem script_failure_changes_is_offline :
    run Demo.cfg Demo.opsC10 State.init = some Demo.stateC10
      ∧ transfer_rc Demo.cfg Demo.oracleScriptErr Demo.stateC10 = some ErrCode.ERR_SUCCESS
      ∧ Demo.stateC10.is_offline = false
      ∧ (process Demo.cfg Demo.oracleScriptErr Demo.stateC10).map State.is_offline
        = some true := by
  refine ⟨by rfl, by decide, by decide, by decide⟩

theorem script_failure_latches_offline_witness :
    Demo.stateC10.curr = some (addToQueueFull.ni 1 "a" "a" "" "" 100 "" true false)
      ∧ transfer_rc Demo.cfg Demo.oracleScriptErr Demo.stateC10 = some ErrCode.ERR_SUCCESS
      ∧ ScriptFails Demo.cfg Demo.oracleScriptErr
      ∧ ∃ s', process Demo.cfg Demo.oracleScriptErr Demo.stateC10 = some s'
          ∧ s'.is_offline = true :=
  ⟨by rfl, by decide, Or.inl rfl,
    (script_failure_latches_offline Demo.cfg Demo.oracleScriptErr Demo.stateC10
      (addToQueueFull.ni 1 "a" "a" "" "" 100 "" true false) (by rfl) rfl (by decide)
      (Or.inl rfl)).2⟩

/-- C11, at a failing input.  The look-ahead preparation of a chunked item fails, so
the queued item is marked `prepare_error` and is not prepared; after a skip request
the engine takes the item and prepares it again: the step depends on the answer of
the temp-file factory, which only `preparePatchDownloadFiles` asks.  With a temp
file the item is salvaged and recorded as partial, without one it is recorded as
failed. -/
theorem prepare_error_item_prepared_again :
    run Demo.cfg Demo.opsC11 State.init = some Demo.stateC11
      ∧ Demo.stateC11.curr.map
          (fun c => (c.id, c.fileclient, c.patch_dl_files.prepared,
            c.patch_dl_files.prepare_error))
        = some (1, EFileClient.EFileClient_Chunked, false, true)
      ∧ Demo.stateC11.skipping = true
      ∧ (process Demo.cfg Demo.oracle Demo.stateC11).map
          (fun s => (s.download_partial_ids, s.download_nok_ids)) = some ([1], [])
      ∧ (process Demo.cfg Demo.oracleNoPfd Demo.stateC11).map
          (fun s => (s.download_partial_ids, s.download_nok_ids)) = some ([], [1]) := by
  refine ⟨by rfl, by decide, by decide, by decide, by decide⟩

/-- C13, at a failing input.  The prior file exists, the two temp files `tmp_pfd` and
`tmp_hash` are created, the old chunk hashes are missing and the temp file for new
ones cannot be created: `preparePatchDownloadFiles` returns with `prepare_error`
set and a record that refers to no file, and `tmp_hash` is still on disk. -/
theorem preparePatchDownloadFiles_leaves_hash_tmp :
    Demo.oracleNoHashfile.tmp_pfd = some { name := "tmp_pfd", size := 0 }
      ∧ Demo.oracleNoHashfile.tmp_hash_tmp = some { name := "tmp_hash", size := 0 }
      ∧ (preparePatchDownloadFiles Demo.cfg Demo.oracleNoHashfile State.init Demo.chunked2).1
          = { SPatchDownloadFiles.zero with prepare_error := true }
      ∧ (preparePatchDownloadFiles Demo.cfg Demo.oracleNoHashfile State.init
          Demo.chunked2).1.tmpNames = []
      ∧ State.init.tmpfiles = []
      ∧ (preparePatchDownloadFiles Demo.cfg Demo.oracleNoHashfile State.init
          Demo.chunked2).2.2.tmpfiles = ["tmp_hash"] := by
  refine ⟨by rfl, by rfl, by decide, by decide, by rfl, by decide⟩

/-- C14. Full transfer on an item with an allocated temp file `f` returns, for every
behaviour of the transport.  When the first `min k 5` result codes are `ERR_HASH`
and, for `k < 5`, the one after them is not, the transport is called exactly
`min k 5 + 1` times: the call log grows by the first call and `min k 5` rounds, each
a `Seek` that rewinds the temp file followed by a call on it, and what follows holds
neither call nor rewind.  The item is classified by the code of the last call.  A
transport that answers `ERR_HASH` twice and then `ERR_SUCCESS` leaves the same state,
call log apart, as one that answers `ERR_SUCCESS` at once: the id is added to
neither id set, `max_ok_id` is advanced and one hash record is dispatched. -/
theorem load_file_hash_retries (cfg : Config) (o : Oracle) (s : State) (todl : SQueueItem)
    (f : IFile) (k : Nat) (hm : todl.metadata_only = false) (hf : o.tmp_fd = some f)
    (hk : ∀ i, i < min k 5 → (o.getFile i).1 = ErrCode.ERR_HASH)
    (hlast : k < 5 → (o.getFile k).1 ≠ ErrCode.ERR_HASH) :
    (∃ ret s' tail,
        load_file cfg o s todl = some (ret, s')
        ∧ s'.trace
            = s.trace ++ (Ev.GetFile (getDLPath cfg o.random todl) (some f)
                :: retryCalls o.getFile (getDLPath cfg o.random todl) f (min k 5)) ++ tail
        ∧ tail.countP Ev.isGetFile = 0 ∧ tail.countP Ev.isSeek = 0
        ∧ s'.trace.countP Ev.isGetFile = s.trace.countP Ev.isGetFile + (min k 5 + 1)
        ∧ s'.trace.countP Ev.isSeek = s.trace.countP Ev.isSeek + min k 5
        ∧ load_file_finish cfg o
            { s with tmpfiles := f.name :: s.tmpfiles,
                     trace := s.trace ++ (Ev.GetFile (getDLPath cfg o.random todl) (some f)
                       :: retryCalls o.getFile (getDLPath cfg o.random todl) f (min k 5)) }
            todl (getDLPath cfg o.random todl) (o.getFile (min k 5)).1
            (some { f with size := (o.getFile (min k 5)).2 }) = some (ret, s'))
      ∧ (∀ (g1 g2 : Nat → ErrCode × Nat) (n a b : Nat),
          g1 0 = (ErrCode.ERR_SUCCESS, n) → g2 0 = (ErrCode.ERR_HASH, a) →
          g2 1 = (ErrCode.ERR_HASH, b) → g2 2 = (ErrCode.ERR_SUCCESS, n) →
          ∃ ret s1 s2,
            load_file cfg { o with getFile := g1 } s todl = some (ret, s1)
            ∧ load_file cfg { o with getFile := g2 } s todl = some (ret, s2)
            ∧ { s2 with trace := [] } = { s1 with trace := [] }
            ∧ s1.download_nok_ids = s.download_nok_ids
            ∧ s1.download_partial_ids = s.download_partial_ids
            ∧ s1.max_ok_id = max s.max_ok_id todl.id
            ∧ ∃ data, s1.hashpipe = s.hashpipe ++ [data] ∧ data.t_filesize = (n : Int)) := by
  have hstep : ∀ (o : Oracle) (k : Nat), o.tmp_fd = some f →
      (∀ i, i < min k 5 → (o.getFile i).1 = ErrCode.ERR_HASH) →
      (k < 5 → (o.getFile k).1 ≠ ErrCode.ERR_HASH) →
      load_file cfg o s todl
        = load_file_finish cfg o
            { s with tmpfiles := f.name :: s.tmpfiles,
                     trace := s.trace ++ (Ev.GetFile (getDLPath cfg o.random todl) (some f)
                       :: retryCalls o.getFile (getDLPath cfg o.random todl) f (min k 5)) }
            todl (getDLPath cfg o.random todl) (o.getFile (min k 5)).1
            (some { f with size := (o.getFile (min k 5)).2 }) := by
    intro o k hf hk hlast
    have hfd : load_file_fd o todl = some (some f) := by simp [load_file_fd, hm, hf]
    have htr := load_file_transfer_rounds o (getDLPath cfg o.random todl) f k hk hlast
    rw [load_file_eq_finish s hfd htr]
    rfl
  constructor
  · have heq := hstep o k hf hk hlast
    have hsome := load_file_finish_isSome cfg o
      { s with tmpfiles := f.name :: s.tmpfiles,
               trace := s.trace ++ (Ev.GetFile (getDLPath cfg o.random todl) (some f)
                 :: retryCalls o.getFile (getDLPath cfg o.random todl) f (min k 5)) }
      todl (getDLPath cfg o.random todl) (o.getFile (min k 5)).1
      (some { f with size := (o.getFile (min k 5)).2 }) (fun _ => rfl)
    obtain ⟨ret, s', hfin⟩ := exists_of_isSome hsome
    obtain ⟨tail, ht, hg, hs⟩ := load_file_finish_trace hfin
    obtain ⟨c1, c2⟩ := countP_isGetFile_retryCalls o.getFile (getDLPath cfg o.random todl) f
      (min k 5)
    simp only at ht
    refine ⟨ret, s', tail, heq.trans hfin, ht, hg, hs, ?_, ?_, hfin⟩
    · rw [ht]
      simp only [List.countP_append, List.countP_cons, c1, hg, Ev.isGetFile]
      simp
    · rw [ht]
      simp only [List.countP_append, List.countP_cons, c2, hs, Ev.isSeek]
      simp
  · intro g1 g2 n a b h10 h20 h21 h22
    have e1 := hstep { o with getFile := g1 } 0 hf (fun i hi => by simp at hi)
      (fun _ => by simp [h10])
    have e2 := hstep { o with getFile := g2 } 2 hf
      (fun i hi => by
        have hi2 : i < 2 := by simpa using hi
        rcases i with _ | _ | i
        · simp [h20]
        · simp [h21]
        · omega)
      (fun _ => by simp [h22])
    simp only [Nat.zero_min, show min 2 5 = 2 from rfl, h10, h22,
      load_file_finish_getFile] at e1 e2
    have hsome := load_file_finish_isSome cfg o
      { s with tmpfiles := f.name :: s.tmpfiles,
               trace := s.trace ++ (Ev.GetFile (getDLPath cfg o.random todl) (some f)
                 :: retryCalls g1 (getDLPath cfg o.random todl) f 0) }
      todl (getDLPath cfg o.random todl) ErrCode.ERR_SUCCESS
      (some { f with size := n }) (fun _ => rfl)
    obtain ⟨ret, s1, hfin1⟩ := exists_of_isSome hsome
    have hind := load_file_finish_of_trace cfg o
      { s with tmpfiles := f.name :: s.tmpfiles } todl (getDLPath cfg o.random todl)
      ErrCode.ERR_SUCCESS (some { f with size := n })
      (s.trace ++ (Ev.GetFile (getDLPath cfg o.random todl) (some f)
        :: retryCalls g2 (getDLPath cfg o.random todl) f 2))
      (s.trace ++ (Ev.GetFile (getDLPath cfg o.random todl) (some f)
        :: retryCalls g1 (getDLPath cfg o.random todl) f 0))
    simp only at hind
    rw [hfin1] at hind
    rcases hfin2 : load_file_finish cfg o
      { s with tmpfiles := f.name :: s.tmpfiles,
               trace := s.trace ++ (Ev.GetFile (getDLPath cfg o.random todl) (some f)
                 :: retryCalls g2 (getDLPath cfg o.random todl) f 2) }
      todl (getDLPath cfg o.random todl) ErrCode.ERR_SUCCESS
      (some { f with size := n }) with _ | ⟨ret2, s2⟩
    · rw [hfin2] at hind
      simp at hind
    · rw [hfin2] at hind
      simp only [Option.map_some', Option.some.injEq, Prod.mk.injEq] at hind
      obtain ⟨hr, hs⟩ := hind
      subst hr
      obtain ⟨m1, m2, m3, -, -⟩ := load_file_finish_success hfin1
      obtain ⟨data, d1, d2, -⟩ := load_file_finish_success_hash hm hfin1
      exact ⟨ret2, s1, s2, e1.trans hfin1, e2.trans hfin2, hs, m2, m3, m1, data, d1, d2⟩

theorem load_file_hash_retries_witness :
    Demo.full1.metadata_only = false
      ∧ Demo.oracleHashTwice.tmp_fd = some { name := "tmp_fd", size := 0 }
      ∧ (Demo.oracleHashTwice.getFile 0).1 = ErrCode.ERR_HASH
      ∧ (Demo.oracleHashTwice.getFile 1).1 = ErrCode.ERR_HASH
      ∧ (Demo.oracleHashTwice.getFile 2).1 = ErrCode.ERR_SUCCESS
      ∧ ∃ ret s', load_file Demo.cfg Demo.oracleHashTwice State.init Demo.full1 = some (ret, s')
          ∧ s'.trace.countP Ev.isGetFile = 3 ∧ s'.trace.countP Ev.isSeek = 2 := by
  refine ⟨by rfl, by rfl, by decide, by decide, by decide, ?_⟩
  obtain ⟨ret, s', tail, h, -, -, -, hg, hs, -⟩ :=
    (load_file_hash_retries Demo.cfg Demo.oracleHashTwice State.init Demo.full1
      { name := "tmp_fd", size := 0 } 2 (by rfl) (by rfl) (by decide) (by decide)).1
  exact ⟨ret, s', h, hg, hs⟩

/-- C15. For a chunked transfer item that is neither prepared nor marked
`prepare_error`, with no prior file under `last_backuppath` nor under
`last_backuppath_complete`: `load_file_patch` returns true and changes the state only
in that it puts a new item at the head of the queue and adds 1 to `queue_size`; so it
calls no transport and adds the id to neither id set.  The new item is a full
transfer with the same id, names, paths, predicted size, metadata, `is_script` and
`metadata_only`, not prepared and without `prepare_error`.  In the engine loop the
step leaves `is_offline` false, the next dequeue takes the new item and restores
queue and `queue_size`, and the step after it is `load_file` on that item. -/
theorem load_file_patch_requeues_as_full (cfg : Config) (o : Oracle) (todl : SQueueItem)
    (ha : todl.action = EQueueAction.EQueueAction_Fileclient)
    (hc : todl.fileclient = EFileClient.EFileClient_Chunked)
    (hp : todl.patch_dl_files.prepared = false)
    (he : todl.patch_dl_files.prepare_error = false)
    (h1 : o.open_old = none)
    (h2 : cfg.last_backuppath_complete ≠ "" → o.open_old_complete = none) :
    (∀ s : State, load_file_patch cfg o s todl
        = some (true,
            { s with
              dl_queue :=
                { id := todl.id, fn := todl.fn, short_fn := todl.short_fn,
                  curr_path := todl.curr_path, os_path := todl.os_path,
                  predicted_filesize := todl.predicted_filesize,
                  fileclient := EFileClient.EFileClient_Full, queued := false,
                  action := EQueueAction.EQueueAction_Fileclient,
                  patch_dl_files := SPatchDownloadFiles.zero, metadata := todl.metadata,
                  is_script := todl.is_script, metadata_only := todl.metadata_only }
                :: s.dl_queue,
              queue_size := s.queue_size + 1 }))
      ∧ (∀ s : State, s.curr = some todl → s.is_offline = false → s.skipping = false →
          s.finished = false →
          ∃ ni s1 s2, ni = addToQueueFull.ni todl.id todl.fn todl.short_fn todl.curr_path
                todl.os_path todl.predicted_filesize todl.metadata todl.is_script
                todl.metadata_only
            ∧ process cfg o s = some s1
            ∧ s1 = { s with curr := none, dl_queue := ni :: s.dl_queue,
                            queue_size := s.queue_size + 1 }
            ∧ apply cfg Op.dequeue s1 = some s2
            ∧ s2 = { s with curr := some ni }
            ∧ ∀ o2 : Oracle, process cfg o2 s2
                = (load_file cfg o2 { s with curr := none } ni).map
                    (fun r => if !r.1 then { r.2 with is_offline := true } else r.2)) := by
  have hprep : ∀ s : State, preparePatchDownloadFiles cfg o s todl
      = ({ SPatchDownloadFiles.zero with prepare_error := true }, true, s) := by
    intro s
    unfold preparePatchDownloadFiles
    by_cases hl : cfg.last_backuppath_complete = ""
    · simp [h1, hl]
    · simp [h1, hl, h2 hl]
  have hlfp : ∀ s : State, load_file_patch cfg o s todl
      = some (true,
          { s with
            dl_queue :=
              addToQueueFull.ni todl.id todl.fn todl.short_fn todl.curr_path todl.os_path
                todl.predicted_filesize todl.metadata todl.is_script todl.metadata_only
              :: s.dl_queue,
            queue_size := s.queue_size + 1 }) := by
    intro s
    simp [load_file_patch, load_file_patch_prepare, hp, he, hprep, SPatchDownloadFiles.zero,
      addToQueueFull, queue_items_full]
  refine ⟨fun s => hlfp s, ?_⟩
  intro s hcurr hoff hskip hfin
  refine ⟨_, _, _, rfl, ?_, rfl, ?_, rfl, ?_⟩
  · simp [process, hcurr, ha, hc, hoff, hskip, hlfp]
  · simp [apply, hfin, dequeue, addToQueueFull.ni, queue_items_full, subSizeT]
  · intro o2
    simp only [process, addToQueueFull.ni, hoff, hskip]
    simp only [reduceCtorEq, if_false, Bool.or_self, Bool.false_eq_true, if_true]
    rcases load_file cfg o2 _ _ with _ | ⟨ret, s3⟩
    · rfl
    · rfl

theorem load_file_patch_requeues_as_full_witness :
    Demo.chunked2.patch_dl_files.prepared = false
      ∧ Demo.chunked2.patch_dl_files.prepare_error = false
      ∧ Demo.oracleNoPrior.open_old = none ∧ Demo.oracleNoPrior.open_old_complete = none
      ∧ load_file_patch Demo.cfg Demo.oracleNoPrior State.init Demo.chunked2
        = some (true,
            { State.init with
              dl_queue := [addToQueueFull.ni 2 "b" "b" "" "" 100 "" false false],
              queue_size := 1 }) :=
  ⟨by rfl, by rfl, by rfl, by rfl,
    (load_file_patch_requeues_as_full Demo.cfg Demo.oracleNoPrior Demo.chunked2 (by rfl)
      (by rfl) (by rfl) (by rfl) (by rfl) (fun _ => rfl)).1 State.init⟩

/-- C16, at a failing input.  For a metadata-only item no temp file is created and the
handle `fd` is null; the transport answers `ERR_HASH`, the retry loop rewinds `fd`,
and `load_file` has no result. -/
theorem load_file_rewinds_null_handle :
    Demo.meta1.metadata_only = true
      ∧ load_file_fd Demo.oracleHash Demo.meta1 = some none
      ∧ (Demo.oracleHash.getFile 0).1 = ErrCode.ERR_HASH
      ∧ load_file_transfer Demo.oracleHash (getDLPath Demo.cfg 0 Demo.meta1) none = none
      ∧ (load_file Demo.cfg Demo.oracleHash State.init Demo.meta1).isSome = false := by
  refine ⟨by rfl, by decide, by decide, by decide, by decide⟩

end ServerDownloadThread
